import Mathlib

/-!
# filecoin-discover-validator: the commP collector

A shallow embedding of `internal/dagger/collector/filcommp` (`impl.go`, `argparse.go`):
the Fr32 expansion of 127-byte windows, the 254-bit SHA-256 digest, the table of
zero-subtree digests and the stack of pairing layers that reduces the leaf digests
to the piece commitment.

Bytes are natural numbers below 256 and byte slices are lists. Byte arithmetic that
can leave the 8-bit range carries an explicit `% 256`.
-/

namespace Filcommp

/-! ## SHA-256 (FIPS 180-4), the digest computed by `sha256simd.New()` -/

/-- Right rotation of a 32-bit word. -/
def rotr32 (x n : Nat) : Nat := ((x >>> n) ||| (x <<< (32 - n))) % 2 ^ 32

/-- SHA-256 round constants (FIPS 180-4, section 4.2.2). -/
def sha256K : List Nat := [
  0x428a2f98, 0x71374491, 0xb5c0fbcf, 0xe9b5dba5, 0x3956c25b, 0x59f111f1, 0x923f82a4, 0xab1c5ed5,
  0xd807aa98, 0x12835b01, 0x243185be, 0x550c7dc3, 0x72be5d74, 0x80deb1fe, 0x9bdc06a7, 0xc19bf174,
  0xe49b69c1, 0xefbe4786, 0x0fc19dc6, 0x240ca1cc, 0x2de92c6f, 0x4a7484aa, 0x5cb0a9dc, 0x76f988da,
  0x983e5152, 0xa831c66d, 0xb00327c8, 0xbf597fc7, 0xc6e00bf3, 0xd5a79147, 0x06ca6351, 0x14292967,
  0x27b70a85, 0x2e1b2138, 0x4d2c6dfc, 0x53380d13, 0x650a7354, 0x766a0abb, 0x81c2c92e, 0x92722c85,
  0xa2bfe8a1, 0xa81a664b, 0xc24b8b70, 0xc76c51a3, 0xd192e819, 0xd6990624, 0xf40e3585, 0x106aa070,
  0x19a4c116, 0x1e376c08, 0x2748774c, 0x34b0bcb5, 0x391c0cb3, 0x4ed8aa4a, 0x5b9cca4f, 0x682e6ff3,
  0x748f82ee, 0x78a5636f, 0x84c87814, 0x8cc70208, 0x90befffa, 0xa4506ceb, 0xbef9a3f7, 0xc67178f2]

/-- The eight 32-bit chaining words of SHA-256. -/
structure ShaState where
  a : Nat
  b : Nat
  c : Nat
  d : Nat
  e : Nat
  f : Nat
  g : Nat
  h : Nat

/-- Initial hash value (FIPS 180-4, section 5.3.3). -/
def sha256Init : ShaState :=
  ⟨0x6a09e667, 0xbb67ae85, 0x3c6ef372, 0xa54ff53a, 0x510e527f, 0x9b05688c, 0x1f83d9ab, 0x5be0cd19⟩

/-- Big-endian 32-bit word from the first four bytes of a list. -/
def beWord : List Nat → Nat
  | b0 :: b1 :: b2 :: b3 :: _ => ((b0 % 256) <<< 24) ||| ((b1 % 256) <<< 16) ||| ((b2 % 256) <<< 8) ||| (b3 % 256)
  | _ => 0

/-- The sixteen message words of a 64-byte block. -/
def blockWords : Nat → List Nat → List Nat
  | 0, _ => []
  | n + 1, bs => beWord bs :: blockWords n (bs.drop 4)

def smallSigma0 (x : Nat) : Nat := rotr32 x 7 ^^^ rotr32 x 18 ^^^ (x >>> 3)
def smallSigma1 (x : Nat) : Nat := rotr32 x 17 ^^^ rotr32 x 19 ^^^ (x >>> 10)
def bigSigma0 (x : Nat) : Nat := rotr32 x 2 ^^^ rotr32 x 13 ^^^ rotr32 x 22
def bigSigma1 (x : Nat) : Nat := rotr32 x 6 ^^^ rotr32 x 11 ^^^ rotr32 x 25
def shaCh (x y z : Nat) : Nat := (x &&& y) ^^^ ((2 ^ 32 - 1 - x) &&& z)
def shaMaj (x y z : Nat) : Nat := (x &&& y) ^^^ (x &&& z) ^^^ (y &&& z)

/-- One round: `w` is the schedule word, `k` the round constant. -/
def shaRound (s : ShaState) (k w : Nat) : ShaState :=
  let t1 := (s.h + bigSigma1 s.e + shaCh s.e s.f s.g + k + w) % 2 ^ 32
  let t2 := (bigSigma0 s.a + shaMaj s.a s.b s.c) % 2 ^ 32
  ⟨(t1 + t2) % 2 ^ 32, s.a, s.b, s.c, (s.d + t1) % 2 ^ 32, s.e, s.f, s.g⟩

/-- The rounds of one block: `win` holds the last sixteen schedule words, oldest first. -/
def shaRounds : List Nat → List Nat → ShaState → ShaState
  | [], _, s => s
  | k :: ks, win, s =>
    match win with
    | w0 :: w1 :: w2 :: w3 :: w4 :: w5 :: w6 :: w7 :: w8 :: w9 :: w10 :: w11 :: w12 :: w13 :: w14 :: w15 :: _ =>
      let wn := (smallSigma1 w14 + w9 + smallSigma0 w1 + w0) % 2 ^ 32
      shaRounds ks [w1, w2, w3, w4, w5, w6, w7, w8, w9, w10, w11, w12, w13, w14, w15, wn] (shaRound s k w0)
    | _ => s

/-- Compression of one 64-byte block into the chaining state. -/
def shaCompress (s : ShaState) (block : List Nat) : ShaState :=
  let r := shaRounds sha256K (blockWords 16 block) s
  ⟨(s.a + r.a) % 2 ^ 32, (s.b + r.b) % 2 ^ 32, (s.c + r.c) % 2 ^ 32, (s.d + r.d) % 2 ^ 32,
   (s.e + r.e) % 2 ^ 32, (s.f + r.f) % 2 ^ 32, (s.g + r.g) % 2 ^ 32, (s.h + r.h) % 2 ^ 32⟩

/-- Fold the compression over `n` consecutive 64-byte blocks. -/
def shaBlocks : Nat → List Nat → ShaState → ShaState
  | 0, _, s => s
  | n + 1, bs, s => shaBlocks n (bs.drop 64) (shaCompress s (bs.take 64))

/-- Big-endian bytes of a word, `n` bytes wide. -/
def beBytes : Nat → Nat → List Nat
  | 0, _ => []
  | n + 1, x => (x >>> (8 * n)) % 256 :: beBytes n x

/-- Message padding: a 0x80 byte, zeros up to 56 mod 64, then the bit length on 8 bytes. -/
def shaPad (msg : List Nat) : List Nat :=
  msg ++ 0x80 :: List.replicate ((119 - msg.length % 64) % 64) 0 ++ beBytes 8 (8 * msg.length % 2 ^ 64)

/-- SHA-256 of a byte string (FIPS 180-4), the function behind `sha256simd.New()`. -/
def sha256 (msg : List Nat) : List Nat :=
  let p := shaPad msg
  let s := shaBlocks (p.length / 64) p sha256Init
  beBytes 4 s.a ++ beBytes 4 s.b ++ beBytes 4 s.c ++ beBytes 4 s.d ++
  beBytes 4 s.e ++ beBytes 4 s.f ++ beBytes 4 s.g ++ beBytes 4 s.h




/-! ## Constants (`impl.go`, lines 14-17) -/

/-- The constant `maxLayers`: the length of `layerQueues` and of `stackedNulPadding`. -/
def maxLayers : Nat := 31

/-- The constant `StrideSize`, as a function of `constants.MaxLeafPayloadSize`
(package `constants` is not among the sources, so its value is a parameter). -/
def StrideSize (MaxLeafPayloadSize : Nat) : Nat :=
  MaxLeafPayloadSize - (MaxLeafPayloadSize % 127)

/-- The constant `MaxPiecePayload`, computed as Go computes an untyped constant
expression: exactly. -/
def MaxPiecePayload : Nat := 127 * (((1 <<< maxLayers) * 32) / 128)

/-! ## The 254-bit digest (`hash254Into`) -/

/-- The statement `d[31] &= 0x3F` on a digest slice. -/
def clearTop2 (d : List Nat) : List Nat := d.set 31 (d.getD 31 0 &&& 0x3F)

/-- The function `hash254Into`: every slice of `data` is written to one SHA-256 state, the sum has
the two top bits of its last byte cleared, and this digest is what is sent on `out`. -/
def hash254 (data : List (List Nat)) : List Nat := clearTop2 (sha256 data.flatten)

/-! ## Fr32 expansion of one window (`AppendData`, lines 170-222) -/

/-- Go's `copy(dst, src)`: the first `min (len dst) (len src)` bytes are overwritten. -/
def goCopy (dst src : List Nat) : List Nat :=
  src.take dst.length ++ dst.drop src.length

/-- One of the three shifting loops,
`for i := lo; i < hi; i++ { expansionPlus1[i] = windowPlus1[i]<<k | window[i]>>(8-k) }`,
run for `n = hi - lo` iterations from `i`. `expansionPlus1[i]` is `expansion[i+1]` and
`windowPlus1[i]` is `window[i+1]`; the left shift of a byte is truncated to 8 bits. -/
def shiftLoop (k : Nat) (window : List Nat) : Nat → Nat → List Nat → List Nat
  | 0, _, expansion => expansion
  | n + 1, i, expansion =>
    shiftLoop k window n (i + 1)
      (expansion.set (i + 1)
        (((window.getD (i + 1) 0 <<< k) % 256) ||| (window.getD i 0 >>> (8 - k))))

/-- The body of the window loop of `AppendData` up to the two hash calls: the 128-byte
`expansion` of a 127-byte `window`. -/
def fr32Expand (window : List Nat) : List Nat :=
  let e0 := goCopy (List.replicate 128 0) (window.take 32)
  let e1 := e0.set 31 (e0.getD 31 0 &&& 0x3F)
  let e2 := shiftLoop 2 window 32 31 e1
  let e3 := e2.set 63 (e2.getD 63 0 &&& 0x3F)
  let e4 := shiftLoop 4 window 32 63 e3
  let e5 := e4.set 95 (e4.getD 95 0 &&& 0x3F)
  let e6 := shiftLoop 6 window 31 95 e5
  e6.set 127 (window.getD 126 0 >>> 2)

/-- The two leaf digests of a window, in the order they are sent to `layerQueues[0]`:
`hash254Into(.., expansion[:64])` then `hash254Into(.., expansion[64:])`. -/
def windowLeaves (window : List Nat) : List (List Nat) :=
  [hash254 [(fr32Expand window).take 64], hash254 [(fr32Expand window).drop 64]]

/-! ## The layer goroutines (`addLayer`) -/

/-- The local state of the goroutine started by `addLayer(myIdx)`: the held chunk
(`none` is the nil slice), whether `layerQueues[myIdx+2]` is non-nil (only this
goroutine ever sets it, through `addLayer(myIdx+1)`), and the digests it has sent to
`layerQueues[myIdx+1]`, oldest first. -/
structure LayerRun where
  chunkHold : Option (List Nat)
  nextAdded : Bool
  sent : List (List Nat)

/-- The goroutine as it starts: nothing held, no next layer, nothing sent. -/
def LayerRun.init : LayerRun := ⟨none, false, []⟩

/-- The receive branch of the `select`, for the chunks of `queue` in order. The result
is `none` when the goroutine panics: reading `layerQueues[myIdx+2]` is an index out of
range unless `myIdx + 2 < maxLayers`. -/
def layerReceive (myIdx : Nat) : List (List Nat) → LayerRun → Option LayerRun
  | [], st => some st
  | chunk :: queue, st =>
    match st.chunkHold with
    | none => layerReceive myIdx queue { st with chunkHold := some chunk }
    | some held =>
      if myIdx + 2 < maxLayers then
        layerReceive myIdx queue ⟨none, true, st.sent ++ [hash254 [held, chunk]]⟩
      else none

/-- What the closing of `layerQueues[myIdx]` makes the goroutine do. -/
inductive LayerClose where
  /-- index out of range on `layerQueues[myIdx+2]` or `stackedNulPadding[myIdx+1]` -/
  | panic
  /-- The "I am last" branch: `chunkHold` is sent on `resultCommP` -/
  | result (cid : Option (List Nat))
  /-- The channel `layerQueues[myIdx+1]` is closed after having received exactly `queue` -/
  | closeNext (queue : List (List Nat))

/-- The `!queueIsOpen` branch of the goroutine. -/
def layerClose (stackedNulPadding : List (List Nat)) (myIdx : Nat) (st : LayerRun) :
    LayerClose :=
  if myIdx + 2 < maxLayers then
    if st.nextAdded = false then .result st.chunkHold
    else
      match st.chunkHold with
      | none => .closeNext st.sent
      | some held =>
        match stackedNulPadding[myIdx + 1]? with
        | some pad => .closeNext (st.sent ++ [hash254 [held, pad]])
        | none => .panic
  else .panic

/-- What `FlushState` receives, or fails to receive, after closing `layerQueues[0]`. -/
inductive FlushResult where
  /-- a layer goroutine panicked with an index out of range -/
  | panic
  /-- the recursion budget of the model ran out (never the case from `FlushState`) -/
  | fuelOut
  /-- the value read from `resultCommP`; `none` is the nil slice -/
  | commP (cid : Option (List Nat))

/-- The goroutine of layer `myIdx` run over the whole content of its queue followed by
the close, then the layers above it in turn. Each layer reads one channel in order and
is the only writer of the next one, so the result is a function of the queue. -/
def runLayers (stackedNulPadding : List (List Nat)) :
    Nat → Nat → List (List Nat) → FlushResult
  | 0, _, _ => .fuelOut
  | fuel + 1, myIdx, queue =>
    match layerReceive myIdx queue LayerRun.init with
    | none => .panic
    | some st =>
      match layerClose stackedNulPadding myIdx st with
      | .panic => .panic
      | .result cid => .commP cid
      | .closeNext next => runLayers stackedNulPadding fuel (myIdx + 1) next

/-! ## The collector -/

/-- The struct `state`, with the channel `layerQueues[0]` represented by the digests
sent on it so far. -/
structure State where
  shortChunkSeen : Bool
  payloadSize : Nat
  layerQueue0 : List (List Nat)

/-- The state allocated by `reset`. -/
def State.reset : State := ⟨false, 0, []⟩

/-- The struct `commpCollector`. `fr32WorkBuf` is the backing array of the work buffer,
its length being the capacity of the slice. -/
structure CommpCollector extends State where
  fr32WorkBuf : List Nat
  stackedNulPadding : List (List Nat)

/-- One iteration of the loop of `NewCollector` that fills `stackedNulPadding`. -/
def nulPaddingStep (tbl : List (List Nat)) (i : Nat) : List (List Nat) :=
  if i = 0 then tbl.set 0 (List.replicate 32 0)
  else
    let d := sha256 (tbl.getD (i - 1) [] ++ tbl.getD (i - 1) [])
    tbl.set i (d.set 31 (d.getD 31 0 &&& 0x3F))

/-- The collector built by `NewCollector` once the arguments are accepted
(`argparse.go`, lines 30-58). -/
def NewCollector (MaxLeafPayloadSize : Nat) : CommpCollector :=
  { State.reset with
    fr32WorkBuf := List.replicate (StrideSize MaxLeafPayloadSize) 0
    stackedNulPadding :=
      (List.range maxLayers).foldl nulPaddingStep (List.replicate maxLayers []) }

/-- The fields of `dgrblock.DataSource` that `AppendData` reads: `Size` of the embedded
chunk and the bytes of `Content`. -/
structure DataSource where
  Size : Nat
  Content : List Nat

/-- Go's `append(arr[:len], xs...)`, as the backing array of the result. The bytes are
written in place when the capacity suffices; otherwise a new array is allocated, whose
capacity is taken to be exactly the new length. -/
def goAppend (arr : List Nat) (len : Nat) (xs : List Nat) : List Nat :=
  if len + xs.length ≤ arr.length then arr.take len ++ xs ++ arr.drop (len + xs.length)
  else arr.take len ++ xs

/-- Modelled from the spec: `ZcpString.AppendTo` (package `zcpstring` is not among the
sources), taken to append the wrapped bytes to the target slice. The target of the one
call in `AppendData` is `cp.fr32WorkBuf[:0]`. -/
def zcpAppendTo (content : List Nat) (arr : List Nat) : List Nat :=
  goAppend arr 0 content

/-- The errors `AppendData` returns. -/
inductive AppendError where
  | afterShortChunk
  | minimumInput
  | maximumPayload
  deriving DecidableEq

/-- How a call of `AppendData` ends. -/
inductive AppendResult where
  | ok
  | error (e : AppendError)
  /-- slice bounds out of range when taking a window -/
  | panic
  deriving DecidableEq

/-- The window loop of `AppendData`, `for wbufIdx := ..; wbufIdx < len; wbufIdx += 127`,
for `n` iterations from `wbufIdx`, over the backing array `arr`. -/
def windowLoop (payloadSize : Nat) (arr : List Nat) :
    Nat → Nat → List (List Nat) → List (List Nat) × AppendResult
  | 0, _, queue => (queue, .ok)
  | n + 1, wbufIdx, queue =>
    if payloadSize > MaxPiecePayload then (queue, .error .maximumPayload)
    else if arr.length < wbufIdx + 127 then (queue, .panic)
    else
      windowLoop payloadSize arr n (wbufIdx + 127)
        (queue ++ windowLeaves ((arr.drop wbufIdx).take 127))

/-- The method `AppendData`: the collector after the call and how the call ended. -/
def AppendData (cp : CommpCollector) (ds : DataSource) : CommpCollector × AppendResult :=
  if cp.shortChunkSeen then (cp, .error .afterShortChunk)
  else
    let buf := zcpAppendTo ds.Content cp.fr32WorkBuf
    let payloadSize := (cp.payloadSize + ds.Size) % 2 ^ 64
    let rem := payloadSize % 127
    if rem ≠ 0 then
      if payloadSize < 127 then
        ({ cp with fr32WorkBuf := buf, payloadSize := payloadSize }, .error .minimumInput)
      else
        let padded := goAppend buf ds.Content.length (List.replicate (127 - rem) 0)
        let len := ds.Content.length + (127 - rem)
        let r := windowLoop payloadSize padded ((len + 126) / 127) 0 cp.layerQueue0
        ({ cp with fr32WorkBuf := padded, payloadSize := payloadSize,
                   shortChunkSeen := true, layerQueue0 := r.1 }, r.2)
    else
      let r := windowLoop payloadSize buf ((ds.Content.length + 126) / 127) 0 cp.layerQueue0
      ({ cp with fr32WorkBuf := buf, payloadSize := payloadSize, layerQueue0 := r.1 }, r.2)

/-- The method `FlushState`: the digest received from `resultCommP` and the collector after the
deferred `reset`. The size fields of the returned header are not part of the model. -/
def FlushState (cp : CommpCollector) : FlushResult × CommpCollector :=
  (runLayers cp.stackedNulPadding maxLayers 0 cp.layerQueue0,
   { cp with toState := State.reset })

/-- The commitment of a whole input given to a new collector in one `AppendData` call,
as `FlushState` returns it. -/
def commP (MaxLeafPayloadSize : Nat) (data : List Nat) : FlushResult :=
  (FlushState (AppendData (NewCollector MaxLeafPayloadSize) ⟨data.length, data⟩).1).1

/-! ## Reference notions used to state the properties -/

/-- The byte one iteration of a shifting loop stores at `expansion[i+1]`. -/
def shiftByte (k : Nat) (window : List Nat) (i : Nat) : Nat :=
  ((window.getD (i + 1) 0 <<< k) % 256) ||| (window.getD i 0 >>> (8 - k))

/-- The byte of the expansion at index `j`, case by case. -/
def fr32Byte (w : List Nat) (j : Nat) : Nat :=
  if j < 31 then w.getD j 0
  else if j = 31 then w.getD 31 0 &&& 0x3F
  else if j < 63 then shiftByte 2 w (j - 1)
  else if j = 63 then shiftByte 2 w 62 &&& 0x3F
  else if j < 95 then shiftByte 4 w (j - 1)
  else if j = 95 then shiftByte 4 w 94 &&& 0x3F
  else if j < 127 then shiftByte 6 w (j - 1)
  else if j = 127 then w.getD 126 0 >>> 2
  else 0


/-- A byte string: every element is below 256. -/
def IsBytes (bs : List Nat) : Prop := ∀ b ∈ bs, b < 256

/-- A 127-byte window. -/
def IsWindow (w : List Nat) : Prop := w.length = 127 ∧ IsBytes w

/-- Bit `k` of a buffer read as a little-endian bit string. -/
def bitAt (buf : List Nat) (k : Nat) : Bool := (buf.getD (k / 8) 0).testBit (k % 8)

/-- The little-endian integer held by a byte string. -/
def leValue : List Nat → Nat
  | [] => 0
  | b :: bs => b + 256 * leValue bs

/-- A digest as the spec defines it: 32 bytes, the last one with bits 6 and 7 clear. -/
def IsDigest (d : List Nat) : Prop := d.length = 32 ∧ d.getD 31 0 &&& 0xC0 = 0

/-- The table of `NewCollector` after the first `n` iterations of its loop. -/
def nulTable (n : Nat) : List (List Nat) :=
  (List.range n).foldl nulPaddingStep (List.replicate maxLayers [])

/-- The digests a layer sends while receiving: one per complete pair of its queue. -/
def pairs : List (List Nat) → List (List Nat)
  | l :: r :: rest => hash254 [l, r] :: pairs rest
  | _ => []

/-- The digest a layer still holds once its whole queue is received: the last one of a
queue of odd length. -/
def oddOne : List (List Nat) → Option (List Nat)
  | [] => none
  | [d] => some d
  | _ :: _ :: rest => oddOne rest

/-- One level of the tree: consecutive pairs are hashed, an unpaired last digest is
hashed with `pad`. -/
def pairUp (pad : List Nat) : List (List Nat) → List (List Nat)
  | [] => []
  | [d] => [hash254 [d, pad]]
  | l :: r :: rest => hash254 [l, r] :: pairUp pad rest

/-- The root of the perfect binary tree of height `h` built with `H254(left || right)`
over a bottom row of `2 ^ h` digests. -/
def treeRoot : Nat → List (List Nat) → List Nat
  | 0, row => row.headD []
  | h + 1, row => hash254 [treeRoot h (row.take (2 ^ h)), treeRoot h (row.drop (2 ^ h))]

/-- An input right-padded with zero bytes to a whole number of 127-byte windows. -/
def zeroPadded (data : List Nat) : List Nat :=
  data ++ List.replicate ((127 - data.length % 127) % 127) 0

/-- The number of 127-byte windows of an input of `len` bytes. -/
def windowCount (len : Nat) : Nat := (len + 126) / 127

/-- The consecutive 127-byte windows of an input, the last one zero-padded. -/
def windowsOf (data : List Nat) : List (List Nat) :=
  (List.range (windowCount data.length)).map
    (fun j => ((zeroPadded data).drop (127 * j)).take 127)

/-- The leaf digests of an input in stream order: two per window. -/
def leafRow (data : List Nat) : List (List Nat) :=
  (windowsOf data).flatMap windowLeaves

/-- A sequence of `AppendData` calls, whatever each call returns. -/
def appendAll (cp : CommpCollector) (chunks : List DataSource) : CommpCollector :=
  chunks.foldl (fun c ds => (AppendData c ds).1) cp

/-- The leaf digests of the first `n` 127-byte windows of a buffer, in order. -/
def rowOf (buf : List Nat) (n : Nat) : List (List Nat) :=
  (List.range n).flatMap (fun j => windowLeaves ((buf.drop (127 * j)).take 127))

/-- The data source of a chunk whose `Size` is the length of its content. -/
def chunkSource (c : List Nat) : DataSource := ⟨c.length, c⟩

/-! ## The rest of the collector's surroundings -/

/-- Every call of a sequence of `AppendData` calls returns no error. -/
def allAccepted : CommpCollector → List DataSource → Prop
  | _, [] => True
  | cp, ds :: rest => (AppendData cp ds).2 = .ok ∧ allAccepted (AppendData cp ds).1 rest

/-- The work buffer of `AppendData` when its window loop starts (`impl.go`, lines 156-168):
the backing array and `len(cp.fr32WorkBuf)`; `none` when the call returns before the loop. -/
def fr32WorkBufAtLoop (cp : CommpCollector) (ds : DataSource) : Option (List Nat × Nat) :=
  if cp.shortChunkSeen then none
  else
    let buf := zcpAppendTo ds.Content cp.fr32WorkBuf
    let payloadSize := (cp.payloadSize + ds.Size) % 2 ^ 64
    let rem := payloadSize % 127
    if rem ≠ 0 then
      if payloadSize < 127 then none
      else
        some (goAppend buf ds.Content.length (List.replicate (127 - rem) 0),
              ds.Content.length + (127 - rem))
    else some (buf, ds.Content.length)

/-! ## The synchronous reducer -/

/-- The synchronous reducer receiving one digest at the lowest layer of `pending`, a slot
per layer from that layer upwards: an empty slot stores the digest; a full slot is
cleared and the hash of the pair is passed to the layer above, which is added when it did
not exist yet. -/
def syncInsert : List (Option (List Nat)) → List Nat → List (Option (List Nat))
  | [], d => [some d]
  | none :: rest, d => some d :: rest
  | some l :: rest, d => none :: syncInsert rest (hash254 [l, d])

/-- The measure that makes the final walk of the synchronous reducer terminate: a slot
counts one, a held digest one more. -/
def syncWeight : List (Option (List Nat)) → Nat
  | [] => 0
  | none :: rest => 1 + syncWeight rest
  | some _ :: rest => 2 + syncWeight rest

/-- The final walk of the synchronous reducer from layer `i` upwards: the top layer holds
the root; below it a held digest is hashed with the zero-subtree digest the source uses at
that layer, `stackedNulPadding[i+1]`, and the result is received by the layer above. -/
def syncFlush (stackedNulPadding : List (List Nat)) :
    Nat → List (Option (List Nat)) → Option (List Nat)
  | _, [] => none
  | _, [p] => p
  | i, none :: q :: rest => syncFlush stackedNulPadding (i + 1) (q :: rest)
  | i, some d :: q :: rest =>
    syncFlush stackedNulPadding (i + 1)
      (syncInsert (q :: rest) (hash254 [d, stackedNulPadding.getD (i + 1) []]))
termination_by _ pending => syncWeight pending
decreasing_by
  · simp only [syncWeight]; cases q <;> simp only [syncWeight] <;> omega
  · have key : ∀ (p : List (Option (List Nat))) (x : List Nat),
        syncWeight (syncInsert p x) ≤ syncWeight p + 2 := by
      intro p
      induction p with
      | nil => intro _; simp [syncInsert, syncWeight]
      | cons a t ih =>
        intro x
        cases a with
        | none => simp only [syncInsert, syncWeight]; omega
        | some l =>
          have := ih (hash254 [l, x])
          simp only [syncInsert, syncWeight]
          omega
    cases q with
    | none => simp only [syncInsert, syncWeight]; omega
    | some l =>
      have := key rest (hash254 [l, hash254 [d, stackedNulPadding.getD (i + 1) []]])
      simp only [syncInsert, syncWeight]
      omega

/-- The root the synchronous reducer returns for a sequence of leaf digests. -/
def syncRoot (stackedNulPadding : List (List Nat)) (leaves : List (List Nat)) :
    Option (List Nat) :=
  syncFlush stackedNulPadding 0 (leaves.foldl syncInsert [])


/-! ## Chunk bookkeeping of `recursivelySplitBuffer` -/

/-- A value of Go's 64-bit `int` after an arithmetic operation: two's complement
wrap-around. -/
def wrapInt (x : Int) : Int := (x + 2 ^ 63) % 2 ^ 64 - 2 ^ 63

/-- What the chunk callback of `recursivelySplitBuffer` has done so far: the counter
`processedBytes`, the calls of `errHandler` (region size and position reported) and the
sub-regions (offset and size) handed on, to a sub-chunker or as a result. -/
structure SplitRun where
  processedBytes : Int
  reported : List (Int × Int)
  regions : List (Int × Int)

/-- The callback given to `Split` in `recursivelySplitBuffer` (`ingest.go`, lines 355-393),
for a work region of `regionSize` bytes and a chunk of size `cSize`: the run after the call
and whether the call returned an error. -/
def splitCallback (regionSize : Int) (run : SplitRun) (cSize : Int) : SplitRun × Bool :=
  if cSize ≤ 0 ∨ cSize > wrapInt (regionSize - run.processedBytes) then
    ({ run with reported := run.reported ++ [(regionSize, run.processedBytes)] }, true)
  else
    ({ run with regions := run.regions ++ [(run.processedBytes, cSize)],
                processedBytes := wrapInt (run.processedBytes + cSize) }, false)

/-- The run after the callback has been called for each chunk size of a list in turn. -/
def splitCalls (regionSize : Int) (run : SplitRun) (sizes : List Int) : SplitRun :=
  sizes.foldl (fun r c => (splitCallback regionSize r c).1) run

/-! ## The chunker required by the collector -/

/-- The check of `NewFromArgv` for the collector chain `fil-commP` (`argparse.go`,
lines 143-155), for the constant `filcommp.StrideSize`: the chunker spec and the argument
errors after it. -/
def requireCommPChunker (StrideSize : Nat) (requestedCollectors requestedChunkers : String)
    (argParseErrs : List String) : String × List String :=
  if requestedCollectors = "fil-commP" then
    let requiredChunker := "fixed-size_" ++ toString StrideSize
    let chunkers := if requestedChunkers = "" then requiredChunker else requestedChunkers
    if chunkers ≠ requiredChunker then
      (chunkers, argParseErrs ++
        ["fil-commP requires a specific chunkers spec of '" ++ requiredChunker ++ "'"])
    else (chunkers, argParseErrs)
  else (requestedChunkers, argParseErrs)

/-! ## Validation of a car file -/

/-- The entries `validateCommP` appends to `HardFails`, by the message they carry. -/
inductive HardFail where
  /-- unable to open car file for reading -/
  | openFailed (err : String)
  /-- commP calculation failed -/
  | commPFailed (err : String)
  /-- lower commP bytes of car do not match expected value -/
  | mismatch (lower known : List Nat)
  deriving DecidableEq

/-- How a call of `validateCommP` ends. -/
inductive ValidateResult where
  /-- slice bounds out of range at `commP[len(commP)-16:]` -/
  | panic
  | returned (ok : Bool) (hardFails : List HardFail)
  deriving DecidableEq

/-- The method `validateCommP` (`main.go`, lines 326-356), given the error of `os.Open`
if any, what `ProcessReader` returns for the opened file, the `commP` field of
`knownCars[carInfo.key]` and the `HardFails` of the car so far. -/
def validateCommP (openErr : Option String) (processReader : Except String (List Nat))
    (known : List Nat) (hardFails : List HardFail) : ValidateResult :=
  match openErr with
  | some err => .returned false (hardFails ++ [.openFailed err])
  | none =>
    match processReader with
    | .error err => .returned false (hardFails ++ [.commPFailed err])
    | .ok commP =>
      if commP.length < 16 then .panic
      else if commP.drop (commP.length - 16) = known then .returned true hardFails
      else .returned false (hardFails ++ [.mismatch (commP.drop (commP.length - 16)) known])

/-! ## Varints -/

/-- The number of bits needed to represent `v`, counted over at most `w` binary digits. -/
def bitsLen : Nat → Nat → Nat
  | 0, _ => 0
  | w + 1, v => if v = 0 then 0 else 1 + bitsLen w (v / 2)

/-- Go's `bits.Len64`: the number of bits needed to represent a `uint64`, 0 for 0. -/
def bitsLen64 (v : Nat) : Nat := bitsLen 64 v

/-- The function `VarintWireSize` for the constant `constants.PerformSanityChecks`;
`none` is the panic of `log.Panicf`. -/
def VarintWireSize (PerformSanityChecks : Bool) (v : Nat) : Option Nat :=
  if PerformSanityChecks && decide (v > 2 ^ 63 - 1) then none
  else if v = 0 then some 1
  else some ((bitsLen64 v + 6) / 7)

/-- The function `AppendVarint` on a `uint64`. -/
def AppendVarint (tgt : List Nat) (v : Nat) : List Nat :=
  if v > 127 then AppendVarint (tgt ++ [(v ||| 128) % 256]) (v >>> 7)
  else tgt ++ [v % 256]
termination_by v
decreasing_by
  rw [Nat.shiftRight_eq_div_pow]
  exact Nat.div_lt_self (by omega) (by norm_num)

/-- The function `VarintSlice`: the capacity given to `make` and the slice returned;
`none` when `VarintWireSize` panics. -/
def VarintSlice (PerformSanityChecks : Bool) (v : Nat) : Option (Nat × List Nat) :=
  match VarintWireSize PerformSanityChecks v with
  | none => none
  | some n => some (n, AppendVarint [] v)

/-! ## Bit-level facts on bytes -/

theorem testBit_mod_256 (x i : Nat) :
    (x % 256).testBit i = (decide (i < 8) && x.testBit i) := by
  have h : (256 : Nat) = 2 ^ 8 := by norm_num
  rw [h, Nat.testBit_mod_two_pow]

theorem testBit_and_63 (x i : Nat) :
    (x &&& 0x3F).testBit i = (decide (i < 6) && x.testBit i) := by
  have h : (0x3F : Nat) = 2 ^ 6 - 1 := by norm_num
  rw [h, Nat.testBit_and, Nat.testBit_two_pow_sub_one, Bool.and_comm]

theorem testBit_byte_high {b : Nat} (hb : b < 256) {i : Nat} (hi : 8 ≤ i) :
    b.testBit i = false := by
  apply Nat.testBit_lt_two_pow
  calc b < 2 ^ 8 := hb
    _ ≤ 2 ^ i := Nat.pow_le_pow_right (by norm_num) hi

theorem and_63_le (x : Nat) : x &&& 0x3F ≤ 0x3F := by
  have h : (0x3F : Nat) = 2 ^ 6 - 1 := by norm_num
  rw [h, Nat.and_pow_two_sub_one_eq_mod]
  have := Nat.mod_lt x (show 0 < 2 ^ 6 by norm_num)
  omega

/-! ## The expansion, byte by byte -/

theorem shiftLoop_length (k : Nat) (w : List Nat) :
    ∀ (n i : Nat) (e : List Nat), (shiftLoop k w n i e).length = e.length := by
  intro n
  induction n with
  | zero => intro i e; rfl
  | succ n ih => intro i e; simp [shiftLoop, ih]

theorem shiftLoop_getElem? (k : Nat) (w : List Nat) :
    ∀ (n i : Nat) (e : List Nat) (j : Nat),
      (shiftLoop k w n i e)[j]? =
        if i + 1 ≤ j ∧ j ≤ i + n ∧ j < e.length then some (shiftByte k w (j - 1)) else e[j]? := by
  intro n
  induction n with
  | zero =>
    intro i e j
    have : ¬ (i + 1 ≤ j ∧ j ≤ i + 0 ∧ j < e.length) := by omega
    rw [shiftLoop, if_neg this]
  | succ n ih =>
    intro i e j
    rw [shiftLoop, ih, List.length_set, List.getElem?_set]
    by_cases h1 : i + 1 = j
    · subst h1
      by_cases h2 : i + 1 < e.length
      · have a : ¬ (i + 1 + 1 ≤ i + 1 ∧ i + 1 ≤ i + 1 + n ∧ i + 1 < e.length) := by omega
        have b : i + 1 ≤ i + 1 ∧ i + 1 ≤ i + (n + 1) ∧ i + 1 < e.length := by omega
        simp [a, b, h2, shiftByte]
      · have a : ¬ (i + 1 + 1 ≤ i + 1 ∧ i + 1 ≤ i + 1 + n ∧ i + 1 < e.length) := by omega
        have b : ¬ (i + 1 ≤ i + 1 ∧ i + 1 ≤ i + (n + 1) ∧ i + 1 < e.length) := by omega
        have c : e.length ≤ i + 1 := by omega
        simp [a, b, h2, List.getElem?_eq_none c]
    · by_cases h3 : i + 1 + 1 ≤ j ∧ j ≤ i + 1 + n ∧ j < e.length
      · have b : i + 1 ≤ j ∧ j ≤ i + (n + 1) ∧ j < e.length := by omega
        simp [h3, b]
      · have b : ¬ (i + 1 ≤ j ∧ j ≤ i + (n + 1) ∧ j < e.length) := by omega
        simp [h3, b, h1]

theorem fr32Expand_length (w : List Nat) : (fr32Expand w).length = 128 := by
  simp [fr32Expand, shiftLoop_length, goCopy]

theorem goCopy_head_getD (w : List Nat) (hw : w.length = 127) (j : Nat) :
    (goCopy (List.replicate 128 0) (w.take 32))[j]?.getD 0 = if j < 32 then w.getD j 0 else 0 := by
  unfold goCopy
  by_cases h : j < 32
  · rw [List.getElem?_append_left (by simp [hw]; omega)]
    simp [h, List.getElem?_take, show j < 128 by omega]
  · rw [List.getElem?_append_right (by simp [hw]; omega)]
    simp only [List.drop_replicate, List.getElem?_replicate, if_neg h]
    split <;> rfl

theorem fr32Expand_getD (w : List Nat) (hw : w.length = 127) (j : Nat) :
    (fr32Expand w).getD j 0 = fr32Byte w j := by
  have hlen : (goCopy (List.replicate 128 0) (w.take 32)).length = 128 := by
    simp [goCopy, hw]
  have e0 := goCopy_head_getD w hw
  simp only [fr32Expand]
  generalize goCopy (List.replicate 128 0) (w.take 32) = c at hlen e0 ⊢
  simp only [List.getD_eq_getElem?_getD, List.getElem?_set, shiftLoop_getElem?,
    shiftLoop_length, List.length_set, hlen, fr32Byte]
  by_cases h1 : j < 31
  · simp [h1, e0, show ¬ (127 = j) by omega, show ¬ (95 = j) by omega,
      show ¬ (63 = j) by omega, show ¬ (31 = j) by omega, show ¬ (96 ≤ j) by omega,
      show ¬ (64 ≤ j) by omega, show ¬ (32 ≤ j) by omega, show j < 32 by omega]
  by_cases h2 : j = 31
  · subst h2
    simp [e0]
  by_cases h3 : j < 63
  · simp [h1, h2, h3, e0, show ¬ (127 = j) by omega, show ¬ (95 = j) by omega,
      show ¬ (63 = j) by omega, show ¬ (31 = j) by omega, show ¬ (96 ≤ j) by omega,
      show ¬ (64 ≤ j) by omega, show (32 ≤ j) by omega, show j < 128 by omega,
      show j ≤ 63 by omega]
  by_cases h4 : j = 63
  · subst h4
    simp [e0]
  by_cases h5 : j < 95
  · simp [h1, h2, h3, h4, h5, e0, show ¬ (127 = j) by omega, show ¬ (95 = j) by omega,
      show ¬ (63 = j) by omega, show ¬ (31 = j) by omega, show ¬ (96 ≤ j) by omega,
      show (64 ≤ j) by omega, show (32 ≤ j) by omega, show j < 128 by omega,
      show j ≤ 95 by omega]
  by_cases h6 : j = 95
  · subst h6
    simp [e0]
  by_cases h7 : j < 127
  · simp [h1, h2, h3, h4, h5, h6, h7, e0, show ¬ (127 = j) by omega, show ¬ (95 = j) by omega,
      show ¬ (63 = j) by omega, show ¬ (31 = j) by omega, show (96 ≤ j) by omega,
      show (64 ≤ j) by omega, show (32 ≤ j) by omega, show j < 128 by omega,
      show j ≤ 126 by omega]
  by_cases h8 : j = 127
  · subst h8
    simp [e0]
  · simp [h1, h2, h3, h4, h5, h6, h7, h8, e0, show ¬ (127 = j) by omega, show ¬ (95 = j) by omega,
      show ¬ (63 = j) by omega, show ¬ (31 = j) by omega, show (96 ≤ j) by omega,
      show (64 ≤ j) by omega, show (32 ≤ j) by omega, show ¬ j < 128 by omega,
      show ¬ j ≤ 126 by omega, show ¬ j < 32 by omega]

theorem IsBytes.getD_lt {w : List Nat} (hw : IsBytes w) (i : Nat) : w.getD i 0 < 256 := by
  rw [List.getD_eq_getElem?_getD]
  cases h : w[i]? with
  | none => simp
  | some b => exact hw b ((List.getElem?_eq_some_iff.mp h).2 ▸ List.getElem_mem _)

theorem shiftByte_eq_mod (k : Nat) (w : List Nat) (hw : IsBytes w) (i : Nat) :
    shiftByte k w i = (w.getD (i + 1) 0 <<< k ||| w.getD i 0 >>> (8 - k)) % 256 := by
  unfold shiftByte
  apply Nat.eq_of_testBit_eq
  intro m
  simp only [Nat.testBit_or, testBit_mod_256, Nat.testBit_shiftRight]
  by_cases h : m < 8
  · simp [h]
  · have hb := testBit_byte_high (hw.getD_lt i) (show 8 ≤ 8 - k + m by omega)
    rw [hb]
    simp [h]

theorem mod_256_and_63 (x : Nat) : (x % 256) &&& 0x3F = x &&& 0x3F := by
  apply Nat.eq_of_testBit_eq
  intro i
  simp only [testBit_and_63, testBit_mod_256]
  by_cases h : i < 6
  · simp [h, show i < 8 by omega]
  · simp [h]

theorem shiftByte_testBit (k : Nat) (w : List Nat) (hw : IsBytes w) (i m : Nat)
    (hk : 0 < k) (hk8 : k ≤ 8) (hm : m < 8) :
    (shiftByte k w i).testBit m = bitAt w (8 * i + 8 + m - k) := by
  unfold shiftByte bitAt
  simp only [Nat.testBit_or, testBit_mod_256, Nat.testBit_shiftLeft, Nat.testBit_shiftRight]
  by_cases h : k ≤ m
  · have h1 : (8 * i + 8 + m - k) / 8 = i + 1 := by omega
    have h2 : (8 * i + 8 + m - k) % 8 = m - k := by omega
    rw [h1, h2]
    have hb := testBit_byte_high (hw.getD_lt i) (show 8 ≤ 8 - k + m by omega)
    rw [hb]
    simp [hm, h]
  · have h1 : (8 * i + 8 + m - k) / 8 = i := by omega
    have h2 : (8 * i + 8 + m - k) % 8 = 8 - k + m := by omega
    rw [h1, h2]
    simp [h]

theorem fr32Byte_testBit (w : List Nat) (hw : IsBytes w) (j m : Nat) (hj : j < 128)
    (hm : m < 8) :
    (fr32Byte w j).testBit m =
      (decide (8 * (j % 32) + m < 254) && bitAt w (254 * (j / 32) + 8 * (j % 32) + m)) := by
  unfold fr32Byte
  split_ifs with h1 h2 h3 h4 h5 h6 h7 h8
  · have a : 8 * (j % 32) + m < 254 := by omega
    have b : (254 * (j / 32) + 8 * (j % 32) + m) / 8 = j := by omega
    have c : (254 * (j / 32) + 8 * (j % 32) + m) % 8 = m := by omega
    simp [bitAt, a, b, c]
  · subst h2
    have b : (254 * (31 / 32) + 8 * (31 % 32) + m) / 8 = 31 := by omega
    have c : (254 * (31 / 32) + 8 * (31 % 32) + m) % 8 = m := by omega
    rw [testBit_and_63, bitAt, b, c]
    congr 1
    simp only [decide_eq_decide]
    omega
  · have a : 8 * (j % 32) + m < 254 := by omega
    have b : 254 * (j / 32) + 8 * (j % 32) + m = 8 * (j - 1) + 8 + m - 2 := by omega
    rw [shiftByte_testBit 2 w hw _ _ (by omega) (by omega) hm, b]
    simp [a]
  · subst h4
    have b : 254 * (63 / 32) + 8 * (63 % 32) + m = 8 * 62 + 8 + m - 2 := by omega
    rw [testBit_and_63, shiftByte_testBit 2 w hw _ _ (by omega) (by omega) hm, b]
    congr 1
    simp only [decide_eq_decide]
    omega
  · have a : 8 * (j % 32) + m < 254 := by omega
    have b : 254 * (j / 32) + 8 * (j % 32) + m = 8 * (j - 1) + 8 + m - 4 := by omega
    rw [shiftByte_testBit 4 w hw _ _ (by omega) (by omega) hm, b]
    simp [a]
  · subst h6
    have b : 254 * (95 / 32) + 8 * (95 % 32) + m = 8 * 94 + 8 + m - 4 := by omega
    rw [testBit_and_63, shiftByte_testBit 4 w hw _ _ (by omega) (by omega) hm, b]
    congr 1
    simp only [decide_eq_decide]
    omega
  · have a : 8 * (j % 32) + m < 254 := by omega
    have b : 254 * (j / 32) + 8 * (j % 32) + m = 8 * (j - 1) + 8 + m - 6 := by omega
    rw [shiftByte_testBit 6 w hw _ _ (by omega) (by omega) hm, b]
    simp [a]
  · subst h8
    rw [Nat.testBit_shiftRight]
    by_cases h : m < 6
    · have a : 8 * (127 % 32) + m < 254 := by omega
      have b : (254 * (127 / 32) + 8 * (127 % 32) + m) / 8 = 126 := by omega
      have c : (254 * (127 / 32) + 8 * (127 % 32) + m) % 8 = 2 + m := by omega
      simp [bitAt, a, b, c]
    · have a : ¬ (8 * (127 % 32) + m < 254) := by omega
      rw [testBit_byte_high (hw.getD_lt 126) (show 8 ≤ 2 + m by omega)]
      simp [a]
  · omega

theorem bitAt_fr32Expand (w : List Nat) (hw : IsWindow w) (k : Nat) (hk : k < 1024) :
    bitAt (fr32Expand w) k =
      (decide (k % 256 < 254) && bitAt w (254 * (k / 256) + k % 256)) := by
  have h := fr32Byte_testBit w hw.2 (k / 8) (k % 8) (by omega) (by omega)
  have a : 8 * (k / 8 % 32) + k % 8 = k % 256 := by omega
  have b : k / 8 / 32 = k / 256 := by omega
  rw [bitAt, fr32Expand_getD w hw.1, h, b, Nat.add_assoc, a]

theorem window_bit_from_expansion (w : List Nat) (hw : IsWindow w) (p : Nat) (hp : p < 1016) :
    bitAt w p = bitAt (fr32Expand w) (256 * (p / 254) + p % 254) := by
  have a : (256 * (p / 254) + p % 254) % 256 = p % 254 := by omega
  have b : (256 * (p / 254) + p % 254) / 256 = p / 254 := by omega
  have c : 254 * (p / 254) + p % 254 = p := Nat.div_add_mod p 254
  have d : p % 254 < 254 := Nat.mod_lt p (by omega)
  rw [bitAt_fr32Expand w hw _ (by omega), a, b, c]
  simp [d]

theorem fr32Byte_lt (w : List Nat) (hw : IsBytes w) (j : Nat) : fr32Byte w j < 256 := by
  have h63 : ∀ x : Nat, x &&& 0x3F < 256 := fun x => by
    have := and_63_le x
    omega
  have hs : ∀ k i, shiftByte k w i < 256 := fun k i => by
    rw [shiftByte_eq_mod k w hw]
    exact Nat.mod_lt _ (by omega)
  unfold fr32Byte
  split_ifs
  · exact hw.getD_lt j
  · exact h63 _
  · exact hs _ _
  · exact h63 _
  · exact hs _ _
  · exact h63 _
  · exact hs _ _
  · have := hw.getD_lt 126
    rw [Nat.shiftRight_eq_div_pow]
    omega
  · omega

theorem fr32Expand_isBytes (w : List Nat) (hw : IsWindow w) : IsBytes (fr32Expand w) := by
  intro b hb
  obtain ⟨j, hj, rfl⟩ := List.getElem_of_mem hb
  have h := fr32Expand_getD w hw.1 j
  rw [List.getD_eq_getElem?_getD, List.getElem?_eq_getElem hj] at h
  simp only [Option.getD_some] at h
  rw [h]
  exact fr32Byte_lt w hw.2 j

theorem leValue_lt_of_last (n : Nat) :
    ∀ l : List Nat, l.length = n + 1 → IsBytes l → l.getD n 0 ≤ 63 →
      leValue l < 64 * 256 ^ n := by
  induction n with
  | zero =>
    intro l hl _ hlast
    match l, hl with
    | [b], _ =>
      simp [leValue] at hlast ⊢
      omega
  | succ n ih =>
    intro l hl hb hlast
    match l, hl with
    | b :: bs, hl =>
      have h1 : bs.length = n + 1 := by simpa using hl
      have h2 : IsBytes bs := fun x hx => hb x (List.mem_cons_of_mem _ hx)
      have h3 : bs.getD n 0 ≤ 63 := by simpa using hlast
      have h4 := ih bs h1 h2 h3
      have h5 : b < 256 := hb b (List.mem_cons_self _ _)
      rw [leValue, pow_succ]
      omega

/-! ## Digests and the zero-subtree table -/

theorem beBytes_length (n x : Nat) : (beBytes n x).length = n := by
  induction n with
  | zero => rfl
  | succ n ih => simp [beBytes, ih]

theorem sha256_length (msg : List Nat) : (sha256 msg).length = 32 := by
  simp [sha256, beBytes_length]

theorem sha256_abc :
    sha256 [0x61, 0x62, 0x63] =
      [0xba, 0x78, 0x16, 0xbf, 0x8f, 0x01, 0xcf, 0xea, 0x41, 0x41, 0x40, 0xde, 0x5d, 0xae,
       0x22, 0x23, 0xb0, 0x03, 0x61, 0xa3, 0x96, 0x17, 0x7a, 0x9c, 0xb4, 0x10, 0xff, 0x61,
       0xf2, 0x00, 0x15, 0xad] := by
  decide!

theorem and_63_and_192 (x : Nat) : (x &&& 0x3F) &&& 0xC0 = 0 := by
  rw [Nat.and_assoc]
  have h : (0x3F : Nat) &&& 0xC0 = 0 := by decide
  rw [h, Nat.and_zero]

theorem clearTop2_isDigest (d : List Nat) (hd : d.length = 32) : IsDigest (clearTop2 d) := by
  refine ⟨by simp [clearTop2, hd], ?_⟩
  have h : (clearTop2 d).getD 31 0 = d.getD 31 0 &&& 0x3F := by
    simp [clearTop2, List.getD_eq_getElem?_getD, hd]
  rw [h, and_63_and_192]

theorem hash254_isDigest (data : List (List Nat)) : IsDigest (hash254 data) :=
  clearTop2_isDigest _ (sha256_length _)

theorem hash254_pair (a b : List Nat) : hash254 [a, b] = clearTop2 (sha256 (a ++ b)) := by
  simp [hash254]

theorem nulPaddingStep_length (tbl : List (List Nat)) (i : Nat) :
    (nulPaddingStep tbl i).length = tbl.length := by
  unfold nulPaddingStep
  split <;> simp

theorem nulTable_succ (n : Nat) : nulTable (n + 1) = nulPaddingStep (nulTable n) n := by
  simp [nulTable, List.range_succ, List.foldl_append]

theorem nulTable_length (n : Nat) : (nulTable n).length = maxLayers := by
  induction n with
  | zero => simp [nulTable]
  | succ n ih => rw [nulTable_succ, nulPaddingStep_length, ih]

theorem nulPaddingStep_getD_ne (tbl : List (List Nat)) (i j : Nat) (h : i ≠ j) :
    (nulPaddingStep tbl i).getD j [] = tbl.getD j [] := by
  unfold nulPaddingStep
  split
  · next h0 => subst h0; simp [List.getD_eq_getElem?_getD, List.getElem?_set, h]
  · simp [List.getD_eq_getElem?_getD, List.getElem?_set, h]

theorem nulTable_getD_stable (i : Nat) :
    ∀ m, i < m → (nulTable m).getD i [] = (nulTable (i + 1)).getD i [] := by
  intro m
  induction m with
  | zero => intro h; omega
  | succ m ih =>
    intro h
    by_cases hm : i = m
    · subst hm; rfl
    · rw [nulTable_succ, nulPaddingStep_getD_ne _ _ _ (Ne.symm hm)]
      exact ih (by omega)

theorem nulTable_getD_zero : (nulTable maxLayers).getD 0 [] = List.replicate 32 0 := by
  rw [nulTable_getD_stable 0 maxLayers (by decide), nulTable_succ]
  simp [nulPaddingStep, nulTable, maxLayers, List.getD_eq_getElem?_getD]

theorem nulTable_getD_succ (i : Nat) (hi : i + 1 < maxLayers) :
    (nulTable maxLayers).getD (i + 1) [] =
      clearTop2 (sha256 ((nulTable maxLayers).getD i [] ++ (nulTable maxLayers).getD i [])) := by
  rw [nulTable_getD_stable (i + 1) maxLayers hi, nulTable_getD_stable i maxLayers (by omega),
    nulTable_succ (i + 1)]
  have hlen := nulTable_length (i + 1)
  simp only [nulPaddingStep, if_neg (Nat.succ_ne_zero i), Nat.add_sub_cancel, clearTop2]
  rw [List.getD_eq_getElem?_getD, List.getElem?_set_self (by omega)]
  rfl

theorem newCollector_table (M : Nat) :
    (NewCollector M).stackedNulPadding = nulTable maxLayers := rfl

/-! ## The layers as a tree reduction -/

theorem pairInduction {P : List (List Nat) → Prop} (nil : P [])
    (single : ∀ d, P [d]) (step : ∀ l r rest, P rest → P (l :: r :: rest)) :
    ∀ q, P q
  | [] => nil
  | [d] => single d
  | l :: r :: rest => step l r rest (pairInduction nil single step rest)

theorem pairs_append_oddOne (pad : List Nat) :
    ∀ q : List (List Nat),
      pairUp pad q = pairs q ++ (match oddOne q with
        | some d => [hash254 [d, pad]]
        | none => []) := by
  intro q
  induction q using pairs.induct with
  | case1 l r rest ih => simp [pairUp, pairs, oddOne, ih]
  | case2 q h =>
    match q with
    | [] => rfl
    | [d] => rfl
    | l :: r :: rest => exact absurd rfl (h l r rest)

theorem layerReceive_paired (myIdx : Nat) (hidx : myIdx + 2 < maxLayers) :
    ∀ (q : List (List Nat)) (added : Bool) (sent : List (List Nat)),
      layerReceive myIdx q ⟨none, added, sent⟩ =
        some ⟨oddOne q, added || decide (2 ≤ q.length), sent ++ pairs q⟩ := by
  intro q
  induction q using pairs.induct with
  | case1 l r rest ih =>
    intro added sent
    simp only [layerReceive, if_pos hidx, ih, pairs, oddOne, List.length_cons]
    simp
  | case2 q h =>
    intro added sent
    match q with
    | [] => simp [layerReceive, pairs, oddOne]
    | [d] => simp [layerReceive, pairs, oddOne]
    | l :: r :: rest => exact absurd rfl (h l r rest)

theorem layerReceive_short (myIdx : Nat) (q : List (List Nat)) (hq : q.length ≤ 1) :
    layerReceive myIdx q LayerRun.init = some ⟨q.head?, false, []⟩ := by
  match q, hq with
  | [], _ => rfl
  | [d], _ => rfl

theorem layerReceive_overflow (myIdx : Nat) (hidx : ¬ myIdx + 2 < maxLayers)
    (q : List (List Nat)) (hq : 2 ≤ q.length) :
    layerReceive myIdx q LayerRun.init = none := by
  match q, hq with
  | l :: r :: rest, _ => simp [layerReceive, LayerRun.init, hidx]

theorem runLayers_short (Z : List (List Nat)) (fuel myIdx : Nat)
    (hidx : myIdx + 2 < maxLayers) (q : List (List Nat)) (hq : q.length ≤ 1) :
    runLayers Z (fuel + 1) myIdx q = .commP q.head? := by
  simp [runLayers, layerReceive_short myIdx q hq, layerClose, hidx]

theorem runLayers_overflow (Z : List (List Nat)) (fuel myIdx : Nat)
    (hidx : ¬ myIdx + 2 < maxLayers) (q : List (List Nat)) :
    runLayers Z (fuel + 1) myIdx q = .panic := by
  by_cases hq : 2 ≤ q.length
  · simp [runLayers, layerReceive_overflow myIdx hidx q hq]
  · simp [runLayers, layerReceive_short myIdx q (by omega), layerClose, hidx]

theorem runLayers_step (Z : List (List Nat)) (fuel myIdx : Nat)
    (hidx : myIdx + 2 < maxLayers) (pad : List Nat) (hZ : Z[myIdx + 1]? = some pad)
    (q : List (List Nat)) (hq : 2 ≤ q.length) :
    runLayers Z (fuel + 1) myIdx q = runLayers Z fuel (myIdx + 1) (pairUp pad q) := by
  have hr := layerReceive_paired myIdx hidx q false []
  simp only [Bool.false_or, decide_eq_true hq, List.nil_append] at hr
  rw [runLayers, LayerRun.init, hr, pairs_append_oddOne pad q]
  cases hodd : oddOne q with
  | none => simp [layerClose, hidx]
  | some d => simp [layerClose, hidx, hZ]

theorem layerClose_overflow (Z : List (List Nat)) (myIdx : Nat) (st : LayerRun)
    (hidx : ¬ myIdx + 2 < maxLayers) : layerClose Z myIdx st = .panic := by
  simp [layerClose, hidx]

theorem runLayers_ne_fuelOut (Z : List (List Nat)) :
    ∀ (fuel myIdx : Nat) (q : List (List Nat)), 1 ≤ fuel → maxLayers ≤ myIdx + fuel + 1 →
      runLayers Z fuel myIdx q ≠ .fuelOut := by
  intro fuel
  induction fuel with
  | zero => intro myIdx q h; omega
  | succ fuel ih =>
    intro myIdx q _ hsum
    rw [runLayers]
    split
    · simp
    · next st _ =>
      split
      · simp
      · simp
      · next nxt hcl =>
        by_cases hidx : myIdx + 2 < maxLayers
        · exact ih (myIdx + 1) nxt (by omega) (by omega)
        · rw [layerClose_overflow Z myIdx st hidx] at hcl
          simp at hcl

theorem flushState_ne_fuelOut (cp : CommpCollector) : (FlushState cp).1 ≠ .fuelOut :=
  runLayers_ne_fuelOut _ maxLayers 0 _ (by decide) (by decide)

theorem pairUp_length (pad : List Nat) :
    ∀ q : List (List Nat), (pairUp pad q).length = (q.length + 1) / 2 := by
  intro q
  induction q using pairInduction with
  | nil => rfl
  | single d => simp [pairUp]
  | step l r rest ih =>
    simp only [pairUp, List.length_cons, ih]
    omega

theorem pairUp_replicate (z : List Nat) (m : Nat) :
    pairUp z (List.replicate (2 * m) z) = List.replicate m (hash254 [z, z]) := by
  induction m with
  | zero => rfl
  | succ m ih =>
    have h : 2 * (m + 1) = 2 * m + 1 + 1 := by omega
    rw [h, List.replicate_succ, List.replicate_succ, pairUp, ih, List.replicate_succ]

theorem pairUp_append_pad (z : List Nat) :
    ∀ (q : List (List Nat)) (m : Nat), q.length ≤ 2 * m →
      pairUp z (q ++ List.replicate (2 * m - q.length) z) =
        pairUp z q ++ List.replicate (m - (q.length + 1) / 2) (hash254 [z, z]) := by
  intro q
  induction q using pairInduction with
  | nil =>
    intro m _
    simpa [pairUp] using pairUp_replicate z m
  | single d =>
    intro m hm
    obtain ⟨k, rfl⟩ : ∃ k, m = k + 1 := ⟨m - 1, by simp at hm; omega⟩
    have h : 2 * (k + 1) - [d].length = 2 * k + 1 := by simp; omega
    have h2 : k + 1 - ([d].length + 1) / 2 = k := by simp
    rw [h, h2, List.replicate_succ]
    simp only [List.singleton_append, pairUp, pairUp_replicate]
  | step l r rest ih =>
    intro m hm
    obtain ⟨k, rfl⟩ : ∃ k, m = k + 1 := ⟨m - 1, by simp at hm; omega⟩
    have hk : rest.length ≤ 2 * k := by simp at hm; omega
    have h : 2 * (k + 1) - (l :: r :: rest).length = 2 * k - rest.length := by simp; omega
    have h2 : k + 1 - ((l :: r :: rest).length + 1) / 2 = k - (rest.length + 1) / 2 := by
      simp; omega
    rw [h, h2, List.cons_append, List.cons_append, pairUp, ih k hk, pairUp, List.cons_append]

theorem pairUp_take (pad : List Nat) :
    ∀ (n : Nat) (row : List (List Nat)), 2 * n ≤ row.length →
      (pairUp pad row).take n = pairUp pad (row.take (2 * n)) := by
  intro n
  induction n with
  | zero => intro row _; simp [pairUp]
  | succ n ih =>
    intro row h
    match row, h with
    | l :: r :: rest, h =>
      have hr : 2 * n ≤ rest.length := by simp at h; omega
      have e : 2 * (n + 1) = 2 * n + 1 + 1 := by omega
      rw [e]
      simp only [pairUp, List.take_succ_cons, ih rest hr]

theorem pairUp_drop (pad : List Nat) :
    ∀ (n : Nat) (row : List (List Nat)), 2 * n ≤ row.length →
      (pairUp pad row).drop n = pairUp pad (row.drop (2 * n)) := by
  intro n
  induction n with
  | zero => intro row _; simp
  | succ n ih =>
    intro row h
    match row, h with
    | l :: r :: rest, h =>
      have hr : 2 * n ≤ rest.length := by simp at h; omega
      have e : 2 * (n + 1) = 2 * n + 1 + 1 := by omega
      rw [e]
      simp only [pairUp, List.drop_succ_cons, ih rest hr]

theorem treeRoot_pairUp (pad : List Nat) :
    ∀ (h : Nat) (row : List (List Nat)), row.length = 2 ^ (h + 1) →
      treeRoot (h + 1) row = treeRoot h (pairUp pad row) := by
  intro h
  induction h with
  | zero =>
    intro row hlen
    match row, hlen with
    | [a, b], _ => rfl
  | succ h ih =>
    intro row hlen
    have e : (2 : Nat) ^ (h + 1 + 1) = 2 * 2 ^ (h + 1) := by rw [pow_succ]; omega
    have e2 : (2 : Nat) ^ (h + 1) = 2 * 2 ^ h := by rw [pow_succ]; omega
    have hpos : 0 < 2 ^ h := Nat.pow_pos (by omega)
    have ht : (row.take (2 ^ (h + 1))).length = 2 ^ (h + 1) := by
      rw [List.length_take]; omega
    have hd : (row.drop (2 ^ (h + 1))).length = 2 ^ (h + 1) := by
      rw [List.length_drop]; omega
    rw [treeRoot, ih _ ht, ih _ hd]
    conv_rhs => rw [treeRoot]
    rw [pairUp_take pad (2 ^ h) row (by omega), pairUp_drop pad (2 ^ h) row (by omega), ← e2]

theorem nulTable_getElem? (i : Nat) (hi : i < maxLayers) :
    (nulTable maxLayers)[i]? = some ((nulTable maxLayers).getD i []) := by
  have h : i < (nulTable maxLayers).length := by rw [nulTable_length]; exact hi
  simp [List.getD_eq_getElem?_getD, List.getElem?_eq_getElem h]

theorem runLayers_treeRoot :
    ∀ (k myIdx fuel : Nat) (q : List (List Nat)), myIdx + k + 2 < maxLayers → k < fuel →
      q.length ≤ 2 ^ k → 2 ^ k < 2 * q.length →
      runLayers (nulTable maxLayers) fuel myIdx q =
        .commP (some (treeRoot k
          (q ++ List.replicate (2 ^ k - q.length) ((nulTable maxLayers).getD (myIdx + 1) [])))) := by
  intro k
  induction k with
  | zero =>
    intro myIdx fuel q hidx hfuel h1 h2
    obtain ⟨f, rfl⟩ : ∃ f, fuel = f + 1 := ⟨fuel - 1, by omega⟩
    match q, h1, h2 with
    | [d], _, _ =>
      rw [runLayers_short _ _ _ (by omega) _ (by simp)]
      rfl
  | succ k ih =>
    intro myIdx fuel q hidx hfuel h1 h2
    obtain ⟨f, rfl⟩ : ∃ f, fuel = f + 1 := ⟨fuel - 1, by omega⟩
    have e : (2 : Nat) ^ (k + 1) = 2 * 2 ^ k := by rw [pow_succ]; omega
    have hpos : 0 < 2 ^ k := Nat.pow_pos (by omega)
    rw [e] at h1 h2
    have hlen := pairUp_length ((nulTable maxLayers).getD (myIdx + 1) []) q
    rw [runLayers_step _ f myIdx (by omega) _ (nulTable_getElem? (myIdx + 1) (by omega)) q
        (by omega),
      ih (myIdx + 1) f _ (by omega) (by omega) (by omega) (by omega),
      nulTable_getD_succ (myIdx + 1) (by omega), ← hash254_pair, hlen,
      ← pairUp_append_pad _ q (2 ^ k) h1, ← e,
      ← treeRoot_pairUp _ k _ (by rw [List.length_append, List.length_replicate]; omega)]

/-! ## `AppendData` on whole windows -/

theorem maxPiecePayload_eq : MaxPiecePayload = 68182605824 := by decide

theorem goAppend_take (arr : List Nat) (len : Nat) (xs : List Nat) (h : len ≤ arr.length) :
    (goAppend arr len xs).take (len + xs.length) = arr.take len ++ xs := by
  have hl : (arr.take len).length = len := by rw [List.length_take]; omega
  unfold goAppend
  split
  · rw [List.take_append_of_le_length (by rw [List.length_append, hl])]
    rw [List.take_of_length_le (by rw [List.length_append, hl])]
  · rw [List.take_of_length_le (by rw [List.length_append, hl])]

theorem goAppend_length_ge (arr : List Nat) (len : Nat) (xs : List Nat) (h : len ≤ arr.length) :
    len + xs.length ≤ (goAppend arr len xs).length := by
  have hl : (arr.take len).length = len := by rw [List.length_take]; omega
  unfold goAppend
  split
  · simp only [List.length_append, hl, List.length_drop]; omega
  · simp only [List.length_append, hl]; omega

theorem take_window_eq (arr p : List Nat) (m a b : Nat) (h : arr.take m = p) (hab : a + b ≤ m) :
    (arr.drop a).take b = (p.drop a).take b := by
  rw [← h, List.drop_take, List.take_take, Nat.min_eq_left (by omega)]

theorem windowLoop_ok (payloadSize : Nat) (arr : List Nat) (hp : payloadSize ≤ MaxPiecePayload) :
    ∀ (n wbufIdx : Nat) (queue : List (List Nat)), wbufIdx + 127 * n ≤ arr.length →
      windowLoop payloadSize arr n wbufIdx queue =
        (queue ++ (List.range n).flatMap
          (fun j => windowLeaves ((arr.drop (wbufIdx + 127 * j)).take 127)), .ok) := by
  intro n
  induction n with
  | zero => intro wbufIdx queue _; simp [windowLoop]
  | succ n ih =>
    intro wbufIdx queue h
    have hf : (fun j => windowLeaves ((arr.drop (wbufIdx + 127 + 127 * j)).take 127)) =
        (fun j => windowLeaves ((arr.drop (wbufIdx + 127 * j)).take 127)) ∘ Nat.succ := by
      funext j
      simp only [Function.comp, Nat.succ_eq_add_one]
      rw [show wbufIdx + 127 + 127 * j = wbufIdx + 127 * (j + 1) by omega]
    rw [windowLoop, if_neg (by omega), if_neg (by omega), ih _ _ (by omega),
      List.range_succ_eq_map, List.flatMap_cons, List.flatMap_map, List.append_assoc, hf,
      Nat.mul_zero, Nat.add_zero]
    rfl

theorem zeroPadded_length (data : List Nat) :
    (zeroPadded data).length = 127 * windowCount data.length := by
  simp only [zeroPadded, windowCount, List.length_append, List.length_replicate]
  omega

theorem leafRow_eq (data : List Nat) :
    leafRow data = (List.range (windowCount data.length)).flatMap
      (fun j => windowLeaves (((zeroPadded data).drop (127 * j)).take 127)) := by
  simp [leafRow, windowsOf, List.flatMap_map, Function.comp]

theorem windowLoop_leafRow (payloadSize : Nat) (arr data : List Nat)
    (hp : payloadSize ≤ MaxPiecePayload)
    (harr : arr.take (127 * windowCount data.length) = zeroPadded data)
    (hlen : 127 * windowCount data.length ≤ arr.length) (queue : List (List Nat)) :
    windowLoop payloadSize arr (windowCount data.length) 0 queue =
      (queue ++ leafRow data, .ok) := by
  have hw : (List.range (windowCount data.length)).flatMap
        (fun j => windowLeaves ((arr.drop (0 + 127 * j)).take 127)) =
      (List.range (windowCount data.length)).flatMap
        (fun j => windowLeaves (((zeroPadded data).drop (127 * j)).take 127)) := by
    apply List.flatMap_congr
    intro j hj
    have hj' : j < windowCount data.length := List.mem_range.mp hj
    rw [Nat.zero_add, take_window_eq arr _ _ (127 * j) 127 harr (by omega)]
  rw [windowLoop_ok payloadSize arr hp _ 0 queue (by omega), leafRow_eq, hw]

theorem zcpAppendTo_take (content arr : List Nat) :
    (zcpAppendTo content arr).take content.length = content := by
  have h := goAppend_take arr 0 content (Nat.zero_le _)
  rw [Nat.zero_add] at h
  simpa [zcpAppendTo] using h

theorem zcpAppendTo_length_ge (content arr : List Nat) :
    content.length ≤ (zcpAppendTo content arr).length := by
  have h := goAppend_length_ge arr 0 content (Nat.zero_le _)
  rw [Nat.zero_add] at h
  exact h

theorem appendData_windows (cp : CommpCollector) (data : List Nat)
    (hs : cp.shortChunkSeen = false) (hp : cp.payloadSize % 127 = 0)
    (h1 : 127 ≤ cp.payloadSize + data.length)
    (h2 : cp.payloadSize + data.length ≤ MaxPiecePayload) :
    (AppendData cp ⟨data.length, data⟩).2 = .ok ∧
    (AppendData cp ⟨data.length, data⟩).1.layerQueue0 = cp.layerQueue0 ++ leafRow data ∧
    (AppendData cp ⟨data.length, data⟩).1.stackedNulPadding = cp.stackedNulPadding ∧
    (AppendData cp ⟨data.length, data⟩).1.payloadSize = cp.payloadSize + data.length ∧
    (AppendData cp ⟨data.length, data⟩).1.shortChunkSeen = decide (data.length % 127 ≠ 0) := by
  have hmax := maxPiecePayload_eq
  have hmod : (cp.payloadSize + data.length) % 2 ^ 64 = cp.payloadSize + data.length :=
    Nat.mod_eq_of_lt (by rw [hmax] at h2; have : (68182605824 : Nat) < 2 ^ 64 := by norm_num
                         omega)
  have hrem : (cp.payloadSize + data.length) % 127 = data.length % 127 := by omega
  have hbuf := zcpAppendTo_take data cp.fr32WorkBuf
  have hbl := zcpAppendTo_length_ge data cp.fr32WorkBuf
  by_cases hr : data.length % 127 = 0
  · have hn : (data.length + 126) / 127 = windowCount data.length := rfl
    have hcnt : 127 * windowCount data.length = data.length := by
      unfold windowCount; omega
    have hz : zeroPadded data = data := by simp [zeroPadded, hr]
    have hloop := windowLoop_leafRow (cp.payloadSize + data.length)
      (zcpAppendTo data cp.fr32WorkBuf) data h2 (by rw [hcnt, hz]; exact hbuf)
      (by rw [hcnt]; exact hbl) cp.layerQueue0
    simp only [AppendData, hs, hmod, hrem, hr, hn, hloop]
    simp
  · have hlt : ¬ (cp.payloadSize + data.length < 127) := by omega
    have hcnt : 127 * windowCount data.length = data.length + (127 - data.length % 127) := by
      unfold windowCount; omega
    have hn : (data.length + (127 - data.length % 127) + 126) / 127 =
        windowCount data.length := by unfold windowCount; omega
    have hz : zeroPadded data = data ++ List.replicate (127 - data.length % 127) 0 := by
      have : (127 - data.length % 127) % 127 = 127 - data.length % 127 := by omega
      simp [zeroPadded, this]
    have htake := goAppend_take (zcpAppendTo data cp.fr32WorkBuf) data.length
      (List.replicate (127 - data.length % 127) 0) hbl
    have hge := goAppend_length_ge (zcpAppendTo data cp.fr32WorkBuf) data.length
      (List.replicate (127 - data.length % 127) 0) hbl
    rw [List.length_replicate] at htake hge
    rw [hbuf] at htake
    have hloop := windowLoop_leafRow (cp.payloadSize + data.length)
      (goAppend (zcpAppendTo data cp.fr32WorkBuf) data.length
        (List.replicate (127 - data.length % 127) 0)) data h2
      (by rw [hcnt, hz]; exact htake) (by rw [hcnt]; exact hge) cp.layerQueue0
    simp only [AppendData, hs, hmod, hrem, hr, hn, hloop, hlt]
    simp [hr]

/-! ## The commitment of a whole input -/

theorem leafRow_length (data : List Nat) : (leafRow data).length = 2 * windowCount data.length := by
  rw [leafRow_eq]
  generalize windowCount data.length = n
  induction n with
  | zero => rfl
  | succ n ih =>
    rw [List.range_succ, List.flatMap_append, List.length_append, ih]
    simp [windowLeaves]
    omega

theorem payload_le_of_windowCount (len : Nat) (h : windowCount len ≤ 2 ^ 27) :
    len ≤ MaxPiecePayload := by
  rw [maxPiecePayload_eq]
  have e : (2 : Nat) ^ 27 = 134217728 := by norm_num
  unfold windowCount at h
  omega

theorem commP_eq_runLayers (M : Nat) (data : List Nat) (h1 : 127 ≤ data.length)
    (h2 : data.length ≤ MaxPiecePayload) :
    commP M data = runLayers (nulTable maxLayers) maxLayers 0 (leafRow data) := by
  have h := appendData_windows (NewCollector M) data rfl rfl
    (by show 127 ≤ 0 + data.length; omega) (by show 0 + data.length ≤ _; omega)
  obtain ⟨_, hq, hz, _, _⟩ := h
  simp only [commP, FlushState, hq, hz]
  rfl

theorem least_pow_bounds (n k : Nat) (hn : 1 ≤ n) (hk : n ≤ 2 ^ k)
    (hmin : ∀ j, n ≤ 2 ^ j → k ≤ j) : 2 ^ k < 2 * n := by
  cases k with
  | zero => simp; omega
  | succ k =>
    have h : ¬ n ≤ 2 ^ k := fun hle => by have := hmin k hle; omega
    rw [pow_succ]
    omega

theorem nulTable_getD_one :
    (nulTable maxLayers).getD 1 [] = hash254 [List.replicate 64 0] := by
  rw [nulTable_getD_succ 0 (by decide), nulTable_getD_zero, hash254]
  simp only [List.flatten, List.append_nil]
  rfl

theorem commP_eq_treeRoot (M : Nat) (data : List Nat) (k : Nat) (h1 : 127 ≤ data.length)
    (harr : windowCount data.length ≤ 2 ^ 27) (hk : windowCount data.length ≤ 2 ^ k)
    (hmin : ∀ j, windowCount data.length ≤ 2 ^ j → k ≤ j) :
    commP M data = .commP (some (treeRoot (k + 1)
      (leafRow data ++ List.replicate (2 * (2 ^ k - windowCount data.length))
        (hash254 [List.replicate 64 0])))) := by
  have hk27 : k ≤ 27 := hmin 27 harr
  have hn : 1 ≤ windowCount data.length := by unfold windowCount; omega
  have hlt := least_pow_bounds _ k hn hk hmin
  have hlen := leafRow_length data
  have e : (2 : Nat) ^ (k + 1) = 2 * 2 ^ k := by rw [pow_succ]; omega
  rw [commP_eq_runLayers M data h1 (payload_le_of_windowCount _ harr),
    runLayers_treeRoot (k + 1) 0 maxLayers (leafRow data) (by unfold maxLayers; omega)
      (by unfold maxLayers; omega) (by omega) (by omega),
    nulTable_getD_one, hlen, e, ← Nat.mul_sub]

/-! ## Inputs of zero bytes -/

theorem fr32Expand_zero : fr32Expand (List.replicate 127 0) = List.replicate 128 0 := by
  decide!

theorem windowLeaves_zero :
    windowLeaves (List.replicate 127 0) =
      [(nulTable maxLayers).getD 1 [], (nulTable maxLayers).getD 1 []] := by
  have h1 : (List.replicate 128 0).take 64 = List.replicate 64 0 := by
    rw [List.take_replicate, Nat.min_eq_left (by omega)]
  have h2 : (List.replicate 128 0).drop 64 = List.replicate 64 0 := by
    rw [List.drop_replicate]
  rw [windowLeaves, fr32Expand_zero, h1, h2, nulTable_getD_one]

theorem zeroPadded_zero (len : Nat) :
    zeroPadded (List.replicate len 0) = List.replicate (127 * windowCount len) 0 := by
  simp only [zeroPadded, List.length_replicate, List.append_replicate_replicate, windowCount]
  congr 1
  omega

theorem leafRow_zero (len : Nat) :
    leafRow (List.replicate len 0) =
      List.replicate (2 * windowCount len) ((nulTable maxLayers).getD 1 []) := by
  rw [leafRow_eq, zeroPadded_zero, List.length_replicate]
  have hw : ∀ j, j ∈ List.range (windowCount len) →
      windowLeaves (((List.replicate (127 * windowCount len) 0).drop (127 * j)).take 127) =
        [(nulTable maxLayers).getD 1 [], (nulTable maxLayers).getD 1 []] := by
    intro j hj
    have hj' : j < windowCount len := List.mem_range.mp hj
    rw [List.drop_replicate, List.take_replicate, Nat.min_eq_left (by omega), windowLeaves_zero]
  rw [List.flatMap_congr hw]
  generalize windowCount len = n
  induction n with
  | zero => rfl
  | succ n ih =>
    rw [List.range_succ, List.flatMap_append, ih]
    have e : 2 * (n + 1) = 2 * n + 2 := by omega
    rw [e, ← List.append_replicate_replicate]
    rfl

theorem treeRoot_replicate :
    ∀ (h i : Nat), i + h < maxLayers →
      treeRoot h (List.replicate (2 ^ h) ((nulTable maxLayers).getD i [])) =
        (nulTable maxLayers).getD (i + h) [] := by
  intro h
  induction h with
  | zero => intro i _; rfl
  | succ h ih =>
    intro i hi
    have e : (2 : Nat) ^ (h + 1) = 2 ^ h + 2 ^ h := by rw [pow_succ]; omega
    rw [treeRoot, List.take_replicate, List.drop_replicate, e,
      Nat.min_eq_left (Nat.le_add_right _ _),
      Nat.add_sub_cancel, ih i (by omega), ← Nat.add_assoc,
      nulTable_getD_succ (i + h) (by omega), hash254_pair]

theorem commP_zero (M len k : Nat) (h1 : 127 ≤ len) (harr : windowCount len ≤ 2 ^ 27)
    (hk : windowCount len ≤ 2 ^ k) (hmin : ∀ j, windowCount len ≤ 2 ^ j → k ≤ j) :
    commP M (List.replicate len 0) = .commP (some ((nulTable maxLayers).getD (k + 2) [])) := by
  have hk27 : k ≤ 27 := hmin 27 harr
  have h := commP_eq_treeRoot M (List.replicate len 0) k (by simpa using h1)
    (by simpa using harr) (by simpa using hk) (by simpa using hmin)
  have e : (2 : Nat) ^ (k + 1) = 2 * 2 ^ k := by rw [pow_succ]; omega
  rw [h, leafRow_zero, List.length_replicate, ← nulTable_getD_one,
    List.append_replicate_replicate,
    show 2 * windowCount len + 2 * (2 ^ k - windowCount len) = 2 ^ (k + 1) by omega,
    treeRoot_replicate (k + 1) 1 (by unfold maxLayers; omega),
    show 1 + (k + 1) = k + 2 by omega]

/-! ## Every digest is a 254-bit digest -/

theorem windowLeaves_isDigest (w : List Nat) : ∀ d ∈ windowLeaves w, IsDigest d := by
  intro d hd
  simp only [windowLeaves, List.mem_cons, List.mem_singleton, List.not_mem_nil, or_false] at hd
  rcases hd with rfl | rfl <;> exact hash254_isDigest _

theorem windowLoop_isDigest (payloadSize : Nat) (arr : List Nat) :
    ∀ (n wbufIdx : Nat) (queue : List (List Nat)), (∀ d ∈ queue, IsDigest d) →
      ∀ d ∈ (windowLoop payloadSize arr n wbufIdx queue).1, IsDigest d := by
  intro n
  induction n with
  | zero => intro wbufIdx queue hq; exact hq
  | succ n ih =>
    intro wbufIdx queue hq
    rw [windowLoop]
    split
    · exact hq
    · split
      · exact hq
      · apply ih
        intro d hd
        rcases List.mem_append.mp hd with h | h
        · exact hq d h
        · exact windowLeaves_isDigest _ d h

theorem appendData_isDigest (cp : CommpCollector) (ds : DataSource)
    (hq : ∀ d ∈ cp.layerQueue0, IsDigest d) :
    ∀ d ∈ (AppendData cp ds).1.layerQueue0, IsDigest d := by
  unfold AppendData
  split
  · exact hq
  · simp only
    split
    · split
      · exact hq
      · exact windowLoop_isDigest _ _ _ _ _ hq
    · exact windowLoop_isDigest _ _ _ _ _ hq

theorem appendAll_isDigest (chunks : List DataSource) :
    ∀ cp : CommpCollector, (∀ d ∈ cp.layerQueue0, IsDigest d) →
      ∀ d ∈ (appendAll cp chunks).layerQueue0, IsDigest d := by
  induction chunks with
  | nil => intro cp hq; exact hq
  | cons ds rest ih =>
    intro cp hq
    exact ih _ (appendData_isDigest cp ds hq)

theorem layerReceive_isDigest (myIdx : Nat) :
    ∀ (queue : List (List Nat)) (st st1 : LayerRun), (∀ d ∈ queue, IsDigest d) →
      (∀ d ∈ st.sent, IsDigest d) → (∀ d, st.chunkHold = some d → IsDigest d) →
      layerReceive myIdx queue st = some st1 →
      (∀ d ∈ st1.sent, IsDigest d) ∧ (∀ d, st1.chunkHold = some d → IsDigest d) := by
  intro queue
  induction queue with
  | nil =>
    intro st st1 _ hs hh hr
    simp only [layerReceive, Option.some.injEq] at hr
    subst hr
    exact ⟨hs, hh⟩
  | cons chunk queue ih =>
    intro st st1 hq hs hh hr
    have hq1 : ∀ d ∈ queue, IsDigest d := fun d hd => hq d (List.mem_cons_of_mem _ hd)
    rw [layerReceive] at hr
    split at hr
    · refine ih ⟨some chunk, st.nextAdded, st.sent⟩ st1 hq1 hs ?_ hr
      intro d hd
      simp only [Option.some.injEq] at hd
      subst hd
      exact hq _ (List.mem_cons_self _ _)
    · split at hr
      · refine ih ⟨none, true, _⟩ st1 hq1 ?_ ?_ hr
        · intro d hd
          rcases List.mem_append.mp hd with h | h
          · exact hs d h
          · rw [List.mem_singleton.mp h]
            exact hash254_isDigest _
        · intro d hd
          simp at hd
      · simp at hr

theorem layerReceive_sent_isDigest (myIdx : Nat) :
    ∀ (queue : List (List Nat)) (st st1 : LayerRun), (∀ d ∈ st.sent, IsDigest d) →
      layerReceive myIdx queue st = some st1 → ∀ d ∈ st1.sent, IsDigest d := by
  intro queue
  induction queue with
  | nil =>
    intro st st1 hs hr
    simp only [layerReceive, Option.some.injEq] at hr
    subst hr
    exact hs
  | cons chunk queue ih =>
    intro st st1 hs hr
    rw [layerReceive] at hr
    split at hr
    · exact ih ⟨some chunk, st.nextAdded, st.sent⟩ st1 hs hr
    · split at hr
      · refine ih ⟨none, true, _⟩ st1 ?_ hr
        intro d hd
        rcases List.mem_append.mp hd with h | h
        · exact hs d h
        · rw [List.mem_singleton.mp h]
          exact hash254_isDigest _
      · simp at hr

theorem layerClose_isDigest (Z : List (List Nat)) (myIdx : Nat) (st : LayerRun)
    (next : List (List Nat)) (hs : ∀ d ∈ st.sent, IsDigest d)
    (hc : layerClose Z myIdx st = .closeNext next) : ∀ d ∈ next, IsDigest d := by
  unfold layerClose at hc
  split at hc
  · split at hc
    · simp at hc
    · split at hc
      · simp only [LayerClose.closeNext.injEq] at hc
        subst hc
        exact hs
      · split at hc
        · simp only [LayerClose.closeNext.injEq] at hc
          subst hc
          intro d hd
          rcases List.mem_append.mp hd with h | h
          · exact hs d h
          · rw [List.mem_singleton.mp h]
            exact hash254_isDigest _
        · simp at hc
  · simp at hc

theorem layerClose_result (Z : List (List Nat)) (myIdx : Nat) (st : LayerRun)
    (cid : Option (List Nat)) (hc : layerClose Z myIdx st = .result cid) :
    cid = st.chunkHold := by
  unfold layerClose at hc
  split at hc
  · split at hc
    · simp only [LayerClose.result.injEq] at hc
      exact hc.symm
    · split at hc
      · simp at hc
      · split at hc <;> simp at hc
  · simp at hc

theorem runLayers_isDigest (Z : List (List Nat)) :
    ∀ (fuel myIdx : Nat) (queue : List (List Nat)) (d : List Nat),
      (∀ x ∈ queue, IsDigest x) → runLayers Z fuel myIdx queue = .commP (some d) →
      IsDigest d := by
  intro fuel
  induction fuel with
  | zero => intro myIdx queue d _ h; simp [runLayers] at h
  | succ fuel ih =>
    intro myIdx queue d hq h
    rw [runLayers] at h
    split at h
    · simp at h
    · next st hst =>
      have hd := layerReceive_isDigest myIdx queue LayerRun.init st hq
        (by intro x hx; simp [LayerRun.init] at hx) (by intro x hx; simp [LayerRun.init] at hx)
        hst
      split at h
      · simp at h
      · next cid hcl =>
        simp only [FlushResult.commP.injEq] at h
        have := layerClose_result Z myIdx st cid hcl
        exact hd.2 d (by rw [← this, h])
      · next nxt hcl =>
        exact ih _ _ d (layerClose_isDigest Z myIdx st nxt hd.1 hcl) h

theorem nulTable_isDigest : ∀ d ∈ nulTable maxLayers, IsDigest d := by
  intro d hd
  obtain ⟨i, hi, rfl⟩ := List.getElem_of_mem hd
  have hi' : i < maxLayers := by rw [nulTable_length] at hi; exact hi
  have e : (nulTable maxLayers)[i] = (nulTable maxLayers).getD i [] := by
    simp [List.getD_eq_getElem?_getD, List.getElem?_eq_getElem hi]
  rw [e]
  cases i with
  | zero =>
    rw [nulTable_getD_zero]
    exact ⟨by simp, by simp [List.getD_eq_getElem?_getD, List.getElem?_replicate]⟩
  | succ j =>
    rw [nulTable_getD_succ j hi']
    exact clearTop2_isDigest _ (sha256_length _)

theorem nulTable_two :
    (nulTable maxLayers).getD 2 [] =
      [0x37, 0x31, 0xbb, 0x99, 0xac, 0x68, 0x9f, 0x66, 0xee, 0xf5, 0x97, 0x3e, 0x4a, 0x94,
       0xda, 0x18, 0x8f, 0x4d, 0xdc, 0xae, 0x58, 0x07, 0x24, 0xfc, 0x6f, 0x3f, 0xd6, 0x0d,
       0xfd, 0x48, 0x83, 0x33] := by
  decide!

/-! ## Sample inputs -/

theorem isWindow_range : IsWindow (List.range 127) := by
  refine ⟨List.length_range 127, ?_⟩
  intro b hb
  have := List.mem_range.mp hb
  omega

theorem leafRow_single (data : List Nat) (h : data.length = 127) :
    leafRow data = windowLeaves data := by
  have hz : zeroPadded data = data := by simp [zeroPadded, h]
  have hc : windowCount data.length = 1 := by rw [h]; rfl
  rw [leafRow_eq, hc, hz]
  simp [List.range_succ, ← h]

theorem runLayers_two (l r : List Nat) :
    runLayers (nulTable maxLayers) maxLayers 0 [l, r] = .commP (some (hash254 [l, r])) := by
  have h := runLayers_treeRoot 1 0 maxLayers [l, r] (by decide) (by decide) (by simp) (by simp)
  rw [h]
  rfl

theorem least_pow_three : ∀ j, 3 ≤ 2 ^ j → 2 ≤ j := by
  intro j hj
  by_contra h
  have hj' : j = 0 ∨ j = 1 := by omega
  rcases hj' with rfl | rfl <;> simp at hj

theorem least_pow_two : ∀ j, 2 ≤ 2 ^ j → 1 ≤ j := by
  intro j hj
  by_contra h
  have hj' : j = 0 := by omega
  subst hj'
  simp at hj

/-! ## `AppendData` in general -/

theorem appendData_short (cp : CommpCollector) (ds : DataSource)
    (hs : cp.shortChunkSeen = true) : AppendData cp ds = (cp, .error .afterShortChunk) := by
  simp [AppendData, hs]

theorem appendAll_short (later : List DataSource) (cp : CommpCollector)
    (hs : cp.shortChunkSeen = true) : appendAll cp later = cp := by
  induction later with
  | nil => rfl
  | cons ds rest ih =>
    show appendAll (AppendData cp ds).1 rest = cp
    rw [appendData_short cp ds hs]
    exact ih

theorem appendData_eq_minimum (cp : CommpCollector) (ds : DataSource)
    (hs : cp.shortChunkSeen = false) (hr : (cp.payloadSize + ds.Size) % 2 ^ 64 % 127 ≠ 0)
    (hp : (cp.payloadSize + ds.Size) % 2 ^ 64 < 127) :
    AppendData cp ds =
      ({ cp with fr32WorkBuf := zcpAppendTo ds.Content cp.fr32WorkBuf,
                 payloadSize := (cp.payloadSize + ds.Size) % 2 ^ 64 },
        .error .minimumInput) := by
  simp only [AppendData, hs, Bool.false_eq_true, if_false, hr, ne_eq, not_false_eq_true,
    if_true, hp]

theorem appendData_eq_padded (cp : CommpCollector) (ds : DataSource)
    (hs : cp.shortChunkSeen = false) (hr : (cp.payloadSize + ds.Size) % 2 ^ 64 % 127 ≠ 0)
    (hp : ¬ (cp.payloadSize + ds.Size) % 2 ^ 64 < 127) :
    AppendData cp ds =
      ({ cp with
          fr32WorkBuf := goAppend (zcpAppendTo ds.Content cp.fr32WorkBuf) ds.Content.length
            (List.replicate (127 - (cp.payloadSize + ds.Size) % 2 ^ 64 % 127) 0),
          payloadSize := (cp.payloadSize + ds.Size) % 2 ^ 64,
          shortChunkSeen := true,
          layerQueue0 := (windowLoop ((cp.payloadSize + ds.Size) % 2 ^ 64)
            (goAppend (zcpAppendTo ds.Content cp.fr32WorkBuf) ds.Content.length
              (List.replicate (127 - (cp.payloadSize + ds.Size) % 2 ^ 64 % 127) 0))
            ((ds.Content.length + (127 - (cp.payloadSize + ds.Size) % 2 ^ 64 % 127) + 126) / 127)
            0 cp.layerQueue0).1 },
        (windowLoop ((cp.payloadSize + ds.Size) % 2 ^ 64)
            (goAppend (zcpAppendTo ds.Content cp.fr32WorkBuf) ds.Content.length
              (List.replicate (127 - (cp.payloadSize + ds.Size) % 2 ^ 64 % 127) 0))
            ((ds.Content.length + (127 - (cp.payloadSize + ds.Size) % 2 ^ 64 % 127) + 126) / 127)
            0 cp.layerQueue0).2) := by
  simp only [AppendData, hs, Bool.false_eq_true, if_false, hr, ne_eq, not_false_eq_true,
    if_true, hp]

theorem appendData_eq_whole (cp : CommpCollector) (ds : DataSource)
    (hs : cp.shortChunkSeen = false) (hr : (cp.payloadSize + ds.Size) % 2 ^ 64 % 127 = 0) :
    AppendData cp ds =
      ({ cp with
          fr32WorkBuf := zcpAppendTo ds.Content cp.fr32WorkBuf,
          payloadSize := (cp.payloadSize + ds.Size) % 2 ^ 64,
          layerQueue0 := (windowLoop ((cp.payloadSize + ds.Size) % 2 ^ 64)
            (zcpAppendTo ds.Content cp.fr32WorkBuf) ((ds.Content.length + 126) / 127)
            0 cp.layerQueue0).1 },
        (windowLoop ((cp.payloadSize + ds.Size) % 2 ^ 64)
            (zcpAppendTo ds.Content cp.fr32WorkBuf) ((ds.Content.length + 126) / 127)
            0 cp.layerQueue0).2) := by
  simp only [AppendData, hs, Bool.false_eq_true, if_false, hr, ne_eq, not_true_eq_false]

theorem appendData_payloadSize (cp : CommpCollector) (ds : DataSource)
    (hs : cp.shortChunkSeen = false) :
    (AppendData cp ds).1.payloadSize = (cp.payloadSize + ds.Size) % 2 ^ 64 := by
  by_cases hr : (cp.payloadSize + ds.Size) % 2 ^ 64 % 127 = 0
  · rw [appendData_eq_whole cp ds hs hr]
  · by_cases hp : (cp.payloadSize + ds.Size) % 2 ^ 64 < 127
    · rw [appendData_eq_minimum cp ds hs hr hp]
    · rw [appendData_eq_padded cp ds hs hr hp]

theorem windowLoop_over_max (payloadSize : Nat) (arr : List Nat)
    (hp : MaxPiecePayload < payloadSize) (n wbufIdx : Nat) (queue : List (List Nat)) :
    windowLoop payloadSize arr (n + 1) wbufIdx queue = (queue, .error .maximumPayload) := by
  rw [windowLoop, if_pos hp]

theorem windowLoop_not_max (payloadSize : Nat) (arr : List Nat)
    (hp : payloadSize ≤ MaxPiecePayload) :
    ∀ (n wbufIdx : Nat) (queue : List (List Nat)),
      (windowLoop payloadSize arr n wbufIdx queue).2 ≠ .error .maximumPayload := by
  intro n
  induction n with
  | zero => intro wbufIdx queue; simp [windowLoop]
  | succ n ih =>
    intro wbufIdx queue
    rw [windowLoop, if_neg (by omega)]
    split
    · simp
    · exact ih _ _

theorem appendData_over_max (cp : CommpCollector) (ds : DataSource)
    (hs : cp.shortChunkSeen = false) (hne : ds.Content ≠ [])
    (hp : MaxPiecePayload < (cp.payloadSize + ds.Size) % 2 ^ 64) :
    (AppendData cp ds).2 = .error .maximumPayload ∧
    (AppendData cp ds).1.layerQueue0 = cp.layerQueue0 := by
  have hmax := maxPiecePayload_eq
  have hlen : 0 < ds.Content.length := List.length_pos.mpr hne
  by_cases hr : (cp.payloadSize + ds.Size) % 2 ^ 64 % 127 = 0
  · obtain ⟨n, hn⟩ : ∃ n, (ds.Content.length + 126) / 127 = n + 1 :=
      ⟨(ds.Content.length + 126) / 127 - 1, by omega⟩
    rw [appendData_eq_whole cp ds hs hr, hn, windowLoop_over_max _ _ hp]
    exact ⟨rfl, rfl⟩
  · obtain ⟨m, hm⟩ : ∃ m, (ds.Content.length +
        (127 - (cp.payloadSize + ds.Size) % 2 ^ 64 % 127) + 126) / 127 = m + 1 :=
      ⟨(ds.Content.length + (127 - (cp.payloadSize + ds.Size) % 2 ^ 64 % 127) + 126) / 127 - 1,
        by omega⟩
    rw [appendData_eq_padded cp ds hs hr (by omega), hm, windowLoop_over_max _ _ hp]
    exact ⟨rfl, rfl⟩

theorem appendData_not_max (cp : CommpCollector) (ds : DataSource)
    (hp : (cp.payloadSize + ds.Size) % 2 ^ 64 ≤ MaxPiecePayload) :
    (AppendData cp ds).2 ≠ .error .maximumPayload := by
  cases hs : cp.shortChunkSeen with
  | true => rw [appendData_short cp ds hs]; simp
  | false =>
    by_cases hr : (cp.payloadSize + ds.Size) % 2 ^ 64 % 127 = 0
    · rw [appendData_eq_whole cp ds hs hr]
      exact windowLoop_not_max _ _ hp _ _ _
    · by_cases hlt : (cp.payloadSize + ds.Size) % 2 ^ 64 < 127
      · rw [appendData_eq_minimum cp ds hs hr hlt]; simp
      · rw [appendData_eq_padded cp ds hs hr hlt]
        exact windowLoop_not_max _ _ hp _ _ _

theorem appendData_minimum (cp : CommpCollector) (ds : DataSource)
    (hs : cp.shortChunkSeen = false) (h0 : cp.payloadSize = 0) (h1 : 1 ≤ ds.Size)
    (h2 : ds.Size ≤ 126) :
    (AppendData cp ds).2 = .error .minimumInput ∧
    (AppendData cp ds).1.layerQueue0 = cp.layerQueue0 := by
  have hmod : (cp.payloadSize + ds.Size) % 2 ^ 64 = ds.Size := by
    rw [h0, Nat.zero_add]
    exact Nat.mod_eq_of_lt (by have : (127 : Nat) < 2 ^ 64 := by norm_num
                               omega)
  rw [appendData_eq_minimum cp ds hs (by rw [hmod]; omega) (by rw [hmod]; omega)]
  exact ⟨rfl, rfl⟩

theorem appendData_chunk (cp : CommpCollector) (c : List Nat)
    (hs : cp.shortChunkSeen = false) (hp : cp.payloadSize % 127 = 0)
    (h1 : c.length % 127 = 0 ∨ 127 ≤ cp.payloadSize + c.length)
    (h2 : cp.payloadSize + c.length ≤ MaxPiecePayload) :
    (AppendData cp (chunkSource c)).2 = .ok ∧
    (AppendData cp (chunkSource c)).1.layerQueue0 = cp.layerQueue0 ++ leafRow c ∧
    (AppendData cp (chunkSource c)).1.stackedNulPadding = cp.stackedNulPadding ∧
    (AppendData cp (chunkSource c)).1.payloadSize = cp.payloadSize + c.length ∧
    (AppendData cp (chunkSource c)).1.shortChunkSeen = decide (c.length % 127 ≠ 0) := by
  by_cases hr : c.length % 127 = 0
  · have hmax := maxPiecePayload_eq
    have hmod : (cp.payloadSize + c.length) % 2 ^ 64 = cp.payloadSize + c.length :=
      Nat.mod_eq_of_lt (by rw [hmax] at h2; have : (68182605824 : Nat) < 2 ^ 64 := by norm_num
                           omega)
    have hcnt : 127 * windowCount c.length = c.length := by unfold windowCount; omega
    have hz : zeroPadded c = c := by simp [zeroPadded, hr]
    have hloop := windowLoop_leafRow (cp.payloadSize + c.length)
      (zcpAppendTo c cp.fr32WorkBuf) c h2 (by rw [hcnt, hz]; exact zcpAppendTo_take c _)
      (by rw [hcnt]; exact zcpAppendTo_length_ge c _) cp.layerQueue0
    have hw : (c.length + 126) / 127 = windowCount c.length := rfl
    have e := appendData_eq_whole cp (chunkSource c) hs
      (by show (cp.payloadSize + c.length) % 2 ^ 64 % 127 = 0; rw [hmod]; omega)
    simp only [chunkSource] at e ⊢
    rw [e, hmod, hw, hloop]
    simp [hr, hs]
  · have h := appendData_windows cp c hs hp (by omega) h2
    exact h

theorem rowOf_zero (buf : List Nat) : rowOf buf 0 = [] := rfl

theorem rowOf_congr (a b : List Nat) (n : Nat) (h : a.take (127 * n) = b.take (127 * n)) :
    rowOf a n = rowOf b n := by
  unfold rowOf
  apply List.flatMap_congr
  intro j hj
  have hj' : j < n := List.mem_range.mp hj
  rw [take_window_eq a (b.take (127 * n)) (127 * n) (127 * j) 127 h (by omega),
    ← take_window_eq b (b.take (127 * n)) (127 * n) (127 * j) 127 rfl (by omega)]

theorem rowOf_append (a b : List Nat) (n w : Nat) (ha : a.length = 127 * n) :
    rowOf (a ++ b) (n + w) = rowOf a n ++ rowOf b w := by
  unfold rowOf
  rw [List.range_add, List.flatMap_append, List.flatMap_map]
  have h1 : (List.range n).flatMap (fun j => windowLeaves (((a ++ b).drop (127 * j)).take 127)) =
      (List.range n).flatMap (fun j => windowLeaves ((a.drop (127 * j)).take 127)) := by
    apply List.flatMap_congr
    intro j hj
    have hj' : j < n := List.mem_range.mp hj
    rw [take_window_eq (a ++ b) a (127 * n) (127 * j) 127
      (by rw [← ha, List.take_left]) (by omega)]
  have h2 : (List.range w).flatMap
        (fun x => windowLeaves (((a ++ b).drop (127 * (n + x))).take 127)) =
      (List.range w).flatMap (fun j => windowLeaves ((b.drop (127 * j)).take 127)) := by
    apply List.flatMap_congr
    intro j _
    rw [show 127 * (n + j) = a.length + 127 * j by rw [ha]; omega, List.drop_append]
  rw [h1]
  exact congrArg _ h2

theorem leafRow_eq_rowOf (data : List Nat) :
    leafRow data = rowOf (zeroPadded data) (windowCount data.length) := leafRow_eq data

theorem leafRow_whole (a : List Nat) (m : Nat) (ha : a.length = 127 * m) :
    leafRow a = rowOf a m := by
  have hz : zeroPadded a = a := by
    have : a.length % 127 = 0 := by omega
    simp [zeroPadded, this]
  have hc : windowCount a.length = m := by unfold windowCount; omega
  rw [leafRow_eq_rowOf, hz, hc]

theorem leafRow_append_whole (a b : List Nat) (ha : a.length % 127 = 0) :
    leafRow (a ++ b) = leafRow a ++ leafRow b := by
  obtain ⟨m, hm⟩ : ∃ m, a.length = 127 * m := ⟨a.length / 127, by omega⟩
  have hz : zeroPadded (a ++ b) = a ++ zeroPadded b := by
    have : (a.length + b.length) % 127 = b.length % 127 := by omega
    simp [zeroPadded, this]
  have hc : windowCount (a ++ b).length = m + windowCount b.length := by
    rw [List.length_append]; unfold windowCount; omega
  rw [leafRow_eq_rowOf (a ++ b), hz, hc, rowOf_append a _ m _ hm, leafRow_whole a m hm,
    leafRow_eq_rowOf b]

theorem leafRow_append_zeros (x : List Nat) (z : Nat) :
    leafRow (x ++ List.replicate z 0) =
      leafRow x ++ List.replicate (2 * (windowCount (x.length + z) - windowCount x.length))
        ((nulTable maxLayers).getD 1 []) := by
  have hn : windowCount x.length ≤ windowCount (x.length + z) := by
    unfold windowCount; omega
  obtain ⟨d, hd⟩ : ∃ d, windowCount (x.length + z) = windowCount x.length + d :=
    ⟨windowCount (x.length + z) - windowCount x.length, by omega⟩
  have hz : zeroPadded (x ++ List.replicate z 0) =
      zeroPadded x ++ List.replicate (127 * d) 0 := by
    simp only [zeroPadded, List.length_append, List.length_replicate, List.append_assoc,
      List.append_replicate_replicate]
    congr 2
    unfold windowCount at hd
    omega
  have hzero : rowOf (List.replicate (127 * d) 0) d =
      List.replicate (2 * d) ((nulTable maxLayers).getD 1 []) := by
    have h := leafRow_zero (127 * d)
    have hc : windowCount (127 * d) = d := by unfold windowCount; omega
    rw [leafRow_eq_rowOf, zeroPadded_zero, List.length_replicate, hc] at h
    exact h
  rw [leafRow_eq_rowOf (x ++ List.replicate z 0), hz, List.length_append,
    List.length_replicate, hd, rowOf_append _ _ _ d (zeroPadded_length x), ← leafRow_eq_rowOf,
    hzero, Nat.add_sub_cancel_left]

/-! ## Beyond the layer arrays and beyond the maximum payload -/

theorem runLayers_panic :
    ∀ (e myIdx fuel : Nat) (q : List (List Nat)), myIdx + e = 28 → e + 2 ≤ fuel →
      2 ^ e < q.length → runLayers (nulTable maxLayers) fuel myIdx q = .panic := by
  intro e
  induction e with
  | zero =>
    intro myIdx fuel q hidx hfuel hq
    obtain ⟨f, rfl⟩ : ∃ f, fuel = f + 1 + 1 := ⟨fuel - 2, by omega⟩
    have h28 : myIdx = 28 := by omega
    subst h28
    rw [runLayers_step _ (f + 1) 28 (by decide) _ (nulTable_getElem? 29 (by decide)) q
        (by simpa using hq),
      runLayers_overflow _ f 29 (by decide)]
  | succ e ih =>
    intro myIdx fuel q hidx hfuel hq
    obtain ⟨f, rfl⟩ : ∃ f, fuel = f + 1 := ⟨fuel - 1, by omega⟩
    have hpos : 0 < 2 ^ e := Nat.pow_pos (by omega)
    rw [pow_succ] at hq
    have hlen := pairUp_length ((nulTable maxLayers).getD (myIdx + 1) []) q
    rw [runLayers_step _ f myIdx (by unfold maxLayers; omega) _
        (nulTable_getElem? (myIdx + 1) (by unfold maxLayers; omega)) q (by omega)]
    exact ih (myIdx + 1) f _ (by omega) (by omega) (by omega)

theorem commP_panic (M : Nat) (data : List Nat) (h1 : 127 ≤ data.length)
    (h2 : data.length ≤ MaxPiecePayload) (h3 : 2 ^ 27 < windowCount data.length) :
    commP M data = .panic := by
  rw [commP_eq_runLayers M data h1 h2]
  apply runLayers_panic 28 0 maxLayers _ (by omega) (by decide)
  rw [leafRow_length, pow_succ]
  omega

theorem flushState_empty (cp : CommpCollector) (h : cp.layerQueue0 = []) :
    (FlushState cp).1 = .commP none := by
  simp only [FlushState, h]
  exact runLayers_short _ 30 0 (by decide) [] (by simp)

theorem commP_oversize (M : Nat) (data : List Nat) (h1 : MaxPiecePayload < data.length)
    (h2 : data.length < 2 ^ 64) : commP M data = .commP none := by
  have hne : data ≠ [] := by
    intro h
    rw [h] at h1
    simp at h1
  have h := appendData_over_max (NewCollector M) ⟨data.length, data⟩ rfl hne
    (by show MaxPiecePayload < (0 + data.length) % 2 ^ 64
        rw [Nat.zero_add, Nat.mod_eq_of_lt h2]; exact h1)
  exact flushState_empty _ h.2

/-! ## Sequences of chunks -/

theorem appendAll_cons (cp : CommpCollector) (ds : DataSource) (rest : List DataSource) :
    appendAll cp (ds :: rest) = appendAll (AppendData cp ds).1 rest := rfl

theorem appendAll_append (cp : CommpCollector) (a b : List DataSource) :
    appendAll cp (a ++ b) = appendAll (appendAll cp a) b := by
  simp [appendAll, List.foldl_append]

theorem appendAll_whole (whole : List (List Nat)) :
    ∀ cp : CommpCollector, cp.shortChunkSeen = false → cp.payloadSize % 127 = 0 →
      (∀ c ∈ whole, c.length % 127 = 0) →
      cp.payloadSize + whole.flatten.length ≤ MaxPiecePayload →
      (appendAll cp (whole.map chunkSource)).shortChunkSeen = false ∧
      (appendAll cp (whole.map chunkSource)).payloadSize =
        cp.payloadSize + whole.flatten.length ∧
      (appendAll cp (whole.map chunkSource)).layerQueue0 =
        cp.layerQueue0 ++ leafRow whole.flatten ∧
      (appendAll cp (whole.map chunkSource)).stackedNulPadding = cp.stackedNulPadding ∧
      (∀ pre c post, whole = pre ++ c :: post →
        (AppendData (appendAll cp (pre.map chunkSource)) (chunkSource c)).2 = .ok) := by
  induction whole with
  | nil =>
    intro cp hs _ _ _
    refine ⟨hs, by simp [appendAll], ?_, rfl, ?_⟩
    · have : leafRow [] = [] := rfl
      simp [appendAll, this]
    · intro pre c post h
      simp at h
  | cons c rest ih =>
    intro cp hs hp hall hmax
    have hc : c.length % 127 = 0 := hall c (List.mem_cons_self _ _)
    have hrest : ∀ x ∈ rest, x.length % 127 = 0 :=
      fun x hx => hall x (List.mem_cons_of_mem _ hx)
    have hlen : (c :: rest).flatten.length = c.length + rest.flatten.length := by
      simp [List.flatten]
    rw [hlen] at hmax
    obtain ⟨hok, hq, hz, hpay, hshort⟩ :=
      appendData_chunk cp c hs hp (Or.inl hc) (by omega)
    have hshort' : (AppendData cp (chunkSource c)).1.shortChunkSeen = false := by
      rw [hshort]; simp [hc]
    obtain ⟨i1, i2, i3, i4, i5⟩ := ih (AppendData cp (chunkSource c)).1 hshort'
      (by rw [hpay]; omega) hrest (by rw [hpay]; omega)
    rw [List.map_cons, appendAll_cons]
    refine ⟨i1, ?_, ?_, ?_, ?_⟩
    · rw [i2, hpay, hlen]; omega
    · rw [i3, hq, List.append_assoc]
      have : (c :: rest).flatten = c ++ rest.flatten := rfl
      rw [this, leafRow_append_whole c _ hc]
    · rw [i4, hz]
    · intro pre x post h
      cases pre with
      | nil =>
        simp only [List.nil_append, List.cons.injEq] at h
        rw [← h.1]
        exact hok
      | cons y pre =>
        simp only [List.cons_append, List.cons.injEq] at h
        rw [List.map_cons, appendAll_cons, ← h.1]
        exact i5 pre x post h.2

/-! ## After an error -/

theorem windowLoop_zero (payloadSize : Nat) (arr : List Nat) (wbufIdx : Nat)
    (queue : List (List Nat)) : windowLoop payloadSize arr 0 wbufIdx queue = (queue, .ok) := rfl

theorem appendData_dead (cp : CommpCollector) (ds : DataSource)
    (hinv : cp.shortChunkSeen = true ∨ MaxPiecePayload < cp.payloadSize)
    (hw : cp.payloadSize + ds.Size < 2 ^ 64) :
    (AppendData cp ds).1.layerQueue0 = cp.layerQueue0 ∧
    ((AppendData cp ds).1.shortChunkSeen = true ∨
      MaxPiecePayload < (AppendData cp ds).1.payloadSize) ∧
    (AppendData cp ds).1.payloadSize ≤ cp.payloadSize + ds.Size ∧
    (ds.Content ≠ [] → ∃ e, (AppendData cp ds).2 = .error e) := by
  cases hs : cp.shortChunkSeen with
  | true =>
    rw [appendData_short cp ds hs]
    exact ⟨rfl, Or.inl hs, by simp, fun _ => ⟨_, rfl⟩⟩
  | false =>
    have hmaxlt : MaxPiecePayload < cp.payloadSize := by
      rcases hinv with h | h
      · rw [hs] at h; simp at h
      · exact h
    have hmod : (cp.payloadSize + ds.Size) % 2 ^ 64 = cp.payloadSize + ds.Size :=
      Nat.mod_eq_of_lt hw
    have hp : MaxPiecePayload < (cp.payloadSize + ds.Size) % 2 ^ 64 := by rw [hmod]; omega
    have hmax := maxPiecePayload_eq
    by_cases hr : (cp.payloadSize + ds.Size) % 2 ^ 64 % 127 = 0
    · rw [appendData_eq_whole cp ds hs hr]
      by_cases hne : ds.Content = []
      · have e : (([] : List Nat).length + 126) / 127 = 0 := by decide
        rw [hne, e, windowLoop_zero]
        exact ⟨rfl, Or.inr hp, by simp only [hmod]; omega, fun h => absurd rfl h⟩
      · have hlen : 0 < ds.Content.length := List.length_pos.mpr hne
        obtain ⟨n, hn⟩ : ∃ n, (ds.Content.length + 126) / 127 = n + 1 :=
          ⟨(ds.Content.length + 126) / 127 - 1, by omega⟩
        rw [hn, windowLoop_over_max _ _ hp]
        exact ⟨rfl, Or.inr hp, by simp only [hmod]; omega, fun _ => ⟨_, rfl⟩⟩
    · obtain ⟨m, hm⟩ : ∃ m, (ds.Content.length +
          (127 - (cp.payloadSize + ds.Size) % 2 ^ 64 % 127) + 126) / 127 = m + 1 :=
        ⟨(ds.Content.length + (127 - (cp.payloadSize + ds.Size) % 2 ^ 64 % 127) + 126) / 127
          - 1, by omega⟩
      rw [appendData_eq_padded cp ds hs hr (by omega), hm, windowLoop_over_max _ _ hp]
      exact ⟨rfl, Or.inl rfl, by simp only [hmod]; omega, fun _ => ⟨_, rfl⟩⟩

theorem appendAll_dead (later : List DataSource) :
    ∀ cp : CommpCollector, (cp.shortChunkSeen = true ∨ MaxPiecePayload < cp.payloadSize) →
      cp.payloadSize + (later.map DataSource.Size).sum < 2 ^ 64 →
      (appendAll cp later).layerQueue0 = cp.layerQueue0 ∧
      ((appendAll cp later).shortChunkSeen = true ∨
        MaxPiecePayload < (appendAll cp later).payloadSize) ∧
      (appendAll cp later).payloadSize ≤ cp.payloadSize + (later.map DataSource.Size).sum := by
  induction later with
  | nil => intro cp hinv _; exact ⟨rfl, hinv, by simp [appendAll]⟩
  | cons ds rest ih =>
    intro cp hinv hw
    simp only [List.map_cons, List.sum_cons] at hw ⊢
    obtain ⟨h1, h2, h3, _⟩ := appendData_dead cp ds hinv (by omega)
    obtain ⟨i1, i2, i3⟩ := ih (AppendData cp ds).1 h2 (by omega)
    rw [appendAll_cons]
    exact ⟨by rw [i1, h1], i2, by omega⟩

theorem windowLoop_error (payloadSize : Nat) (arr : List Nat) (e : AppendError) :
    ∀ (n wbufIdx : Nat) (queue : List (List Nat)),
      (windowLoop payloadSize arr n wbufIdx queue).2 = .error e →
      e = .maximumPayload ∧ MaxPiecePayload < payloadSize ∧
        (windowLoop payloadSize arr n wbufIdx queue).1 = queue := by
  intro n
  induction n with
  | zero => intro wbufIdx queue h; simp [windowLoop] at h
  | succ n ih =>
    intro wbufIdx queue h
    by_cases hp : MaxPiecePayload < payloadSize
    · rw [windowLoop_over_max _ _ hp] at h ⊢
      simp only [AppendResult.error.injEq] at h
      exact ⟨h.symm, hp, rfl⟩
    · rw [windowLoop, if_neg (by omega)] at h
      split at h
      · simp at h
      · have := (ih _ _ h).2.1
        omega

theorem appendData_error_state (cp : CommpCollector) (ds : DataSource)
    (herr : (AppendData cp ds).2 = .error .afterShortChunk ∨
      (AppendData cp ds).2 = .error .maximumPayload) :
    ((AppendData cp ds).1.shortChunkSeen = true ∨
      MaxPiecePayload < (AppendData cp ds).1.payloadSize) ∧
    (AppendData cp ds).1.layerQueue0 = cp.layerQueue0 := by
  have herr' : ∃ e, (AppendData cp ds).2 = .error e ∧ e ≠ .minimumInput := by
    rcases herr with h | h
    · exact ⟨_, h, by simp⟩
    · exact ⟨_, h, by simp⟩
  obtain ⟨e, he, hne⟩ := herr'
  cases hs : cp.shortChunkSeen with
  | true =>
    rw [appendData_short cp ds hs]
    exact ⟨Or.inl hs, rfl⟩
  | false =>
    by_cases hr : (cp.payloadSize + ds.Size) % 2 ^ 64 % 127 = 0
    · rw [appendData_eq_whole cp ds hs hr] at he ⊢
      obtain ⟨_, h2, h3⟩ := windowLoop_error _ _ e _ _ _ he
      exact ⟨Or.inr h2, h3⟩
    · by_cases hlt : (cp.payloadSize + ds.Size) % 2 ^ 64 < 127
      · rw [appendData_eq_minimum cp ds hs hr hlt] at he
        simp only [AppendResult.error.injEq] at he
        exact absurd he.symm hne
      · rw [appendData_eq_padded cp ds hs hr hlt] at he ⊢
        obtain ⟨_, _, h3⟩ := windowLoop_error _ _ e _ _ _ he
        exact ⟨Or.inl rfl, h3⟩

theorem zcpAppendTo_inplace (c arr : List Nat) (h : c.length ≤ arr.length) :
    zcpAppendTo c arr = c ++ arr.drop c.length := by
  simp [zcpAppendTo, goAppend, h]

theorem stale_window (n : Nat) (hn : 127 ≤ n) :
    (zcpAppendTo (List.replicate 27 2)
        (zcpAppendTo (List.replicate 100 1) (List.replicate n 0))).take 127 =
      List.replicate 27 2 ++ List.replicate 73 1 ++ List.replicate 27 0 ∧
    127 ≤ (zcpAppendTo (List.replicate 27 2)
        (zcpAppendTo (List.replicate 100 1) (List.replicate n 0))).length := by
  have h1 : zcpAppendTo (List.replicate 100 1) (List.replicate n 0) =
      List.replicate 100 1 ++ List.replicate (n - 100) 0 := by
    rw [zcpAppendTo_inplace _ _ (by rw [List.length_replicate, List.length_replicate]; omega),
      List.length_replicate, List.drop_replicate]
  have h2 : zcpAppendTo (List.replicate 27 2)
      (List.replicate 100 1 ++ List.replicate (n - 100) 0) =
      List.replicate 27 2 ++ (List.replicate 73 1 ++ List.replicate (n - 100) 0) := by
    rw [zcpAppendTo_inplace _ _ (by
        rw [List.length_replicate, List.length_append, List.length_replicate,
          List.length_replicate]; omega),
      List.length_replicate, List.drop_append_of_le_length (by rw [List.length_replicate]; omega),
      List.drop_replicate]
  rw [h1, h2]
  refine ⟨?_, ?_⟩
  · rw [List.take_append_eq_append_take, List.take_append_eq_append_take]
    simp only [List.length_replicate, List.take_replicate]
    rw [show min 127 27 = 27 by decide, show min (127 - 27) 73 = 73 by decide,
      show min (127 - 27 - 73) (n - 100) = 27 by omega, List.append_assoc]
  · simp only [List.length_append, List.length_replicate]
    omega

theorem newCollector_chunk (M : Nat) (c : List Nat)
    (h1 : c.length % 127 = 0 ∨ 127 ≤ c.length) (h2 : c.length ≤ MaxPiecePayload) :
    (AppendData (NewCollector M) (chunkSource c)).2 = .ok ∧
    (AppendData (NewCollector M) (chunkSource c)).1.layerQueue0 = leafRow c ∧
    (AppendData (NewCollector M) (chunkSource c)).1.stackedNulPadding = nulTable maxLayers ∧
    (AppendData (NewCollector M) (chunkSource c)).1.payloadSize = c.length ∧
    (AppendData (NewCollector M) (chunkSource c)).1.shortChunkSeen =
      decide (c.length % 127 ≠ 0) := by
  have h := appendData_chunk (NewCollector M) c rfl rfl
    (by rcases h1 with h | h
        · exact Or.inl h
        · exact Or.inr (by show 127 ≤ 0 + c.length; omega))
    (by show 0 + c.length ≤ _; omega)
  obtain ⟨a, b, c', d, e⟩ := h
  refine ⟨a, ?_, c', ?_, e⟩
  · rw [b]; rfl
  · rw [d]; exact Nat.zero_add _

theorem flatten_length_mod (whole : List (List Nat)) (h : ∀ c ∈ whole, c.length % 127 = 0) :
    whole.flatten.length % 127 = 0 := by
  induction whole with
  | nil => rfl
  | cons c rest ih =>
    have hc := h c (List.mem_cons_self _ _)
    have hr := ih (fun x hx => h x (List.mem_cons_of_mem _ hx))
    have : (c :: rest).flatten.length = c.length + rest.flatten.length := by
      simp [List.flatten]
    omega

theorem split_last (whole pre post : List (List Nat)) (last c : List Nat)
    (h : whole ++ [last] = pre ++ c :: post) :
    (post = [] ∧ pre = whole ∧ c = last) ∨ ∃ rest, whole = pre ++ c :: rest := by
  rcases List.eq_nil_or_concat post with hp | ⟨rest, l, hp⟩
  · subst hp
    have := List.append_inj' h rfl
    exact Or.inl ⟨rfl, this.1.symm, by simpa using this.2.symm⟩
  · subst hp
    rw [List.concat_eq_append, ← List.cons_append, ← List.append_assoc] at h
    have := List.append_inj' h rfl
    exact Or.inr ⟨rest, this.1⟩

theorem chunked_root (M : Nat) (whole : List (List Nat)) (last : List Nat)
    (hwhole : ∀ c ∈ whole, c.length % 127 = 0)
    (hmin : 127 ≤ (whole.flatten ++ last).length)
    (hmax : (whole.flatten ++ last).length ≤ MaxPiecePayload) :
    (∀ pre c post, whole ++ [last] = pre ++ c :: post →
      (AppendData (appendAll (NewCollector M) (pre.map chunkSource)) (chunkSource c)).2 =
        .ok) ∧
    (FlushState (appendAll (NewCollector M) ((whole ++ [last]).map chunkSource))).1 =
      commP M (whole.flatten ++ last) := by
  rw [List.length_append] at hmin hmax
  obtain ⟨w1, w2, w3, w4, w5⟩ := appendAll_whole whole (NewCollector M) rfl rfl hwhole
    (by show 0 + _ ≤ _; omega)
  have w2' : (appendAll (NewCollector M) (whole.map chunkSource)).payloadSize =
      whole.flatten.length := by rw [w2]; exact Nat.zero_add _
  obtain ⟨l1, l2, l3, _, _⟩ := appendData_chunk
    (appendAll (NewCollector M) (whole.map chunkSource)) last w1
    (by rw [w2']; exact flatten_length_mod whole hwhole)
    (Or.inr (by rw [w2']; omega)) (by rw [w2']; omega)
  refine ⟨?_, ?_⟩
  · intro pre c post h
    rcases split_last whole pre post last c h with ⟨_, hpre, hc⟩ | ⟨rest, hw⟩
    · rw [hpre, hc]; exact l1
    · exact w5 pre c rest hw
  · rw [List.map_append, appendAll_append]
    have hq : (appendAll (appendAll (NewCollector M) (whole.map chunkSource))
        (List.map chunkSource [last])).layerQueue0 = leafRow (whole.flatten ++ last) := by
      show (AppendData _ (chunkSource last)).1.layerQueue0 = _
      rw [l2, w3, leafRow_append_whole _ _ (flatten_length_mod whole hwhole)]
      rfl
    have hz : (appendAll (appendAll (NewCollector M) (whole.map chunkSource))
        (List.map chunkSource [last])).stackedNulPadding = nulTable maxLayers := by
      show (AppendData _ (chunkSource last)).1.stackedNulPadding = _
      rw [l3, w4]; rfl
    rw [commP_eq_runLayers M _ (by rw [List.length_append]; omega)
      (by rw [List.length_append]; omega)]
    simp only [FlushState, hq, hz]

theorem newCollector_shortChunkSeen (M : Nat) : (NewCollector M).shortChunkSeen = false := rfl

theorem newCollector_payloadSize (M : Nat) : (NewCollector M).payloadSize = 0 := rfl

theorem newCollector_layerQueue0 (M : Nat) : (NewCollector M).layerQueue0 = [] := rfl

theorem newCollector_fr32WorkBuf (M : Nat) :
    (NewCollector M).fr32WorkBuf = List.replicate (StrideSize M) 0 := rfl

theorem chunkSource_size (c : List Nat) : (chunkSource c).Size = c.length := rfl

theorem chunkSource_content (c : List Nat) : (chunkSource c).Content = c := rfl

theorem strideSize_default : StrideSize 1048576 = 1048512 := by
  unfold StrideSize
  norm_num

theorem stale_append (M : Nat) (hM : 127 ≤ StrideSize M) :
    (AppendData (NewCollector M) (chunkSource (List.replicate 100 1))).2 =
      .error .minimumInput ∧
    (AppendData (AppendData (NewCollector M) (chunkSource (List.replicate 100 1))).1
        (chunkSource (List.replicate 27 2))).2 = .ok ∧
    (AppendData (AppendData (NewCollector M) (chunkSource (List.replicate 100 1))).1
        (chunkSource (List.replicate 27 2))).1.layerQueue0 =
      windowLeaves (List.replicate 27 2 ++ List.replicate 73 1 ++ List.replicate 27 0) := by
  have hmax := maxPiecePayload_eq
  have hp1 : ((NewCollector M).payloadSize + (chunkSource (List.replicate 100 1)).Size)
      % 2 ^ 64 = 100 := by
    rw [newCollector_payloadSize, chunkSource_size, List.length_replicate]
    norm_num
  have e1 := appendData_eq_minimum (NewCollector M) (chunkSource (List.replicate 100 1))
    (newCollector_shortChunkSeen M) (by rw [hp1]; decide) (by rw [hp1]; decide)
  rw [hp1, chunkSource_content, newCollector_fr32WorkBuf] at e1
  rw [e1]
  refine ⟨rfl, ?_⟩
  simp only
  generalize hcp : ({ NewCollector M with
      fr32WorkBuf := zcpAppendTo (List.replicate 100 1) (List.replicate (StrideSize M) 0),
      payloadSize := 100 } : CommpCollector) = cp1
  have c1 : cp1.shortChunkSeen = false := by rw [← hcp]; rfl
  have c2 : cp1.payloadSize = 100 := by rw [← hcp]
  have c3 : cp1.layerQueue0 = [] := by rw [← hcp]; rfl
  have c4 : cp1.fr32WorkBuf =
      zcpAppendTo (List.replicate 100 1) (List.replicate (StrideSize M) 0) := by rw [← hcp]
  have hp2 : (cp1.payloadSize + (chunkSource (List.replicate 27 2)).Size) % 2 ^ 64 = 127 := by
    rw [c2, chunkSource_size, List.length_replicate]
    norm_num
  have e2 := appendData_eq_whole cp1 (chunkSource (List.replicate 27 2)) c1
    (by rw [hp2])
  have hwin := stale_window (StrideSize M) hM
  have hloop := windowLoop_ok 127
    (zcpAppendTo (List.replicate 27 2)
      (zcpAppendTo (List.replicate 100 1) (List.replicate (StrideSize M) 0)))
    (by rw [hmax]; norm_num) 1 0 [] (by have := hwin.2; omega)
  have hq : ([] : List (List Nat)) ++ (List.range 1).flatMap (fun j => windowLeaves
      (((zcpAppendTo (List.replicate 27 2)
        (zcpAppendTo (List.replicate 100 1) (List.replicate (StrideSize M) 0))).drop
          (0 + 127 * j)).take 127)) =
      windowLeaves (List.replicate 27 2 ++ List.replicate 73 1 ++ List.replicate 27 0) := by
    rw [← hwin.1]
    simp [List.range_succ]
  rw [hq] at hloop
  rw [hp2, chunkSource_content, List.length_replicate, c3, c4,
    show (27 + 126) / 127 = 1 by decide, hloop] at e2
  rw [e2]
  exact ⟨rfl, rfl⟩

theorem oversize_single_append (M : Nat) :
    (AppendData (NewCollector M)
      (chunkSource (List.replicate (MaxPiecePayload + 127) 0))).2 = .error .maximumPayload := by
  have hmax := maxPiecePayload_eq
  have hne : (chunkSource (List.replicate (MaxPiecePayload + 127) 0)).Content ≠ [] := by
    rw [chunkSource_content]
    intro h
    have := congrArg List.length h
    rw [List.length_replicate] at this
    simp at this
  refine (appendData_over_max (NewCollector M) _ (newCollector_shortChunkSeen M) hne ?_).1
  rw [newCollector_payloadSize, chunkSource_size, List.length_replicate, hmax]
  norm_num

theorem empty_after_max (M : Nat) :
    (AppendData (NewCollector M)
      (chunkSource (List.replicate (MaxPiecePayload + 127) 0))).2 = .error .maximumPayload ∧
    (AppendData (AppendData (NewCollector M)
      (chunkSource (List.replicate (MaxPiecePayload + 127) 0))).1 (chunkSource [])).2 = .ok := by
  refine ⟨oversize_single_append M, ?_⟩
  have hmax := maxPiecePayload_eq
  generalize hcp : (AppendData (NewCollector M)
      (chunkSource (List.replicate (MaxPiecePayload + 127) 0))).1 = cp1
  have hp : cp1.payloadSize = MaxPiecePayload + 127 := by
    rw [← hcp, appendData_payloadSize _ _ (newCollector_shortChunkSeen M),
      newCollector_payloadSize, chunkSource_size, List.length_replicate, hmax]
    norm_num
  have hs : cp1.shortChunkSeen = false := by
    cases h : cp1.shortChunkSeen with
    | false => rfl
    | true =>
      exfalso
      rw [← hcp] at h
      have e := appendData_eq_whole (NewCollector M)
        (chunkSource (List.replicate (MaxPiecePayload + 127) 0))
        (newCollector_shortChunkSeen M)
        (by rw [newCollector_payloadSize, chunkSource_size, List.length_replicate, hmax]
            norm_num)
      rw [e] at h
      exact absurd h (by simp [newCollector_shortChunkSeen])
  have e2 := appendData_eq_whole cp1 (chunkSource []) hs
    (by rw [hp, chunkSource_size, hmax]; norm_num)
  rw [e2]
  rfl

/-! ## Accepted calls and the work buffer -/

theorem appendData_ok_short (cp : CommpCollector) (ds : DataSource)
    (hok : (AppendData cp ds).2 = .ok) : cp.shortChunkSeen = false := by
  cases hs : cp.shortChunkSeen with
  | false => rfl
  | true => rw [appendData_short cp ds hs] at hok; simp at hok

theorem accepted_flag (cp : CommpCollector) (ds : DataSource)
    (hok : (AppendData cp ds).2 = .ok) :
    ((AppendData cp ds).1.shortChunkSeen = true ↔
      (AppendData cp ds).1.payloadSize % 127 ≠ 0) := by
  have hs := appendData_ok_short cp ds hok
  by_cases hr : (cp.payloadSize + ds.Size) % 2 ^ 64 % 127 = 0
  · rw [appendData_eq_whole cp ds hs hr]
    show (cp.shortChunkSeen = true ↔ (cp.payloadSize + ds.Size) % 2 ^ 64 % 127 ≠ 0)
    rw [hs]
    exact ⟨fun h => by simp at h, fun h => absurd hr h⟩
  · by_cases hp : (cp.payloadSize + ds.Size) % 2 ^ 64 < 127
    · rw [appendData_eq_minimum cp ds hs hr hp] at hok
      simp at hok
    · rw [appendData_eq_padded cp ds hs hr hp]
      show (true = true ↔ (cp.payloadSize + ds.Size) % 2 ^ 64 % 127 ≠ 0)
      exact ⟨fun _ => hr, fun _ => rfl⟩

theorem accepted_max (cp : CommpCollector) (c : List Nat)
    (hmax : cp.payloadSize ≤ MaxPiecePayload)
    (hok : (AppendData cp (chunkSource c)).2 = .ok) :
    (AppendData cp (chunkSource c)).1.payloadSize ≤ MaxPiecePayload := by
  have hs := appendData_ok_short cp _ hok
  rw [appendData_payloadSize cp _ hs, chunkSource_size]
  by_cases hne : c = []
  · subst hne
    exact le_trans (Nat.mod_le _ _) hmax
  · by_contra hgt
    have h := (appendData_over_max cp (chunkSource c) hs hne
      (by rw [chunkSource_size]; omega)).1
    rw [h] at hok
    simp at hok

theorem allAccepted_flag :
    ∀ (calls : List DataSource) (cp : CommpCollector),
      (cp.shortChunkSeen = true ↔ cp.payloadSize % 127 ≠ 0) → allAccepted cp calls →
      ((appendAll cp calls).shortChunkSeen = true ↔
        (appendAll cp calls).payloadSize % 127 ≠ 0) := by
  intro calls
  induction calls with
  | nil => intro cp h _; exact h
  | cons ds rest ih =>
    intro cp _ hacc
    rw [appendAll_cons]
    exact ih _ (accepted_flag cp ds hacc.1) hacc.2

theorem allAccepted_max :
    ∀ (chunks : List (List Nat)) (cp : CommpCollector),
      cp.payloadSize ≤ MaxPiecePayload → allAccepted cp (chunks.map chunkSource) →
      (appendAll cp (chunks.map chunkSource)).payloadSize ≤ MaxPiecePayload := by
  intro chunks
  induction chunks with
  | nil => intro cp h _; exact h
  | cons c rest ih =>
    intro cp hmax hacc
    rw [List.map_cons, appendAll_cons]
    exact ih _ (accepted_max cp c hmax hacc.1) hacc.2

theorem reset_flag (cp : CommpCollector) (hreset : cp.toState = State.reset) :
    (cp.shortChunkSeen = true ↔ cp.payloadSize % 127 ≠ 0) ∧
    cp.payloadSize ≤ MaxPiecePayload ∧ cp.shortChunkSeen = false ∧ cp.payloadSize = 0 ∧
    cp.layerQueue0 = [] := by
  have h1 : cp.shortChunkSeen = false := by
    show cp.toState.shortChunkSeen = false
    rw [hreset]; rfl
  have h2 : cp.payloadSize = 0 := by
    show cp.toState.payloadSize = 0
    rw [hreset]; rfl
  have h3 : cp.layerQueue0 = [] := by
    show cp.toState.layerQueue0 = []
    rw [hreset]; rfl
  refine ⟨by simp [h1, h2], by rw [h2]; exact Nat.zero_le _, h1, h2, h3⟩

theorem no_wrap (p n : Nat) (hp : p ≤ MaxPiecePayload) (hn : n < 2 ^ 63) :
    (p + n) % 2 ^ 64 = p + n := by
  have hmax := maxPiecePayload_eq
  apply Nat.mod_eq_of_lt
  have h1 : (68182605824 : Nat) + 2 ^ 63 < 2 ^ 64 := by norm_num
  omega

theorem windowLoop_congr (payloadSize : Nat) (arr arr' : List Nat) (n : Nat)
    (queue : List (List Nat)) (h : arr.take (127 * n) = arr'.take (127 * n))
    (h1 : 127 * n ≤ arr.length) (h2 : 127 * n ≤ arr'.length) :
    windowLoop payloadSize arr n 0 queue = windowLoop payloadSize arr' n 0 queue := by
  by_cases hp : payloadSize ≤ MaxPiecePayload
  · have hf : (List.range n).flatMap
          (fun j => windowLeaves ((arr.drop (0 + 127 * j)).take 127)) =
        (List.range n).flatMap
          (fun j => windowLeaves ((arr'.drop (0 + 127 * j)).take 127)) := by
      apply List.flatMap_congr
      intro j hj
      rw [List.mem_range] at hj
      rw [take_window_eq arr (arr'.take (127 * n)) (127 * n) (0 + 127 * j) 127 h (by omega),
        take_window_eq arr' (arr'.take (127 * n)) (127 * n) (0 + 127 * j) 127 rfl
          (by omega)]
    rw [windowLoop_ok payloadSize arr hp n 0 queue (by omega),
      windowLoop_ok payloadSize arr' hp n 0 queue (by omega), hf]
  · cases n with
    | zero => rfl
    | succ n =>
      rw [windowLoop_over_max _ _ (by omega), windowLoop_over_max _ _ (by omega)]

theorem windowLoop_no_panic (payloadSize : Nat) (arr : List Nat) (n : Nat)
    (queue : List (List Nat)) (h1 : 127 * n ≤ arr.length) :
    (windowLoop payloadSize arr n 0 queue).2 ≠ .panic := by
  by_cases hp : payloadSize ≤ MaxPiecePayload
  · rw [windowLoop_ok payloadSize arr hp n 0 queue (by omega)]
    simp
  · cases n with
    | zero => simp [windowLoop]
    | succ n =>
      rw [windowLoop_over_max _ _ (by omega)]
      simp


theorem appendData_loop (cp : CommpCollector) (ds : DataSource) (arr : List Nat) (len : Nat)
    (h : fr32WorkBufAtLoop cp ds = some (arr, len)) :
    (AppendData cp ds).2 =
      (windowLoop ((cp.payloadSize + ds.Size) % 2 ^ 64) arr ((len + 126) / 127) 0
        cp.layerQueue0).2 ∧
    (AppendData cp ds).1.layerQueue0 =
      (windowLoop ((cp.payloadSize + ds.Size) % 2 ^ 64) arr ((len + 126) / 127) 0
        cp.layerQueue0).1 ∧
    (AppendData cp ds).1.fr32WorkBuf = arr := by
  cases hs : cp.shortChunkSeen with
  | true => simp [fr32WorkBufAtLoop, hs] at h
  | false =>
    by_cases hr : (cp.payloadSize + ds.Size) % 2 ^ 64 % 127 = 0
    · simp only [fr32WorkBufAtLoop, hs, Bool.false_eq_true, if_false, hr, ne_eq,
        not_true_eq_false, Option.some.injEq, Prod.mk.injEq] at h
      rw [appendData_eq_whole cp ds hs hr, ← h.1, ← h.2]
      exact ⟨rfl, rfl, rfl⟩
    · by_cases hp : (cp.payloadSize + ds.Size) % 2 ^ 64 < 127
      · simp only [fr32WorkBufAtLoop, hs, Bool.false_eq_true, if_false, hr, ne_eq,
          not_false_eq_true, if_true, hp, reduceCtorEq] at h
      · simp only [fr32WorkBufAtLoop, hs, Bool.false_eq_true, if_false, hr, ne_eq,
          not_false_eq_true, if_true, hp, Option.some.injEq, Prod.mk.injEq] at h
        rw [appendData_eq_padded cp ds hs hr hp, ← h.1, ← h.2]
        exact ⟨rfl, rfl, rfl⟩

theorem loop_buffer (cp : CommpCollector) (c : List Nat)
    (hp : cp.payloadSize % 127 = 0) (hpm : cp.payloadSize ≤ MaxPiecePayload)
    (hc : c.length < 2 ^ 63) (arr : List Nat) (len : Nat)
    (h : fr32WorkBufAtLoop cp (chunkSource c) = some (arr, len)) :
    len = 127 * windowCount c.length ∧ len ≤ arr.length ∧
    arr.take len = c ++ List.replicate (len - c.length) 0 := by
  have hw := no_wrap cp.payloadSize c.length hpm hc
  cases hs : cp.shortChunkSeen with
  | true => simp [fr32WorkBufAtLoop, hs] at h
  | false =>
    have hsz : (chunkSource c).Size = c.length := rfl
    have hct : (chunkSource c).Content = c := rfl
    by_cases hr : (cp.payloadSize + c.length) % 2 ^ 64 % 127 = 0
    · simp only [fr32WorkBufAtLoop, hs, Bool.false_eq_true, if_false, hsz, hct, hr, ne_eq,
        not_true_eq_false, Option.some.injEq, Prod.mk.injEq] at h
      rw [hw] at hr
      rw [← h.1, ← h.2]
      refine ⟨by unfold windowCount; omega, zcpAppendTo_length_ge c _, ?_⟩
      rw [zcpAppendTo_take, Nat.sub_self]
      simp
    · by_cases hlt : (cp.payloadSize + c.length) % 2 ^ 64 < 127
      · simp only [fr32WorkBufAtLoop, hs, Bool.false_eq_true, if_false, hsz, hct, hr, ne_eq,
          not_false_eq_true, if_true, hlt, reduceCtorEq] at h
      · simp only [fr32WorkBufAtLoop, hs, Bool.false_eq_true, if_false, hsz, hct, hr, ne_eq,
          not_false_eq_true, if_true, hlt, Option.some.injEq, Prod.mk.injEq] at h
        rw [hw] at hr h
        rw [← h.1, ← h.2]
        have hge := goAppend_length_ge (zcpAppendTo c cp.fr32WorkBuf) c.length
          (List.replicate (127 - (cp.payloadSize + c.length) % 127) 0)
          (zcpAppendTo_length_ge c _)
        have htk := goAppend_take (zcpAppendTo c cp.fr32WorkBuf) c.length
          (List.replicate (127 - (cp.payloadSize + c.length) % 127) 0)
          (zcpAppendTo_length_ge c _)
        rw [List.length_replicate] at hge htk
        refine ⟨by unfold windowCount; omega, hge, ?_⟩
        rw [htk, zcpAppendTo_take, Nat.add_sub_cancel_left]

theorem ceil_whole (n : Nat) (h : n % 127 = 0) : 127 * ((n + 126) / 127) = n := by omega

theorem atLoop_whole (cp : CommpCollector) (c : List Nat) (hs : cp.shortChunkSeen = false)
    (hr : (cp.payloadSize + c.length) % 2 ^ 64 % 127 = 0) :
    fr32WorkBufAtLoop cp (chunkSource c) = some (zcpAppendTo c cp.fr32WorkBuf, c.length) := by
  have hsz : (chunkSource c).Size = c.length := rfl
  have hct : (chunkSource c).Content = c := rfl
  simp only [fr32WorkBufAtLoop, hs, Bool.false_eq_true, if_false, hsz, hct, hr, ne_eq,
    not_true_eq_false]

theorem atLoop_padded (cp : CommpCollector) (c : List Nat) (hs : cp.shortChunkSeen = false)
    (hr : (cp.payloadSize + c.length) % 2 ^ 64 % 127 ≠ 0)
    (hlt : ¬ (cp.payloadSize + c.length) % 2 ^ 64 < 127) :
    fr32WorkBufAtLoop cp (chunkSource c) =
      some (goAppend (zcpAppendTo c cp.fr32WorkBuf) c.length
          (List.replicate (127 - (cp.payloadSize + c.length) % 2 ^ 64 % 127) 0),
        c.length + (127 - (cp.payloadSize + c.length) % 2 ^ 64 % 127)) := by
  have hsz : (chunkSource c).Size = c.length := rfl
  have hct : (chunkSource c).Content = c := rfl
  simp only [fr32WorkBufAtLoop, hs, Bool.false_eq_true, if_false, hsz, hct, hr, ne_eq,
    not_false_eq_true, if_true, hlt]

theorem state_eq (x y : State) (h1 : x.shortChunkSeen = y.shortChunkSeen)
    (h2 : x.payloadSize = y.payloadSize) (h3 : x.layerQueue0 = y.layerQueue0) : x = y := by
  cases x; cases y
  simp only [State.mk.injEq]
  exact ⟨h1, h2, h3⟩

theorem loop_same (p : Nat) (a b : List Nat) (len : Nat) (c : List Nat)
    (queue : List (List Nat)) (hlen : len = 127 * windowCount c.length)
    (ha : len ≤ a.length ∧ a.take len = c ++ List.replicate (len - c.length) 0)
    (hb : len ≤ b.length ∧ b.take len = c ++ List.replicate (len - c.length) 0) :
    windowLoop p a ((len + 126) / 127) 0 queue = windowLoop p b ((len + 126) / 127) 0 queue := by
  have hn : 127 * ((len + 126) / 127) = len := ceil_whole len (by omega)
  exact windowLoop_congr p a b _ queue (by rw [hn, ha.2, hb.2]) (by rw [hn]; exact ha.1)
    (by rw [hn]; exact hb.1)

theorem appendData_buffer (a b : CommpCollector) (c : List Nat)
    (hst : a.toState = b.toState)
    (hpre : a.shortChunkSeen = true ∨
      (a.payloadSize % 127 = 0 ∧ a.payloadSize ≤ MaxPiecePayload ∧ c.length < 2 ^ 63)) :
    (AppendData a (chunkSource c)).2 = (AppendData b (chunkSource c)).2 ∧
    (AppendData a (chunkSource c)).1.toState = (AppendData b (chunkSource c)).1.toState ∧
    (AppendData a (chunkSource c)).1.stackedNulPadding = a.stackedNulPadding ∧
    (AppendData b (chunkSource c)).1.stackedNulPadding = b.stackedNulPadding := by
  have e1 : a.shortChunkSeen = b.shortChunkSeen := congrArg State.shortChunkSeen hst
  have e2 : a.payloadSize = b.payloadSize := congrArg State.payloadSize hst
  have e3 : a.layerQueue0 = b.layerQueue0 := congrArg State.layerQueue0 hst
  cases hs : a.shortChunkSeen with
  | true =>
    rw [appendData_short a _ hs, appendData_short b _ (by rw [← e1]; exact hs)]
    exact ⟨rfl, hst, rfl, rfl⟩
  | false =>
    have hsb : b.shortChunkSeen = false := by rw [← e1]; exact hs
    rcases hpre with h | ⟨hp, hpm, hc⟩
    · rw [hs] at h; simp at h
    have hsz : (chunkSource c).Size = c.length := rfl
    have hct : (chunkSource c).Content = c := rfl
    by_cases hr : (a.payloadSize + c.length) % 2 ^ 64 % 127 = 0
    · have hla := loop_buffer a c hp hpm hc _ _ (atLoop_whole a c hs hr)
      have hlb := loop_buffer b c (by rw [← e2]; exact hp) (by rw [← e2]; exact hpm) hc _ _
        (atLoop_whole b c hsb (by rw [← e2]; exact hr))
      have hloop := loop_same ((a.payloadSize + c.length) % 2 ^ 64) _ _ _ c a.layerQueue0
        hla.1 hla.2 hlb.2
      rw [appendData_eq_whole a (chunkSource c) hs (by rw [hsz]; exact hr),
        appendData_eq_whole b (chunkSource c) hsb (by rw [hsz, ← e2]; exact hr),
        hsz, hct, ← e2, ← e3, ← hloop]
      exact ⟨rfl, state_eq _ _ e1 rfl rfl, rfl, rfl⟩
    · by_cases hlt : (a.payloadSize + c.length) % 2 ^ 64 < 127
      · rw [appendData_eq_minimum a (chunkSource c) hs (by rw [hsz]; exact hr)
            (by rw [hsz]; exact hlt),
          appendData_eq_minimum b (chunkSource c) hsb (by rw [hsz, ← e2]; exact hr)
            (by rw [hsz, ← e2]; exact hlt), hsz, hct, ← e2]
        exact ⟨rfl, state_eq _ _ e1 rfl e3, rfl, rfl⟩
      · have hla := loop_buffer a c hp hpm hc _ _ (atLoop_padded a c hs hr hlt)
        have hlb := loop_buffer b c (by rw [← e2]; exact hp) (by rw [← e2]; exact hpm) hc _ _
          (atLoop_padded b c hsb (by rw [← e2]; exact hr) (by rw [← e2]; exact hlt))
        rw [← e2] at hlb
        have hloop := loop_same ((a.payloadSize + c.length) % 2 ^ 64) _ _ _ c a.layerQueue0
          hla.1 hla.2 hlb.2
        rw [appendData_eq_padded a (chunkSource c) hs (by rw [hsz]; exact hr)
            (by rw [hsz]; exact hlt),
          appendData_eq_padded b (chunkSource c) hsb (by rw [hsz, ← e2]; exact hr)
            (by rw [hsz, ← e2]; exact hlt), hsz, hct, ← e2, ← e3, ← hloop]
        exact ⟨rfl, rfl, rfl, rfl⟩


theorem appendData_table (cp : CommpCollector) (ds : DataSource) :
    (AppendData cp ds).1.stackedNulPadding = cp.stackedNulPadding := by
  cases hs : cp.shortChunkSeen with
  | true => rw [appendData_short cp ds hs]
  | false =>
    by_cases hr : (cp.payloadSize + ds.Size) % 2 ^ 64 % 127 = 0
    · rw [appendData_eq_whole cp ds hs hr]
    · by_cases hp : (cp.payloadSize + ds.Size) % 2 ^ 64 < 127
      · rw [appendData_eq_minimum cp ds hs hr hp]
      · rw [appendData_eq_padded cp ds hs hr hp]

theorem appendAll_table :
    ∀ (calls : List DataSource) (cp : CommpCollector),
      (appendAll cp calls).stackedNulPadding = cp.stackedNulPadding := by
  intro calls
  induction calls with
  | nil => intro cp; rfl
  | cons ds rest ih =>
    intro cp
    rw [appendAll_cons, ih, appendData_table]

theorem appendAll_buffer :
    ∀ (chunks : List (List Nat)) (a b : CommpCollector), a.toState = b.toState →
      (a.shortChunkSeen = true ↔ a.payloadSize % 127 ≠ 0) →
      a.payloadSize ≤ MaxPiecePayload → (∀ x ∈ chunks, x.length < 2 ^ 63) →
      allAccepted b (chunks.map chunkSource) →
      (appendAll a (chunks.map chunkSource)).toState =
        (appendAll b (chunks.map chunkSource)).toState ∧
      ((appendAll a (chunks.map chunkSource)).shortChunkSeen = true ↔
        (appendAll a (chunks.map chunkSource)).payloadSize % 127 ≠ 0) ∧
      (appendAll a (chunks.map chunkSource)).payloadSize ≤ MaxPiecePayload ∧
      allAccepted a (chunks.map chunkSource) := by
  intro chunks
  induction chunks with
  | nil => intro a b hst hf hm _ _; exact ⟨hst, hf, hm, trivial⟩
  | cons c rest ih =>
    intro a b hst hf hm hlen hacc
    have hc : c.length < 2 ^ 63 := hlen c (List.mem_cons_self _ _)
    have hpre : a.shortChunkSeen = true ∨
        (a.payloadSize % 127 = 0 ∧ a.payloadSize ≤ MaxPiecePayload ∧ c.length < 2 ^ 63) := by
      cases hs : a.shortChunkSeen with
      | true => exact Or.inl rfl
      | false =>
        refine Or.inr ⟨?_, hm, hc⟩
        by_contra h
        have := hf.mpr h
        rw [hs] at this
        simp at this
    obtain ⟨r1, r2, _, _⟩ := appendData_buffer a b c hst hpre
    have hoka : (AppendData a (chunkSource c)).2 = .ok := by rw [r1]; exact hacc.1
    obtain ⟨i1, i2, i3, i4⟩ := ih _ _ r2 (accepted_flag a _ hoka) (accepted_max a c hm hoka)
      (fun x hx => hlen x (List.mem_cons_of_mem _ hx)) hacc.2
    rw [List.map_cons, appendAll_cons, appendAll_cons]
    exact ⟨i1, i2, i3, hoka, i4⟩

theorem accepted_state (cp : CommpCollector) (hreset : cp.toState = State.reset)
    (chunks : List (List Nat)) (hacc : allAccepted cp (chunks.map chunkSource)) :
    ((appendAll cp (chunks.map chunkSource)).shortChunkSeen = true ↔
      (appendAll cp (chunks.map chunkSource)).payloadSize % 127 ≠ 0) ∧
    (appendAll cp (chunks.map chunkSource)).payloadSize ≤ MaxPiecePayload := by
  obtain ⟨h1, h2, _, _, _⟩ := reset_flag cp hreset
  exact ⟨allAccepted_flag _ cp h1 hacc, allAccepted_max chunks cp h2 hacc⟩

theorem accepted_chunk (cp : CommpCollector) (c : List Nat)
    (hf : cp.shortChunkSeen = true ↔ cp.payloadSize % 127 ≠ 0)
    (hm : cp.payloadSize ≤ MaxPiecePayload) (hc : c.length < 2 ^ 63)
    (hok : (AppendData cp (chunkSource c)).2 = .ok) :
    cp.shortChunkSeen = false ∧ cp.payloadSize % 127 = 0 ∧
    cp.payloadSize + c.length ≤ MaxPiecePayload := by
  have hs := appendData_ok_short cp _ hok
  have hp : cp.payloadSize % 127 = 0 := by
    by_contra h
    have := hf.mpr h
    rw [hs] at this
    simp at this
  refine ⟨hs, hp, ?_⟩
  have h := accepted_max cp c hm hok
  rw [appendData_payloadSize cp _ hs, chunkSource_size, no_wrap _ _ hm hc] at h
  exact h

theorem rowOf_eq (buf : List Nat) (n : Nat) :
    rowOf buf n = (List.range n).flatMap (fun j =>
      [hash254 [(fr32Expand ((buf.drop (127 * j)).take 127)).take 64],
       hash254 [(fr32Expand ((buf.drop (127 * j)).take 127)).drop 64]]) := rfl

theorem rowOf_length (buf : List Nat) (n : Nat) : (rowOf buf n).length = 2 * n := by
  induction n with
  | zero => rfl
  | succ n ih =>
    unfold rowOf at ih ⊢
    rw [List.range_succ, List.flatMap_append, List.length_append, ih]
    simp [windowLeaves]
    omega


/-! ## Varint sizes -/

theorem size_div_pow (v j : Nat) (h : 2 ^ j ≤ v) : Nat.size v = Nat.size (v / 2 ^ j) + j := by
  have hj : 0 < 2 ^ j := Nat.pow_pos (by norm_num)
  have hpos : 0 < v / 2 ^ j := Nat.div_pos h hj
  have hk : 0 < Nat.size (v / 2 ^ j) := Nat.size_pos.mpr hpos
  obtain ⟨k, hk'⟩ : ∃ k, Nat.size (v / 2 ^ j) = k + 1 := ⟨Nat.size (v / 2 ^ j) - 1, by omega⟩
  have hlt : v / 2 ^ j < 2 ^ (k + 1) := by rw [← hk']; exact Nat.lt_size_self _
  have hge : 2 ^ k ≤ v / 2 ^ j := Nat.lt_size.mp (by omega)
  apply le_antisymm
  · rw [Nat.size_le, hk', pow_add]
    exact (Nat.div_lt_iff_lt_mul hj).mp hlt
  · rw [hk']
    have h2 : k + j < Nat.size v := by
      rw [Nat.lt_size, pow_add]
      exact (Nat.le_div_iff_mul_le hj).mp hge
    omega

theorem bitsLen_eq_size : ∀ (w v : Nat), v < 2 ^ w → bitsLen w v = Nat.size v := by
  intro w
  induction w with
  | zero =>
    intro v hv
    have : v = 0 := by simpa using hv
    subst this
    simp [bitsLen]
  | succ w ih =>
    intro v hv
    rw [bitsLen]
    by_cases h0 : v = 0
    · rw [if_pos h0, h0, Nat.size_zero]
    · have hv2 : v / 2 < 2 ^ w := by
        rw [pow_succ] at hv
        exact (Nat.div_lt_iff_lt_mul (by norm_num)).mpr hv
      rw [if_neg h0, ih (v / 2) hv2]
      by_cases h1 : v = 1
      · rw [h1, Nat.size_one]
        have : (1 : Nat) / 2 = 0 := by norm_num
        rw [this, Nat.size_zero]
      · have := size_div_pow v 1 (by rw [pow_one]; omega)
        rw [pow_one] at this
        omega

theorem bitsLen64_eq_size (v : Nat) (hv : v < 2 ^ 64) : bitsLen64 v = Nat.size v :=
  bitsLen_eq_size 64 v hv

theorem size_small (v : Nat) (h0 : v ≠ 0) (h : v ≤ 127) : (Nat.size v + 6) / 7 = 1 := by
  have h1 : 0 < Nat.size v := Nat.size_pos.mpr (by omega)
  have h2 : Nat.size v ≤ 7 := Nat.size_le.mpr (by norm_num; omega)
  omega

theorem appendVarint_size :
    ∀ (n v : Nat) (tgt : List Nat), v ≤ n →
      (AppendVarint tgt v).length =
        tgt.length + (if v = 0 then 1 else (Nat.size v + 6) / 7) := by
  intro n
  induction n with
  | zero =>
    intro v tgt hv
    have : v = 0 := by omega
    subst this
    rw [AppendVarint]
    simp
  | succ n ih =>
    intro v tgt hv
    rw [AppendVarint]
    by_cases h : v > 127
    · rw [if_pos h]
      have hd : v >>> 7 = v / 2 ^ 7 := Nat.shiftRight_eq_div_pow v 7
      have hpos : v / 2 ^ 7 ≠ 0 := by norm_num; omega
      have hle : v >>> 7 ≤ n := by rw [hd]; norm_num; omega
      have hv0 : v ≠ 0 := by omega
      rw [ih (v >>> 7) _ hle, hd, if_neg hpos, if_neg hv0,
        size_div_pow v 7 (by norm_num; omega)]
      simp only [List.length_append, List.length_singleton]
      omega
    · rw [if_neg h]
      by_cases h0 : v = 0
      · simp [h0]
      · rw [if_neg h0, size_small v h0 (by omega)]
        simp

theorem appendVarint_length (v : Nat) (hv : v < 2 ^ 64) (tgt : List Nat) :
    (AppendVarint tgt v).length =
      tgt.length + (if v = 0 then 1 else (bitsLen64 v + 6) / 7) := by
  rw [bitsLen64_eq_size v hv]
  exact appendVarint_size v v tgt (le_refl _)

theorem bitsLen64_le (v : Nat) (k : Nat) (hv : v < 2 ^ 64) (h : v < 2 ^ k) : bitsLen64 v ≤ k := by
  rw [bitsLen64_eq_size v hv]
  exact Nat.size_le.mpr h


/-! ## The synchronous reducer, chunk bookkeeping and validation -/

theorem snoc_even : ∀ q : List (List Nat), oddOne q = none → ∀ d,
    oddOne (q ++ [d]) = some d ∧ pairs (q ++ [d]) = pairs q := by
  apply pairInduction
  · intro _ d; exact ⟨rfl, rfl⟩
  · intro x h; simp [oddOne] at h
  · intro l r rest ih h d
    have := ih (by simpa [oddOne] using h) d
    show oddOne (rest ++ [d]) = some d ∧
      hash254 [l, r] :: pairs (rest ++ [d]) = hash254 [l, r] :: pairs rest
    rw [this.1, this.2]
    exact ⟨rfl, rfl⟩

theorem snoc_odd : ∀ q : List (List Nat), ∀ l, oddOne q = some l → ∀ d,
    oddOne (q ++ [d]) = none ∧ pairs (q ++ [d]) = pairs q ++ [hash254 [l, d]] := by
  apply pairInduction
  · intro l h; simp [oddOne] at h
  · intro x l h d
    simp only [oddOne, Option.some.injEq] at h
    subst h
    exact ⟨rfl, rfl⟩
  · intro a r rest ih l h d
    have := ih l (by simpa [oddOne] using h) d
    show oddOne (rest ++ [d]) = none ∧
      hash254 [a, r] :: pairs (rest ++ [d]) = hash254 [a, r] :: (pairs rest ++ [hash254 [l, d]])
    rw [this.1, this.2]
    exact ⟨rfl, rfl⟩

theorem sync_layers (q : List (List Nat)) : q ≠ [] →
    q.foldl syncInsert [] = oddOne q :: (pairs q).foldl syncInsert [] := by
  induction q using List.reverseRecOn with
  | nil => intro h; exact absurd rfl h
  | append_singleton l a ih =>
    intro _
    rw [List.foldl_append]
    by_cases hl : l = []
    · subst hl
      rfl
    · rw [ih hl]
      cases ho : oddOne l with
      | none =>
        obtain ⟨h1, h2⟩ := snoc_even l ho a
        rw [h1, h2]
        rfl
      | some x =>
        obtain ⟨h1, h2⟩ := snoc_odd l x ho a
        rw [h1, h2, List.foldl_append]
        rfl

theorem pairs_ne_nil (q : List (List Nat)) (h : 2 ≤ q.length) : pairs q ≠ [] := by
  match q, h with
  | l :: r :: rest, _ => simp [pairs]

theorem syncFlush_layers (Z : List (List Nat)) (i : Nat) (q : List (List Nat))
    (h : 2 ≤ q.length) :
    syncFlush Z i (q.foldl syncInsert []) =
      syncFlush Z (i + 1) ((pairUp (Z.getD (i + 1) []) q).foldl syncInsert []) := by
  have hq : q ≠ [] := by intro h0; subst h0; simp at h
  have hp := pairs_ne_nil q h
  rw [sync_layers q hq, pairs_append_oddOne]
  cases ho : oddOne q with
  | none =>
    rw [sync_layers _ hp, syncFlush, List.append_nil, sync_layers _ hp]
  | some d =>
    rw [List.foldl_append, sync_layers _ hp, syncFlush]
    rfl

theorem runLayers_sync :
    ∀ (e myIdx fuel : Nat) (q : List (List Nat)), myIdx + e = 28 → e + 1 ≤ fuel →
      q.length ≤ 2 ^ e →
      runLayers (nulTable maxLayers) fuel myIdx q =
        .commP (syncFlush (nulTable maxLayers) myIdx (q.foldl syncInsert [])) := by
  have hshort : ∀ (myIdx fuel : Nat) (q : List (List Nat)), myIdx ≤ 28 → 1 ≤ fuel →
      q.length ≤ 1 →
      runLayers (nulTable maxLayers) fuel myIdx q =
        .commP (syncFlush (nulTable maxLayers) myIdx (q.foldl syncInsert [])) := by
    intro myIdx fuel q hi hf hq
    obtain ⟨f, rfl⟩ : ∃ f, fuel = f + 1 := ⟨fuel - 1, by omega⟩
    rw [runLayers_short _ f myIdx (by unfold maxLayers; omega) q hq]
    match q, hq with
    | [], _ => simp [syncFlush]
    | [d], _ => simp [syncFlush, syncInsert]
  intro e
  induction e with
  | zero =>
    intro myIdx fuel q hi hf hq
    exact hshort myIdx fuel q (by omega) (by omega) (by simpa using hq)
  | succ e ih =>
    intro myIdx fuel q hi hf hq
    by_cases h1 : q.length ≤ 1
    · exact hshort myIdx fuel q (by omega) (by omega) h1
    · obtain ⟨f, rfl⟩ : ∃ f, fuel = f + 1 := ⟨fuel - 1, by omega⟩
      rw [runLayers_step _ f myIdx (by unfold maxLayers; omega) _
          (nulTable_getElem? (myIdx + 1) (by unfold maxLayers; omega)) q (by omega),
        syncFlush_layers _ myIdx q (by omega)]
      apply ih (myIdx + 1) f _ (by omega) (by omega)
      rw [pairUp_length]
      rw [pow_succ] at hq
      omega

theorem wrapInt_id (x : Int) (h1 : -2 ^ 63 ≤ x) (h2 : x < 2 ^ 63) : wrapInt x = x := by
  unfold wrapInt
  rw [Int.emod_eq_of_lt (by omega) (by omega)]
  omega

theorem splitCallback_step (regionSize : Int) (run : SplitRun) (cSize : Int)
    (h1 : regionSize < 2 ^ 63) (h2 : 0 ≤ run.processedBytes)
    (h3 : run.processedBytes ≤ regionSize) :
    ((splitCallback regionSize run cSize).2 = true ↔
      (cSize ≤ 0 ∨ cSize > regionSize - run.processedBytes)) ∧
    ((splitCallback regionSize run cSize).2 = true →
      (splitCallback regionSize run cSize).1 =
        { run with reported := run.reported ++ [(regionSize, run.processedBytes)] }) ∧
    ((splitCallback regionSize run cSize).2 = false →
      (splitCallback regionSize run cSize).1 =
        { run with regions := run.regions ++ [(run.processedBytes, cSize)],
                   processedBytes := run.processedBytes + cSize }) ∧
    0 ≤ (splitCallback regionSize run cSize).1.processedBytes ∧
    (splitCallback regionSize run cSize).1.processedBytes ≤ regionSize := by
  have hw : wrapInt (regionSize - run.processedBytes) = regionSize - run.processedBytes :=
    wrapInt_id _ (by omega) (by omega)
  unfold splitCallback
  rw [hw]
  by_cases hc : cSize ≤ 0 ∨ cSize > regionSize - run.processedBytes
  · rw [if_pos hc]
    simp [hc, h2, h3]
  · rw [if_neg hc]
    have hw2 : wrapInt (run.processedBytes + cSize) = run.processedBytes + cSize :=
      wrapInt_id _ (by omega) (by omega)
    rw [hw2]
    refine ⟨by simp [hc], by simp, by simp, ?_, ?_⟩
    · show 0 ≤ run.processedBytes + cSize
      omega
    · show run.processedBytes + cSize ≤ regionSize
      omega

theorem splitCalls_bounds (regionSize : Int) (h1 : regionSize < 2 ^ 63) :
    ∀ (sizes : List Int) (run : SplitRun), 0 ≤ run.processedBytes →
      run.processedBytes ≤ regionSize →
      0 ≤ (splitCalls regionSize run sizes).processedBytes ∧
      (splitCalls regionSize run sizes).processedBytes ≤ regionSize := by
  intro sizes
  induction sizes with
  | nil => intro run h2 h3; exact ⟨h2, h3⟩
  | cons c rest ih =>
    intro run h2 h3
    obtain ⟨_, _, _, a, b⟩ := splitCallback_step regionSize run c h1 h2 h3
    exact ih _ a b

theorem allAccepted_of_calls :
    ∀ (chunks : List (List Nat)) (cp : CommpCollector),
      (∀ pre c post, chunks = pre ++ c :: post →
        (AppendData (appendAll cp (pre.map chunkSource)) (chunkSource c)).2 = .ok) →
      allAccepted cp (chunks.map chunkSource) := by
  intro chunks
  induction chunks with
  | nil => intro cp _; trivial
  | cons x rest ih =>
    intro cp h
    refine ⟨h [] x rest rfl, ih _ ?_⟩
    intro pre c post hsplit
    have := h (x :: pre) c post (by rw [hsplit]; rfl)
    rw [List.map_cons, appendAll_cons] at this
    exact this

theorem requiredChunker_ne_empty (n : Nat) : "fixed-size_" ++ toString n ≠ "" := by
  intro h
  have := congrArg String.length h
  rw [String.length_append] at this
  have h2 : "fixed-size_".length = 11 := by decide
  have h3 : "".length = 0 := by decide
  omega

theorem validateCommP_returns (openErr : Option String)
    (processReader : Except String (List Nat)) (known : List Nat) (hardFails : List HardFail)
    (hlen : ∀ commP, processReader = .ok commP → 16 ≤ commP.length) :
    (validateCommP openErr processReader known hardFails = .returned true hardFails ↔
      openErr = none ∧
        ∃ commP, processReader = .ok commP ∧ commP.drop (commP.length - 16) = known) ∧
    (validateCommP openErr processReader known hardFails ≠ .returned true hardFails →
      ∃ entry, validateCommP openErr processReader known hardFails =
        .returned false (hardFails ++ [entry])) := by
  cases openErr with
  | some err => simp [validateCommP]
  | none =>
    cases processReader with
    | error err => simp [validateCommP]
    | ok commP =>
      have h := hlen commP rfl
      by_cases hk : commP.drop (commP.length - 16) = known
      · simp [validateCommP, hk, Nat.not_lt.mpr h]
      · simp [validateCommP, hk, Nat.not_lt.mpr h]

/-! ## A whole chunk after a rejected call -/

theorem rejected_buffer (buf : List Nat) (h : 254 ≤ buf.length) :
    goAppend (zcpAppendTo (List.replicate 127 2) (zcpAppendTo (List.replicate 100 1) buf)) 127
        (List.replicate 27 0) =
      List.replicate 127 2 ++ (List.replicate 27 0 ++ buf.drop 154) := by
  have h1 : zcpAppendTo (List.replicate 100 1) buf = List.replicate 100 1 ++ buf.drop 100 := by
    rw [zcpAppendTo_inplace _ _ (by rw [List.length_replicate]; omega), List.length_replicate]
  have h2 : zcpAppendTo (List.replicate 127 2) (List.replicate 100 1 ++ buf.drop 100) =
      List.replicate 127 2 ++ buf.drop 127 := by
    rw [zcpAppendTo_inplace _ _ (by
        rw [List.length_replicate, List.length_append, List.length_replicate,
          List.length_drop]; omega),
      List.length_replicate, List.drop_append_eq_append_drop, List.length_replicate,
      List.drop_replicate, List.drop_drop]
    simp
  rw [h1, h2]
  unfold goAppend
  rw [if_pos (by
    rw [List.length_replicate, List.length_append, List.length_replicate, List.length_drop]
    omega)]
  rw [List.take_left' (List.length_replicate 127 2), List.length_replicate,
    List.drop_append_eq_append_drop, List.length_replicate, List.drop_replicate,
    List.drop_drop, List.append_assoc]
  simp

theorem rejected_then_whole (cp : CommpCollector) (hs : cp.shortChunkSeen = false)
    (hp : cp.payloadSize = 0) (hcap : 254 ≤ cp.fr32WorkBuf.length) :
    (AppendData cp (chunkSource (List.replicate 100 1))).2 = .error .minimumInput ∧
    (AppendData (AppendData cp (chunkSource (List.replicate 100 1))).1
        (chunkSource (List.replicate 127 2))).2 = .ok ∧
    (AppendData (AppendData cp (chunkSource (List.replicate 100 1))).1
        (chunkSource (List.replicate 127 2))).1.layerQueue0 =
      cp.layerQueue0 ++ (windowLeaves (List.replicate 127 2) ++
        windowLeaves (List.replicate 27 0 ++ (cp.fr32WorkBuf.drop 154).take 100)) ∧
    (AppendData (AppendData cp (chunkSource (List.replicate 100 1))).1
        (chunkSource (List.replicate 127 2))).1.stackedNulPadding = cp.stackedNulPadding := by
  have hmax := maxPiecePayload_eq
  have hp1 : (cp.payloadSize + (chunkSource (List.replicate 100 1)).Size) % 2 ^ 64 = 100 := by
    rw [hp, chunkSource_size, List.length_replicate]
    norm_num
  have e1 := appendData_eq_minimum cp (chunkSource (List.replicate 100 1)) hs
    (by rw [hp1]; decide) (by rw [hp1]; decide)
  rw [hp1, chunkSource_content] at e1
  rw [e1]
  refine ⟨rfl, ?_⟩
  simp only
  generalize hcp : ({ cp with
      fr32WorkBuf := zcpAppendTo (List.replicate 100 1) cp.fr32WorkBuf,
      payloadSize := 100 } : CommpCollector) = cp1
  have c1 : cp1.shortChunkSeen = false := by rw [← hcp]; exact hs
  have c2 : cp1.payloadSize = 100 := by rw [← hcp]
  have c3 : cp1.layerQueue0 = cp.layerQueue0 := by rw [← hcp]
  have c4 : cp1.fr32WorkBuf = zcpAppendTo (List.replicate 100 1) cp.fr32WorkBuf := by
    rw [← hcp]
  have c5 : cp1.stackedNulPadding = cp.stackedNulPadding := by rw [← hcp]
  have hp2 : (cp1.payloadSize + (chunkSource (List.replicate 127 2)).Size) % 2 ^ 64 = 227 := by
    rw [c2, chunkSource_size, List.length_replicate]
    norm_num
  have e2 := appendData_eq_padded cp1 (chunkSource (List.replicate 127 2)) c1
    (by rw [hp2]; decide) (by rw [hp2]; decide)
  have harr := rejected_buffer cp.fr32WorkBuf hcap
  have hlen : 0 + 127 * 2 ≤ (List.replicate 127 2 ++
      (List.replicate 27 0 ++ cp.fr32WorkBuf.drop 154)).length := by
    simp only [List.length_append, List.length_replicate, List.length_drop]
    omega
  have hloop := windowLoop_ok 227 _ (by rw [hmax]; norm_num) 2 0 cp.layerQueue0 hlen
  have hq : (List.range 2).flatMap (fun j => windowLeaves
      (((List.replicate 127 2 ++ (List.replicate 27 0 ++ cp.fr32WorkBuf.drop 154)).drop
          (0 + 127 * j)).take 127)) =
      windowLeaves (List.replicate 127 2) ++
        windowLeaves (List.replicate 27 0 ++ (cp.fr32WorkBuf.drop 154).take 100) := by
    have w0 : ((List.replicate 127 2 ++ (List.replicate 27 0 ++ cp.fr32WorkBuf.drop 154)).drop
        (0 + 127 * 0)).take 127 = List.replicate 127 2 := by
      rw [show 0 + 127 * 0 = 0 by rfl, List.drop_zero,
        List.take_left' (List.length_replicate 127 2)]
    have w1 : ((List.replicate 127 2 ++ (List.replicate 27 0 ++ cp.fr32WorkBuf.drop 154)).drop
        (0 + 127 * 1)).take 127 =
        List.replicate 27 0 ++ (cp.fr32WorkBuf.drop 154).take 100 := by
      rw [show 0 + 127 * 1 = 127 by rfl, List.drop_left' (List.length_replicate 127 2),
        List.take_append_eq_append_take, List.length_replicate,
        List.take_of_length_le (by rw [List.length_replicate]; omega)]
    rw [show List.range 2 = [0, 1] by rfl]
    simp only [List.flatMap_cons, List.flatMap_nil, List.append_nil]
    rw [w0, w1]
  rw [hq] at hloop
  rw [hp2, chunkSource_content, List.length_replicate, c3, c4,
    show 127 - 227 % 127 = 27 by decide, show (127 + 27 + 126) / 127 = 2 by decide,
    harr, hloop] at e2
  rw [e2]
  exact ⟨rfl, rfl, c5⟩


theorem root_after_rejected_new :
    treeRoot 2 (windowLeaves (List.replicate 127 2) ++
        windowLeaves (List.replicate 27 0 ++ List.replicate 100 0)) =
      [84, 189, 120, 207, 196, 12, 203, 202, 67, 50, 183, 106, 41, 48, 135, 31, 157, 24, 216,
        132, 120, 111, 93, 42, 40, 65, 172, 70, 216, 118, 216, 19] := by
  decide!

theorem root_after_rejected_used :
    treeRoot 2 (windowLeaves (List.replicate 127 2) ++
        windowLeaves (List.replicate 27 0 ++ List.replicate 100 7)) =
      [28, 192, 31, 203, 173, 175, 120, 105, 84, 71, 104, 94, 116, 105, 133, 29, 117, 71, 219,
        78, 87, 111, 153, 149, 114, 2, 221, 195, 205, 186, 200, 6] := by
  decide!

theorem flushState_result (cp : CommpCollector) :
    (FlushState cp).1 = runLayers cp.stackedNulPadding maxLayers 0 cp.layerQueue0 := rfl

theorem flushState_fr32WorkBuf (cp : CommpCollector) :
    (FlushState cp).2.fr32WorkBuf = cp.fr32WorkBuf := rfl

theorem flushState_table (cp : CommpCollector) :
    (FlushState cp).2.stackedNulPadding = cp.stackedNulPadding := rfl

theorem flushState_state (cp : CommpCollector) : (FlushState cp).2.toState = State.reset := rfl

theorem runLayers_four (a b : List Nat) :
    runLayers (nulTable maxLayers) maxLayers 0 (windowLeaves a ++ windowLeaves b) =
      .commP (some (treeRoot 2 (windowLeaves a ++ windowLeaves b))) := by
  have hl : (windowLeaves a ++ windowLeaves b).length = 4 := by simp [windowLeaves]
  rw [runLayers_treeRoot 2 0 maxLayers _ (by unfold maxLayers; omega)
    (by unfold maxLayers; omega) (by rw [hl]; decide) (by rw [hl]; decide), hl]
  simp

theorem new_rejected_then_whole (M : Nat) (hM : 254 ≤ StrideSize M) :
    (AppendData (NewCollector M) (chunkSource (List.replicate 100 1))).2 =
      .error .minimumInput ∧
    (AppendData (AppendData (NewCollector M) (chunkSource (List.replicate 100 1))).1
        (chunkSource (List.replicate 127 2))).2 = .ok ∧
    (AppendData (AppendData (NewCollector M) (chunkSource (List.replicate 100 1))).1
        (chunkSource (List.replicate 127 2))).1.layerQueue0 =
      windowLeaves (List.replicate 127 2) ++
        windowLeaves (List.replicate 27 0 ++ List.replicate 100 0) ∧
    (FlushState (AppendData (AppendData (NewCollector M)
        (chunkSource (List.replicate 100 1))).1 (chunkSource (List.replicate 127 2))).1).1 =
      .commP (some (treeRoot 2 (windowLeaves (List.replicate 127 2) ++
        windowLeaves (List.replicate 27 0 ++ List.replicate 100 0)))) := by
  obtain ⟨h1, h2, h3, h4⟩ := rejected_then_whole (NewCollector M) rfl rfl
    (by rw [newCollector_fr32WorkBuf, List.length_replicate]; exact hM)
  have hst : ((NewCollector M).fr32WorkBuf.drop 154).take 100 = List.replicate 100 0 := by
    rw [newCollector_fr32WorkBuf, List.drop_replicate, List.take_replicate,
      show min 100 (StrideSize M - 154) = 100 by omega]
  rw [hst, newCollector_layerQueue0, List.nil_append] at h3
  refine ⟨h1, h2, h3, ?_⟩
  rw [flushState_result, h3, h4, newCollector_table]
  exact runLayers_four _ _

theorem used_rejected_then_whole (M : Nat) (hM : 254 ≤ StrideSize M) :
    (AppendData (NewCollector M) (chunkSource (List.replicate 254 7))).2 = .ok ∧
    (AppendData (FlushState (AppendData (NewCollector M)
        (chunkSource (List.replicate 254 7))).1).2 (chunkSource (List.replicate 100 1))).2 =
      .error .minimumInput ∧
    (AppendData (AppendData (FlushState (AppendData (NewCollector M)
        (chunkSource (List.replicate 254 7))).1).2 (chunkSource (List.replicate 100 1))).1
        (chunkSource (List.replicate 127 2))).2 = .ok ∧
    (AppendData (AppendData (FlushState (AppendData (NewCollector M)
        (chunkSource (List.replicate 254 7))).1).2 (chunkSource (List.replicate 100 1))).1
        (chunkSource (List.replicate 127 2))).1.layerQueue0 =
      windowLeaves (List.replicate 127 2) ++
        windowLeaves (List.replicate 27 0 ++ List.replicate 100 7) ∧
    (FlushState (AppendData (AppendData (FlushState (AppendData (NewCollector M)
        (chunkSource (List.replicate 254 7))).1).2 (chunkSource (List.replicate 100 1))).1
        (chunkSource (List.replicate 127 2))).1).1 =
      .commP (some (treeRoot 2 (windowLeaves (List.replicate 127 2) ++
        windowLeaves (List.replicate 27 0 ++ List.replicate 100 7)))) := by
  have hl : (List.replicate 254 7).length = 254 := List.length_replicate 254 7
  have hok := (newCollector_chunk M (List.replicate 254 7) (Or.inl (by rw [hl]))
    (by rw [hl, maxPiecePayload_eq]; decide)).1
  have hbuf : (FlushState (AppendData (NewCollector M)
      (chunkSource (List.replicate 254 7))).1).2.fr32WorkBuf =
      List.replicate 254 7 ++ List.replicate (StrideSize M - 254) 0 := by
    rw [flushState_fr32WorkBuf, (appendData_loop _ _ _ _ (atLoop_whole (NewCollector M) (List.replicate 254 7) rfl
      (by rw [newCollector_payloadSize, hl]; norm_num))).2.2, newCollector_fr32WorkBuf,
      zcpAppendTo_inplace _ _ (by rw [hl, List.length_replicate]; exact hM), hl,
      List.drop_replicate]
  have htab : (FlushState (AppendData (NewCollector M)
      (chunkSource (List.replicate 254 7))).1).2.stackedNulPadding = nulTable maxLayers := by
    rw [flushState_table, appendData_table, newCollector_table]
  have hreset := reset_flag _ (flushState_state (AppendData (NewCollector M)
      (chunkSource (List.replicate 254 7))).1)
  obtain ⟨h1, h2, h3, h4⟩ := rejected_then_whole (FlushState (AppendData (NewCollector M)
      (chunkSource (List.replicate 254 7))).1).2 hreset.2.2.1 hreset.2.2.2.1
    (by rw [hbuf, List.length_append, List.length_replicate, List.length_replicate]; omega)
  have hst : ((FlushState (AppendData (NewCollector M)
      (chunkSource (List.replicate 254 7))).1).2.fr32WorkBuf.drop 154).take 100 =
      List.replicate 100 7 := by
    rw [hbuf, List.drop_append_of_le_length (by rw [hl]; decide), List.drop_replicate,
      List.take_left' (by rw [List.length_replicate])]
  rw [hst, hreset.2.2.2.2, List.nil_append] at h3
  refine ⟨hok, h1, h2, h3, ?_⟩
  rw [flushState_result, h3, h4, htab]
  exact runLayers_four _ _

/-! ## Properties of the Fr32 expansion -/

/-- C2: for every 127-byte window `W`, the expansion `E` built by `AppendData` has 128
bytes with `E[i] = W[i]` for `i ≤ 30`, `E[31] = W[31] & 0x3F`,
`E[i+1] = (W[i+1] << 2 | W[i] >> 6) mod 256` for `31 ≤ i ≤ 61`,
`E[63] = (W[63] << 2 | W[62] >> 6) & 0x3F`,
`E[i+1] = (W[i+1] << 4 | W[i] >> 4) mod 256` for `63 ≤ i ≤ 93`,
`E[95] = (W[95] << 4 | W[94] >> 4) & 0x3F`,
`E[i+1] = (W[i+1] << 6 | W[i] >> 2) mod 256` for `95 ≤ i ≤ 125`, and
`E[127] = W[126] >> 2`. -/
theorem fr32Expand_bytes (W : List Nat) (hW : IsWindow W) :
    (fr32Expand W).length = 128 ∧
    (∀ i, i ≤ 30 → (fr32Expand W).getD i 0 = W.getD i 0) ∧
    (fr32Expand W).getD 31 0 = W.getD 31 0 &&& 0x3F ∧
    (∀ i, 31 ≤ i → i ≤ 61 →
      (fr32Expand W).getD (i + 1) 0 = (W.getD (i + 1) 0 <<< 2 ||| W.getD i 0 >>> 6) % 256) ∧
    (fr32Expand W).getD 63 0 = (W.getD 63 0 <<< 2 ||| W.getD 62 0 >>> 6) &&& 0x3F ∧
    (∀ i, 63 ≤ i → i ≤ 93 →
      (fr32Expand W).getD (i + 1) 0 = (W.getD (i + 1) 0 <<< 4 ||| W.getD i 0 >>> 4) % 256) ∧
    (fr32Expand W).getD 95 0 = (W.getD 95 0 <<< 4 ||| W.getD 94 0 >>> 4) &&& 0x3F ∧
    (∀ i, 95 ≤ i → i ≤ 125 →
      (fr32Expand W).getD (i + 1) 0 = (W.getD (i + 1) 0 <<< 6 ||| W.getD i 0 >>> 2) % 256) ∧
    (fr32Expand W).getD 127 0 = W.getD 126 0 >>> 2 := by
  obtain ⟨hlen, hb⟩ := hW
  refine ⟨fr32Expand_length W, ?_, ?_, ?_, ?_, ?_, ?_, ?_, ?_⟩
  · intro i hi
    rw [fr32Expand_getD W hlen, fr32Byte, if_pos (by omega)]
  · rw [fr32Expand_getD W hlen]
    rfl
  · intro i h1 h2
    rw [fr32Expand_getD W hlen, fr32Byte, if_neg (by omega), if_neg (by omega),
      if_pos (by omega), Nat.add_sub_cancel, shiftByte_eq_mod 2 W hb]
  · rw [fr32Expand_getD W hlen, fr32Byte, if_neg (by omega), if_neg (by omega),
      if_neg (by omega), if_pos rfl, shiftByte_eq_mod 2 W hb, mod_256_and_63]
  · intro i h1 h2
    rw [fr32Expand_getD W hlen, fr32Byte, if_neg (by omega), if_neg (by omega),
      if_neg (by omega), if_neg (by omega), if_pos (by omega), Nat.add_sub_cancel,
      shiftByte_eq_mod 4 W hb]
  · rw [fr32Expand_getD W hlen, fr32Byte, if_neg (by omega), if_neg (by omega),
      if_neg (by omega), if_neg (by omega), if_neg (by omega), if_pos rfl,
      shiftByte_eq_mod 4 W hb, mod_256_and_63]
  · intro i h1 h2
    rw [fr32Expand_getD W hlen, fr32Byte, if_neg (by omega), if_neg (by omega),
      if_neg (by omega), if_neg (by omega), if_neg (by omega), if_neg (by omega),
      if_pos (by omega), Nat.add_sub_cancel, shiftByte_eq_mod 6 W hb]
  · rw [fr32Expand_getD W hlen]
    rfl

/-- C3: for every 127-byte window `W` with expansion `E`, both read as little-endian bit
strings, `E` is the 1016-bit stream of `W` with a 2-bit zero shim after every 254 bits:
for `q` in 0..3 and `t` in 0..253, bit `256q + t` of `E` is bit `254q + t` of `W`, and
bits `256q + 254` and `256q + 255` of `E` are 0. -/
theorem fr32Expand_bit_shims (W : List Nat) (hW : IsWindow W) (q t : Nat) (hq : q < 4)
    (ht : t < 254) :
    bitAt (fr32Expand W) (256 * q + t) = bitAt W (254 * q + t) ∧
    bitAt (fr32Expand W) (256 * q + 254) = false ∧
    bitAt (fr32Expand W) (256 * q + 255) = false := by
  refine ⟨?_, ?_, ?_⟩
  · have a : (256 * q + t) % 256 = t := by omega
    have b : (256 * q + t) / 256 = q := by omega
    rw [bitAt_fr32Expand W hW _ (by omega), a, b]
    simp [ht]
  · have a : (256 * q + 254) % 256 = 254 := by omega
    rw [bitAt_fr32Expand W hW _ (by omega), a]
    simp
  · have a : (256 * q + 255) % 256 = 255 := by omega
    rw [bitAt_fr32Expand W hW _ (by omega), a]
    simp

/-- C4: the Fr32 expansion is injective on 127-byte windows: two windows with the same
128-byte expansion are equal. -/
theorem fr32Expand_injective (W1 W2 : List Nat) (h1 : IsWindow W1) (h2 : IsWindow W2)
    (h : fr32Expand W1 = fr32Expand W2) : W1 = W2 := by
  apply List.ext_getElem (by rw [h1.1, h2.1])
  intro i hi1 hi2
  have e1 : W1.getD i 0 = W1[i] := by simp [List.getD_eq_getElem?_getD, hi1]
  have e2 : W2.getD i 0 = W2[i] := by simp [List.getD_eq_getElem?_getD, hi2]
  rw [← e1, ← e2]
  apply Nat.eq_of_testBit_eq
  intro m
  by_cases hm : m < 8
  · have hi : i < 127 := by rw [← h1.1]; exact hi1
    have a : (8 * i + m) / 8 = i := by omega
    have b : (8 * i + m) % 8 = m := by omega
    have k1 := window_bit_from_expansion W1 h1 (8 * i + m) (by omega)
    have k2 := window_bit_from_expansion W2 h2 (8 * i + m) (by omega)
    rw [h, ← k2] at k1
    simpa [bitAt, a, b] using k1
  · rw [testBit_byte_high (h1.2.getD_lt i) (by omega),
      testBit_byte_high (h2.2.getD_lt i) (by omega)]

/-- C5: for every 127-byte window, the four 32-byte field elements of the expansion `E`
have their top two bits cleared: `E[31]`, `E[63]`, `E[95]` and `E[127]` are at most
`0x3F`, and each element read as a little-endian integer is below `2^254`. -/
theorem fr32Expand_field_elements (W : List Nat) (hW : IsWindow W) :
    (fr32Expand W).getD 31 0 ≤ 0x3F ∧ (fr32Expand W).getD 63 0 ≤ 0x3F ∧
    (fr32Expand W).getD 95 0 ≤ 0x3F ∧ (fr32Expand W).getD 127 0 ≤ 0x3F ∧
    ∀ q, q < 4 → leValue (((fr32Expand W).drop (32 * q)).take 32) < 2 ^ 254 := by
  have hlast : ∀ q, q < 4 → (fr32Expand W).getD (32 * q + 31) 0 ≤ 0x3F := by
    intro q hq
    rw [fr32Expand_getD W hW.1]
    have hq' : q = 0 ∨ q = 1 ∨ q = 2 ∨ q = 3 := by omega
    rcases hq' with rfl | rfl | rfl | rfl
    · exact and_63_le _
    · exact and_63_le _
    · exact and_63_le _
    · have h1 := hW.2.getD_lt 126
      have h2 : fr32Byte W (32 * 3 + 31) = W.getD 126 0 >>> 2 := rfl
      rw [h2, Nat.shiftRight_eq_div_pow]
      omega
  refine ⟨hlast 0 (by omega), hlast 1 (by omega), hlast 2 (by omega), hlast 3 (by omega), ?_⟩
  intro q hq
  have hbytes : IsBytes (((fr32Expand W).drop (32 * q)).take 32) := fun b hb =>
    fr32Expand_isBytes W hW b (List.mem_of_mem_drop (List.mem_of_mem_take hb))
  have hlen : (((fr32Expand W).drop (32 * q)).take 32).length = 31 + 1 := by
    rw [List.length_take, List.length_drop, fr32Expand_length]
    omega
  have hl : (((fr32Expand W).drop (32 * q)).take 32).getD 31 0 ≤ 63 := by
    have := hlast q hq
    simp only [List.getD_eq_getElem?_getD] at this ⊢
    rw [List.getElem?_take_of_lt (by omega), List.getElem?_drop]
    exact this
  have := leValue_lt_of_last 31 _ hlen hbytes hl
  have e : (64 : Nat) * 256 ^ 31 = 2 ^ 254 := by norm_num
  omega

theorem fr32Expand_bytes_witness :
    IsWindow (List.range 127) ∧
      (fr32Expand (List.range 127)).getD 63 0 =
        ((List.range 127).getD 63 0 <<< 2 ||| (List.range 127).getD 62 0 >>> 6) &&& 0x3F :=
  ⟨isWindow_range, (fr32Expand_bytes (List.range 127) isWindow_range).2.2.2.2.1⟩

theorem fr32Expand_bit_shims_witness :
    IsWindow (List.range 127) ∧ 1 < 4 ∧ 5 < 254 ∧
      bitAt (fr32Expand (List.range 127)) (256 * 1 + 5) = bitAt (List.range 127) (254 * 1 + 5) ∧
      bitAt (fr32Expand (List.range 127)) (256 * 1 + 254) = false ∧
      bitAt (fr32Expand (List.range 127)) (256 * 1 + 255) = false :=
  ⟨isWindow_range, by decide, by decide,
    fr32Expand_bit_shims (List.range 127) isWindow_range 1 5 (by decide) (by decide)⟩

theorem fr32Expand_injective_witness :
    IsWindow (List.range 127) ∧ fr32Expand (List.range 127) = fr32Expand (List.range 127) ∧
      List.range 127 = List.range 127 :=
  ⟨isWindow_range, rfl,
    fr32Expand_injective (List.range 127) (List.range 127) isWindow_range isWindow_range rfl⟩

theorem fr32Expand_field_elements_witness :
    IsWindow (List.range 127) ∧ (fr32Expand (List.range 127)).getD 127 0 ≤ 0x3F ∧
      ∀ q, q < 4 → leValue (((fr32Expand (List.range 127)).drop (32 * q)).take 32) < 2 ^ 254 :=
  ⟨isWindow_range, (fr32Expand_field_elements (List.range 127) isWindow_range).2.2.2.1,
    (fr32Expand_field_elements (List.range 127) isWindow_range).2.2.2.2⟩

/-! ## Properties of the digests and of the zero-subtree table -/

/-- C6: every digest the engine produces or stores is exactly 32 bytes long with
`d[31] & 0xC0 == 0`: every digest `hash254Into` sends; each leaf digest sent to layer 0 by
any sequence of `AppendData` calls on a new collector; each digest a layer sends to the
next layer, while receiving and on close; each entry of the zero-subtree table; every
root `FlushState` returns; and for an input of at least 127 bytes within the layer
arrays such a root is returned. -/
theorem every_digest_is_254_bit (M : Nat) :
    (∀ data, IsDigest (hash254 data)) ∧
    (∀ chunks, ∀ d ∈ (appendAll (NewCollector M) chunks).layerQueue0, IsDigest d) ∧
    (∀ myIdx queue st, layerReceive myIdx queue LayerRun.init = some st →
      ∀ d ∈ st.sent, IsDigest d) ∧
    (∀ myIdx queue st next, layerReceive myIdx queue LayerRun.init = some st →
      layerClose (NewCollector M).stackedNulPadding myIdx st = .closeNext next →
      ∀ d ∈ next, IsDigest d) ∧
    (∀ d ∈ (NewCollector M).stackedNulPadding, IsDigest d) ∧
    (∀ chunks d, (FlushState (appendAll (NewCollector M) chunks)).1 = .commP (some d) →
      IsDigest d) ∧
    (∀ data, 127 ≤ data.length → windowCount data.length ≤ 2 ^ 27 →
      ∃ d, commP M data = .commP (some d) ∧ IsDigest d) := by
  have hinit : ∀ d ∈ LayerRun.init.sent, IsDigest d := by
    intro d hd
    simp [LayerRun.init] at hd
  have hnew : ∀ d ∈ (NewCollector M).layerQueue0, IsDigest d := by
    intro d hd
    simp [NewCollector, State.reset] at hd
  refine ⟨hash254_isDigest, ?_, ?_, ?_, nulTable_isDigest, ?_, ?_⟩
  · intro chunks
    exact appendAll_isDigest chunks _ hnew
  · intro myIdx queue st hr
    exact layerReceive_sent_isDigest myIdx queue _ st hinit hr
  · intro myIdx queue st next hr hc
    exact layerClose_isDigest _ myIdx st next
      (layerReceive_sent_isDigest myIdx queue _ st hinit hr) hc
  · intro chunks d h
    exact runLayers_isDigest _ _ _ _ d (appendAll_isDigest chunks _ hnew) h
  · intro data h1 h2
    have hk := Nat.le_pow_clog (by omega : 1 < 2) (windowCount data.length)
    have hmin : ∀ j, windowCount data.length ≤ 2 ^ j →
        Nat.clog 2 (windowCount data.length) ≤ j :=
      fun j hj => (Nat.le_pow_iff_clog_le (by omega)).mp hj
    exact ⟨_, commP_eq_treeRoot M data _ h1 h2 hk hmin, hash254_isDigest _⟩


/-- C7: the zero-subtree table built by `NewCollector` has exactly 31 entries, entry 0 is
32 zero bytes and, for every `i` in 1..30, entry `i` is the SHA-256 of entry `i-1`
written twice, with the top two bits of byte 31 cleared. -/
theorem stackedNulPadding_table (M : Nat) :
    (NewCollector M).stackedNulPadding.length = 31 ∧
    (NewCollector M).stackedNulPadding.getD 0 [] = List.replicate 32 0 ∧
    ∀ i, 1 ≤ i → i ≤ 30 →
      (NewCollector M).stackedNulPadding.getD i [] =
        clearTop2 (sha256 ((NewCollector M).stackedNulPadding.getD (i - 1) [] ++
          (NewCollector M).stackedNulPadding.getD (i - 1) [])) := by
  rw [newCollector_table]
  refine ⟨nulTable_length _, nulTable_getD_zero, ?_⟩
  intro i h1 h2
  obtain ⟨j, rfl⟩ : ∃ j, i = j + 1 := ⟨i - 1, by omega⟩
  rw [Nat.add_sub_cancel]
  exact nulTable_getD_succ j (by unfold maxLayers; omega)

/-! ## Properties of the reducer -/

/-- C1: for every input of at least 127 bytes, made of `n` consecutive 127-byte windows
(the last one zero-padded) with `n ≤ 2^27` so that the layers stay within the arrays, and
`P = 2^k` the smallest power of two with `n ≤ P`, the digest returned by `FlushState` is
the root of the perfect binary tree built with `H254(left || right)` whose bottom row
has `2 * P` nodes: the `2 * n` leaf digests in stream order followed by `2 * (P - n)`
copies of `H254(64 zero bytes)`. -/
theorem commP_is_padded_tree_root (M : Nat) (data : List Nat) (k : Nat)
    (hlen : 127 ≤ data.length) (harr : windowCount data.length ≤ 2 ^ 27)
    (hk : windowCount data.length ≤ 2 ^ k)
    (hmin : ∀ j, windowCount data.length ≤ 2 ^ j → k ≤ j) :
    (leafRow data).length = 2 * windowCount data.length ∧
    (leafRow data ++ List.replicate (2 * (2 ^ k - windowCount data.length))
        (hash254 [List.replicate 64 0])).length = 2 * 2 ^ k ∧
    commP M data = .commP (some (treeRoot (k + 1)
      (leafRow data ++ List.replicate (2 * (2 ^ k - windowCount data.length))
        (hash254 [List.replicate 64 0])))) := by
  refine ⟨leafRow_length data, ?_, commP_eq_treeRoot M data k hlen harr hk hmin⟩
  rw [List.length_append, List.length_replicate, leafRow_length]
  omega

theorem commP_is_padded_tree_root_witness :
    127 ≤ (List.replicate 300 7).length ∧
      windowCount (List.replicate 300 7).length ≤ 2 ^ 27 ∧
      windowCount (List.replicate 300 7).length ≤ 2 ^ 2 ∧
      commP 1048576 (List.replicate 300 7) = .commP (some (treeRoot (2 + 1)
        (leafRow (List.replicate 300 7) ++
          List.replicate (2 * (2 ^ 2 - windowCount (List.replicate 300 7).length))
            (hash254 [List.replicate 64 0])))) :=
  have hl : (List.replicate 300 7).length = 300 := List.length_replicate 300 7
  have hw : windowCount (List.replicate 300 7).length = 3 := by rw [hl]; decide
  ⟨by rw [hl]; decide, by rw [hw]; decide, by rw [hw]; decide,
    (commP_is_padded_tree_root 1048576 (List.replicate 300 7) 2 (by rw [hl]; decide)
      (by rw [hw]; decide) (by rw [hw]; decide) (by rw [hw]; exact least_pow_three)).2.2⟩

/-- C8 fails as stated, at layer 1 for an input of 381 zero bytes: three digests, all
equal to table entry 2, reach layer 1, which holds the third one when its queue is
closed. The digest it then sends to layer 2 is `H(d || Z[2])`, which differs from the
`H(d || Z[1])` of the claim. -/
theorem layerClose_pad_index_counterexample :
    layerReceive 0 (leafRow (List.replicate 381 0)) LayerRun.init =
      some ⟨none, true, List.replicate 3 ((nulTable maxLayers).getD 2 [])⟩ ∧
    layerClose (NewCollector 1048576).stackedNulPadding 0
        ⟨none, true, List.replicate 3 ((nulTable maxLayers).getD 2 [])⟩ =
      .closeNext (List.replicate 3 ((nulTable maxLayers).getD 2 [])) ∧
    layerReceive 1 (List.replicate 3 ((nulTable maxLayers).getD 2 [])) LayerRun.init =
      some ⟨some ((nulTable maxLayers).getD 2 []), true, [(nulTable maxLayers).getD 3 []]⟩ ∧
    layerClose (NewCollector 1048576).stackedNulPadding 1
        ⟨some ((nulTable maxLayers).getD 2 []), true, [(nulTable maxLayers).getD 3 []]⟩ ≠
      .closeNext ([(nulTable maxLayers).getD 3 []] ++
        [hash254 [(nulTable maxLayers).getD 2 [],
          (NewCollector 1048576).stackedNulPadding.getD 1 []]]) := by
  have h21 : hash254 [(nulTable maxLayers).getD 1 [], (nulTable maxLayers).getD 1 []] =
      (nulTable maxLayers).getD 2 [] := by
    rw [hash254_pair, ← nulTable_getD_succ 1 (by decide)]
  have h32 : hash254 [(nulTable maxLayers).getD 2 [], (nulTable maxLayers).getD 2 []] =
      (nulTable maxLayers).getD 3 [] := by
    rw [hash254_pair, ← nulTable_getD_succ 2 (by decide)]
  have hne : hash254 [(nulTable maxLayers).getD 2 [], (nulTable maxLayers).getD 2 []] ≠
      hash254 [(nulTable maxLayers).getD 2 [], (nulTable maxLayers).getD 1 []] := by
    decide!
  refine ⟨?_, ?_, ?_, ?_⟩
  · have hw : windowCount 381 = 3 := by decide
    rw [leafRow_zero, LayerRun.init, layerReceive_paired 0 (by decide), hw]
    simpa [List.replicate, pairs, oddOne] using h21
  · simp [layerClose, maxLayers]
  · rw [LayerRun.init, layerReceive_paired 1 (by decide)]
    simpa [List.replicate, pairs, oddOne] using h32
  · rw [newCollector_table]
    simp only [layerClose]
    rw [if_pos (by decide), if_neg (by simp), nulTable_getElem? 2 (by decide)]
    simp only [ne_eq, LayerClose.closeNext.injEq, List.append_cancel_left_eq, List.cons.injEq,
      and_true]
    exact hne

/-- C8, amended: on finalize, a layer `myIdx` that is not the top layer and holds a digest
`d` sends `H(d || Z[myIdx+1])` to layer `myIdx+1` after what it sent before, where
`Z[myIdx+1]` is entry `myIdx+1` of the zero-subtree table; layer 0, which receives the
leaf digests, pads with `Z[1] = H254(64 zero bytes)`. -/
theorem layerClose_pads_with_next_entry (M myIdx : Nat) (st : LayerRun) (d : List Nat)
    (hidx : myIdx + 2 < maxLayers) (hadd : st.nextAdded = true)
    (hd : st.chunkHold = some d) :
    layerClose (NewCollector M).stackedNulPadding myIdx st =
      .closeNext (st.sent ++
        [hash254 [d, (NewCollector M).stackedNulPadding.getD (myIdx + 1) []]]) ∧
    (NewCollector M).stackedNulPadding.getD 1 [] = hash254 [List.replicate 64 0] := by
  rw [newCollector_table]
  refine ⟨?_, nulTable_getD_one⟩
  simp only [layerClose, if_pos hidx, hadd, hd, nulTable_getElem? (myIdx + 1) (by omega)]
  simp

theorem layerClose_pads_with_next_entry_witness :
    1 + 2 < maxLayers ∧
      layerClose (NewCollector 1048576).stackedNulPadding 1
          ⟨some (List.replicate 32 7), true, [List.replicate 32 9]⟩ =
        .closeNext ([List.replicate 32 9] ++
          [hash254 [List.replicate 32 7,
            (NewCollector 1048576).stackedNulPadding.getD (1 + 1) []]]) :=
  ⟨by decide,
    (layerClose_pads_with_next_entry 1048576 1
      ⟨some (List.replicate 32 7), true, [List.replicate 32 9]⟩ (List.replicate 32 7)
      (by decide) rfl rfl).1⟩

/-- C9: for every input of exactly 127 bytes, `AppendData` succeeds, exactly the two leaf
digests `leaf0 = H254(E[0..64))` and `leaf1 = H254(E[64..128))` enter layer 0, and
`FlushState` returns exactly `H254(leaf0 || leaf1)`, with no zero-subtree padding. -/
theorem commP_single_window (M : Nat) (data : List Nat) (h : data.length = 127) :
    (AppendData (NewCollector M) ⟨127, data⟩).2 = .ok ∧
    (AppendData (NewCollector M) ⟨127, data⟩).1.layerQueue0 =
      [hash254 [(fr32Expand data).take 64], hash254 [(fr32Expand data).drop 64]] ∧
    (FlushState (AppendData (NewCollector M) ⟨127, data⟩).1).1 =
      .commP (some (hash254
        [hash254 [(fr32Expand data).take 64], hash254 [(fr32Expand data).drop 64]])) := by
  have ha := appendData_windows (NewCollector M) data rfl rfl
    (by show 127 ≤ 0 + data.length; omega)
    (by show 0 + data.length ≤ _; rw [maxPiecePayload_eq]; omega)
  rw [h] at ha
  obtain ⟨hok, hq, hz, _, _⟩ := ha
  have hq' : (AppendData (NewCollector M) ⟨127, data⟩).1.layerQueue0 = windowLeaves data := by
    rw [hq, leafRow_single data h]
    rfl
  refine ⟨hok, hq', ?_⟩
  simp only [FlushState, hq', hz, newCollector_table, windowLeaves]
  exact runLayers_two _ _

theorem commP_single_window_witness :
    (List.range 127).length = 127 ∧
      (FlushState (AppendData (NewCollector 1048576) ⟨127, List.range 127⟩).1).1 =
        .commP (some (hash254
          [hash254 [(fr32Expand (List.range 127)).take 64],
            hash254 [(fr32Expand (List.range 127)).drop 64]])) :=
  ⟨List.length_range 127,
    (commP_single_window 1048576 (List.range 127) (List.length_range 127)).2.2⟩

/-- C10: for every input of `len ≥ 127` zero bytes within the layer arrays, with
`n = ceil(len / 127)` windows and `k` the least integer with `2^k ≥ n`, the commitment
returned by `FlushState` is entry `k + 2` of the zero-subtree table; in particular it is
entry 2 for 127 zero bytes and entry 3 for 254 zero bytes. -/
theorem commP_zero_input (M len k : Nat) (hlen : 127 ≤ len) (harr : windowCount len ≤ 2 ^ 27)
    (hk : windowCount len ≤ 2 ^ k) (hmin : ∀ j, windowCount len ≤ 2 ^ j → k ≤ j) :
    commP M (List.replicate len 0) =
      .commP (some ((NewCollector M).stackedNulPadding.getD (k + 2) [])) ∧
    commP M (List.replicate 127 0) =
      .commP (some ((NewCollector M).stackedNulPadding.getD 2 [])) ∧
    commP M (List.replicate 254 0) =
      .commP (some ((NewCollector M).stackedNulPadding.getD 3 [])) := by
  rw [newCollector_table]
  refine ⟨commP_zero M len k hlen harr hk hmin, ?_, ?_⟩
  · exact commP_zero M 127 0 (by omega) (by decide) (by decide) (fun j _ => Nat.zero_le j)
  · have hw : windowCount 254 = 2 := by decide
    exact commP_zero M 254 1 (by omega) (by decide) (by decide)
      (by rw [hw]; exact least_pow_two)

theorem commP_zero_input_witness :
    127 ≤ 381 ∧ windowCount 381 ≤ 2 ^ 27 ∧ windowCount 381 ≤ 2 ^ 2 ∧
      commP 1048576 (List.replicate 381 0) =
        .commP (some ((NewCollector 1048576).stackedNulPadding.getD (2 + 2) [])) :=
  have hw : windowCount 381 = 3 := by decide
  ⟨by decide, by rw [hw]; decide, by rw [hw]; decide,
    (commP_zero_input 1048576 381 2 (by decide) (by rw [hw]; decide)
      (by rw [hw]; decide) (by rw [hw]; exact least_pow_three)).1⟩

/-! ## Laws of the commitment -/

/-- C11: zero-padding law. For every input `x` of at least 127 bytes with `n` windows,
`P = 2^j` the smallest power of two with `n ≤ P`, and every length `k'` from the length
of `x` up to `127 * P` (lengths being below `2^64`), `x` right-padded with zero bytes to
`k'` bytes has the same commitment as `x`; within the layer arrays (`n ≤ 2^27`) this
commitment is a digest. -/
theorem commP_zero_padding_law (M : Nat) (x : List Nat) (k' j : Nat)
    (hlen : 127 ≤ x.length) (hj : windowCount x.length ≤ 2 ^ j)
    (hmin : ∀ i, windowCount x.length ≤ 2 ^ i → j ≤ i) (h1 : x.length ≤ k')
    (h2 : k' ≤ 127 * 2 ^ j) (h64 : k' < 2 ^ 64) :
    commP M (x ++ List.replicate (k' - x.length) 0) = commP M x ∧
    (windowCount x.length ≤ 2 ^ 27 → ∃ d, commP M x = .commP (some d) ∧ IsDigest d) := by
  have hmax := maxPiecePayload_eq
  have e29 : (2 : Nat) ^ 29 = 536870912 := by norm_num
  have e27 : (2 : Nat) ^ 27 = 134217728 := by norm_num
  have hlen' : (x ++ List.replicate (k' - x.length) 0).length = k' := by
    rw [List.length_append, List.length_replicate]; omega
  have hn' : windowCount k' ≤ 2 ^ j := by unfold windowCount; omega
  have hnn : windowCount x.length ≤ windowCount k' := by unfold windowCount; omega
  have hmin' : ∀ i, windowCount k' ≤ 2 ^ i → j ≤ i := fun i hi => hmin i (by omega)
  refine ⟨?_, ?_⟩
  · by_cases hx : x.length ≤ MaxPiecePayload
    · have hj29 : j ≤ 29 := hmin 29 (by unfold windowCount; omega)
      have hp29 : 2 ^ j ≤ 2 ^ 29 := Nat.pow_le_pow_right (by omega) hj29
      have hk' : k' ≤ MaxPiecePayload := by omega
      by_cases harr : windowCount x.length ≤ 2 ^ 27
      · have hj27 : j ≤ 27 := hmin 27 harr
        have hp27 : 2 ^ j ≤ 2 ^ 27 := Nat.pow_le_pow_right (by omega) hj27
        rw [commP_eq_treeRoot M x j hlen harr hj hmin,
          commP_eq_treeRoot M _ j (by rw [hlen']; omega) (by rw [hlen']; omega)
            (by rw [hlen']; exact hn') (by rw [hlen']; exact hmin'),
          leafRow_append_zeros, hlen', nulTable_getD_one,
          show x.length + (k' - x.length) = k' by omega, List.append_assoc,
          List.append_replicate_replicate,
          show 2 * (windowCount k' - windowCount x.length) + 2 * (2 ^ j - windowCount k') =
            2 * (2 ^ j - windowCount x.length) by omega]
      · rw [commP_panic M x hlen hx (by omega),
          commP_panic M _ (by rw [hlen']; omega) (by rw [hlen']; exact hk')
            (by rw [hlen']; omega)]
    · rw [commP_oversize M x (by omega) (by omega),
        commP_oversize M _ (by rw [hlen']; omega) (by rw [hlen']; exact h64)]
  · intro harr
    exact ⟨_, commP_eq_treeRoot M x j hlen harr hj hmin, hash254_isDigest _⟩

theorem commP_zero_padding_law_witness :
    127 ≤ (List.replicate 300 7).length ∧ (List.replicate 300 7).length ≤ 450 ∧
      450 ≤ 127 * 2 ^ 2 ∧
      commP 1048576 (List.replicate 300 7 ++
          List.replicate (450 - (List.replicate 300 7).length) 0) =
        commP 1048576 (List.replicate 300 7) :=
  have hl : (List.replicate 300 7).length = 300 := List.length_replicate 300 7
  have hw : windowCount (List.replicate 300 7).length = 3 := by rw [hl]; decide
  ⟨by rw [hl]; decide, by rw [hl]; decide, by decide,
    (commP_zero_padding_law 1048576 (List.replicate 300 7) 450 2 (by rw [hl]; decide)
      (by rw [hw]; decide) (by rw [hw]; exact least_pow_three) (by rw [hl]; decide)
      (by decide) (by decide)).1⟩

/-- C12 fails as stated: a stream of 254 bytes given as a chunk of 128 bytes and one of
126 bytes has its first call accepted and its second call rejected; a first chunk of one
byte is rejected; and a stream longer than `MaxPiecePayload` is rejected even as a single
chunk. -/
theorem chunking_invariance_counterexample :
    (AppendData (NewCollector 1048576) (chunkSource (List.replicate 128 7))).2 = .ok ∧
    (AppendData (AppendData (NewCollector 1048576) (chunkSource (List.replicate 128 7))).1
        (chunkSource (List.replicate 126 7))).2 = .error .afterShortChunk ∧
    (AppendData (NewCollector 1048576) (chunkSource [7])).2 = .error .minimumInput ∧
    (AppendData (NewCollector 1048576)
      (chunkSource (List.replicate (MaxPiecePayload + 127) 0))).2 = .error .maximumPayload := by
  have hl : (List.replicate 128 7).length = 128 := List.length_replicate 128 7
  obtain ⟨a, _, _, _, e⟩ := newCollector_chunk 1048576 (List.replicate 128 7)
    (Or.inr (by rw [hl]; decide)) (by rw [hl, maxPiecePayload_eq]; decide)
  refine ⟨a, ?_, ?_, oversize_single_append 1048576⟩
  · rw [appendData_short _ _ (by rw [e, hl]; decide)]
  · exact (appendData_minimum (NewCollector 1048576) (chunkSource [7])
      (newCollector_shortChunkSeen _) (newCollector_payloadSize _) (by decide) (by decide)).1

/-- C12, amended: for every byte stream of at least 127 and at most `MaxPiecePayload`
bytes and every way of splitting it into a sequence of `AppendData` calls in which every
chunk but the last has a size that is a multiple of 127, every call succeeds and
`FlushState` returns what it returns after a single `AppendData` of the whole stream. -/
theorem chunked_append_same_root (M : Nat) (whole : List (List Nat)) (last : List Nat)
    (hwhole : ∀ c ∈ whole, c.length % 127 = 0)
    (hmin : 127 ≤ (whole.flatten ++ last).length)
    (hmax : (whole.flatten ++ last).length ≤ MaxPiecePayload) :
    (∀ pre c post, whole ++ [last] = pre ++ c :: post →
      (AppendData (appendAll (NewCollector M) (pre.map chunkSource)) (chunkSource c)).2 =
        .ok) ∧
    (FlushState (appendAll (NewCollector M) ((whole ++ [last]).map chunkSource))).1 =
      commP M (whole.flatten ++ last) :=
  chunked_root M whole last hwhole hmin hmax

theorem chunked_append_same_root_witness :
    (∀ c ∈ [List.replicate 127 7, []], c.length % 127 = 0) ∧
      (FlushState (appendAll (NewCollector 1048576)
          (([List.replicate 127 7, []] ++ [List.replicate 3 9]).map chunkSource))).1 =
        commP 1048576 ([List.replicate 127 7, []].flatten ++ List.replicate 3 9) :=
  have hw : ∀ c ∈ [List.replicate 127 7, []], c.length % 127 = 0 := by
    intro c hc
    simp only [List.mem_cons, List.mem_singleton, List.not_mem_nil, or_false] at hc
    rcases hc with rfl | rfl
    · rw [List.length_replicate]
    · rfl
  have hl : ([List.replicate 127 7, []].flatten ++ List.replicate 3 9).length = 130 := by
    simp only [List.flatten, List.append_nil, List.length_append, List.length_replicate]
  ⟨hw, (chunked_append_same_root 1048576 [List.replicate 127 7, []] (List.replicate 3 9) hw
    (by rw [hl]; decide) (by rw [hl, maxPiecePayload_eq]; decide)).2⟩

/-! ## Errors of `AppendData` and `FlushState` -/

/-- C13: for every input of 1 to 126 bytes given to a freshly reset engine as a single
`AppendData`, the call returns the "minimum input of 127 bytes required" error and no
leaf digest enters layer 0. -/
theorem appendData_input_too_short (cp : CommpCollector) (data : List Nat)
    (hreset : cp.toState = State.reset) (h1 : 1 ≤ data.length) (h2 : data.length ≤ 126) :
    (AppendData cp ⟨data.length, data⟩).2 = .error .minimumInput ∧
    (AppendData cp ⟨data.length, data⟩).1.layerQueue0 = [] := by
  have hs : cp.shortChunkSeen = false := by
    show cp.toState.shortChunkSeen = false
    rw [hreset]; rfl
  have hp : cp.payloadSize = 0 := by
    show cp.toState.payloadSize = 0
    rw [hreset]; rfl
  have hq : cp.layerQueue0 = [] := by
    show cp.toState.layerQueue0 = []
    rw [hreset]; rfl
  obtain ⟨a, b⟩ := appendData_minimum cp ⟨data.length, data⟩ hs hp h1 h2
  exact ⟨a, by rw [b, hq]⟩

theorem appendData_input_too_short_witness :
    (NewCollector 1048576).toState = State.reset ∧ 1 ≤ (List.replicate 65 0).length ∧
      (List.replicate 65 0).length ≤ 126 ∧
      (AppendData (NewCollector 1048576)
          ⟨(List.replicate 65 0).length, List.replicate 65 0⟩).2 = .error .minimumInput ∧
      (AppendData (NewCollector 1048576)
          ⟨(List.replicate 65 0).length, List.replicate 65 0⟩).1.layerQueue0 = [] :=
  have hl : (List.replicate 65 0).length = 65 := List.length_replicate 65 0
  ⟨rfl, by rw [hl]; decide, by rw [hl]; decide,
    appendData_input_too_short (NewCollector 1048576) (List.replicate 65 0) rfl
      (by rw [hl]; decide) (by rw [hl]; decide)⟩

/-- C14 on the code: `FlushState` on a new collector with no appended data returns,
without error or panic, a result whose digest is the nil slice, and so does a second
`FlushState` right after the first. -/
theorem flushState_without_data (M : Nat) :
    (FlushState (NewCollector M)).1 = .commP none ∧
    (FlushState (FlushState (NewCollector M)).2).1 = .commP none :=
  ⟨flushState_empty _ rfl, flushState_empty _ rfl⟩

/-- C15: once an `AppendData` call has been accepted that left the cumulative payload
size not a multiple of 127, every later `AppendData` call, whatever its data and however
many calls came in between, returns the "additional data appended after a short chunk"
error and leaves the collector, hence the payload size and the digests sent to layer 0,
as that accepted call left it. -/
theorem appendData_after_short_chunk (cp : CommpCollector) (ds : DataSource)
    (hok : (AppendData cp ds).2 = .ok)
    (hrem : (AppendData cp ds).1.payloadSize % 127 ≠ 0) :
    (AppendData cp ds).1.shortChunkSeen = true ∧
    ∀ (later : List DataSource) (ds' : DataSource),
      AppendData (appendAll (AppendData cp ds).1 later) ds' =
        ((AppendData cp ds).1, .error .afterShortChunk) := by
  have hshort : (AppendData cp ds).1.shortChunkSeen = true := by
    cases hs : cp.shortChunkSeen with
    | true =>
      rw [appendData_short cp ds hs] at hok
      simp at hok
    | false =>
      by_cases hr : (cp.payloadSize + ds.Size) % 2 ^ 64 % 127 = 0
      · rw [appendData_payloadSize cp ds hs] at hrem
        exact absurd hr hrem
      · by_cases hlt : (cp.payloadSize + ds.Size) % 2 ^ 64 < 127
        · rw [appendData_eq_minimum cp ds hs hr hlt] at hok
          simp at hok
        · rw [appendData_eq_padded cp ds hs hr hlt]
  refine ⟨hshort, ?_⟩
  intro later ds'
  rw [appendAll_short later _ hshort, appendData_short _ _ hshort]

theorem appendData_after_short_chunk_witness :
    (AppendData (NewCollector 1048576) (chunkSource (List.replicate 128 7))).2 = .ok ∧
      (AppendData (NewCollector 1048576)
          (chunkSource (List.replicate 128 7))).1.payloadSize % 127 ≠ 0 ∧
      AppendData (appendAll
          (AppendData (NewCollector 1048576) (chunkSource (List.replicate 128 7))).1
          [chunkSource [1]]) (chunkSource []) =
        ((AppendData (NewCollector 1048576) (chunkSource (List.replicate 128 7))).1,
          .error .afterShortChunk) :=
  have hl : (List.replicate 128 7).length = 128 := List.length_replicate 128 7
  have h := newCollector_chunk 1048576 (List.replicate 128 7)
    (Or.inr (by rw [hl]; decide)) (by rw [hl, maxPiecePayload_eq]; decide)
  have hrem : (AppendData (NewCollector 1048576)
      (chunkSource (List.replicate 128 7))).1.payloadSize % 127 ≠ 0 := by
    rw [h.2.2.2.1, hl]; decide
  ⟨h.1, hrem,
    (appendData_after_short_chunk (NewCollector 1048576)
      (chunkSource (List.replicate 128 7)) h.1 hrem).2 [chunkSource [1]] (chunkSource [])⟩

/-- C16: for every `AppendData` call with non-empty data on an engine that has not seen a
short chunk, the payload size after the call is the cumulative size; if it exceeds
`MaxPiecePayload` the call returns the "maximum proving tree payload size exceeded" error
and sends no digest to layer 0; if it is at most `MaxPiecePayload` this error is not
returned. -/
theorem appendData_maximum_payload (cp : CommpCollector) (ds : DataSource)
    (hs : cp.shortChunkSeen = false) (hne : ds.Content ≠ []) :
    (AppendData cp ds).1.payloadSize = (cp.payloadSize + ds.Size) % 2 ^ 64 ∧
    (MaxPiecePayload < (cp.payloadSize + ds.Size) % 2 ^ 64 →
      (AppendData cp ds).2 = .error .maximumPayload ∧
      (AppendData cp ds).1.layerQueue0 = cp.layerQueue0) ∧
    ((cp.payloadSize + ds.Size) % 2 ^ 64 ≤ MaxPiecePayload →
      (AppendData cp ds).2 ≠ .error .maximumPayload) :=
  ⟨appendData_payloadSize cp ds hs, appendData_over_max cp ds hs hne,
    appendData_not_max cp ds⟩

theorem appendData_maximum_payload_witness :
    (NewCollector 1048576).shortChunkSeen = false ∧ List.replicate 127 7 ≠ [] ∧
      (AppendData (NewCollector 1048576) (chunkSource (List.replicate 127 7))).1.payloadSize =
        ((NewCollector 1048576).payloadSize + (chunkSource (List.replicate 127 7)).Size)
          % 2 ^ 64 ∧
      (AppendData (NewCollector 1048576) (chunkSource (List.replicate 127 7))).2 ≠
        .error .maximumPayload :=
  have hne : List.replicate 127 7 ≠ [] := by
    intro h
    have := congrArg List.length h
    rw [List.length_replicate] at this
    exact absurd this (by decide)
  have h := appendData_maximum_payload (NewCollector 1048576)
    (chunkSource (List.replicate 127 7)) (newCollector_shortChunkSeen _) hne
  ⟨newCollector_shortChunkSeen _, hne, h.1,
    h.2.2 (by rw [newCollector_payloadSize, chunkSource_size, List.length_replicate,
                maxPiecePayload_eq]
              norm_num)⟩

/-- C17 fails as stated. After a chunk of 100 bytes is rejected with the "minimum input"
error, a chunk of 27 bytes is accepted, and the two digests it sends to layer 0 are those
of a window made of the 27 new bytes, 73 bytes of the rejected chunk left in the work
buffer, and 27 zero bytes. And after a chunk is rejected with the "payload too large"
error, an empty chunk is accepted. -/
theorem error_not_terminal_counterexample :
    ((AppendData (NewCollector 1048576) (chunkSource (List.replicate 100 1))).2 =
      .error .minimumInput ∧
    (AppendData (AppendData (NewCollector 1048576) (chunkSource (List.replicate 100 1))).1
        (chunkSource (List.replicate 27 2))).2 = .ok ∧
    (AppendData (AppendData (NewCollector 1048576) (chunkSource (List.replicate 100 1))).1
        (chunkSource (List.replicate 27 2))).1.layerQueue0 =
      windowLeaves (List.replicate 27 2 ++ List.replicate 73 1 ++ List.replicate 27 0)) ∧
    ((AppendData (NewCollector 1048576)
      (chunkSource (List.replicate (MaxPiecePayload + 127) 0))).2 = .error .maximumPayload ∧
    (AppendData (AppendData (NewCollector 1048576)
      (chunkSource (List.replicate (MaxPiecePayload + 127) 0))).1 (chunkSource [])).2 = .ok) :=
  ⟨stale_append 1048576 (by rw [strideSize_default]; decide), empty_after_max 1048576⟩

/-- C17, amended: after an `AppendData` call has returned the "payload too large" or the
"append after short chunk" error, no later `AppendData` call on the same engine sends a
digest to layer 0, and every later call with non-empty data returns an error (the
cumulative sizes staying below `2^64`). -/
theorem appendData_error_is_terminal (cp : CommpCollector) (ds : DataSource)
    (later : List DataSource) (ds' : DataSource)
    (herr : (AppendData cp ds).2 = .error .afterShortChunk ∨
      (AppendData cp ds).2 = .error .maximumPayload)
    (hsize : (AppendData cp ds).1.payloadSize + (later.map DataSource.Size).sum + ds'.Size
      < 2 ^ 64) :
    (AppendData cp ds).1.layerQueue0 = cp.layerQueue0 ∧
    (appendAll (AppendData cp ds).1 later).layerQueue0 = cp.layerQueue0 ∧
    (AppendData (appendAll (AppendData cp ds).1 later) ds').1.layerQueue0 = cp.layerQueue0 ∧
    (ds'.Content ≠ [] →
      ∃ e, (AppendData (appendAll (AppendData cp ds).1 later) ds').2 = .error e) := by
  obtain ⟨hinv, hq⟩ := appendData_error_state cp ds herr
  obtain ⟨a1, a2, a3⟩ := appendAll_dead later (AppendData cp ds).1 hinv (by omega)
  obtain ⟨b1, _, _, b4⟩ := appendData_dead (appendAll (AppendData cp ds).1 later) ds' a2
    (by omega)
  exact ⟨hq, by rw [a1, hq], by rw [b1, a1, hq], b4⟩

theorem appendData_error_is_terminal_witness :
    (AppendData (AppendData (NewCollector 1048576) (chunkSource (List.replicate 128 7))).1
        (chunkSource [1])).2 = .error .afterShortChunk ∧
      (AppendData (appendAll
          (AppendData
            (AppendData (NewCollector 1048576) (chunkSource (List.replicate 128 7))).1
            (chunkSource [1])).1 [])
          (chunkSource [2])).1.layerQueue0 =
        (AppendData (NewCollector 1048576)
          (chunkSource (List.replicate 128 7))).1.layerQueue0 :=
  have hl : (List.replicate 128 7).length = 128 := List.length_replicate 128 7
  have h := newCollector_chunk 1048576 (List.replicate 128 7)
    (Or.inr (by rw [hl]; decide)) (by rw [hl, maxPiecePayload_eq]; decide)
  have hshort : (AppendData (NewCollector 1048576)
      (chunkSource (List.replicate 128 7))).1.shortChunkSeen = true := by
    rw [h.2.2.2.2, hl]; decide
  have herr : (AppendData
      (AppendData (NewCollector 1048576) (chunkSource (List.replicate 128 7))).1
      (chunkSource [1])).2 = .error .afterShortChunk := by
    rw [appendData_short _ _ hshort]
  ⟨herr,
    (appendData_error_is_terminal
      (AppendData (NewCollector 1048576) (chunkSource (List.replicate 128 7))).1
      (chunkSource [1]) [] (chunkSource [2]) (Or.inl herr)
      (by rw [appendData_short _ _ hshort, h.2.2.2.1, hl, chunkSource_size]
          norm_num)).2.2.1⟩

/-! ## The bounds of the engine -/

/-- C18 on the code: an input of `127 * 2^27 + 1` zero bytes, which is within
`MaxPiecePayload`, is accepted by `AppendData`, and `FlushState` then ends in the panic
of a layer goroutine indexing `layerQueues` out of range. -/
theorem commP_panics_within_max_payload (M : Nat) :
    127 * 2 ^ 27 + 1 ≤ MaxPiecePayload ∧
    (AppendData (NewCollector M)
      (chunkSource (List.replicate (127 * 2 ^ 27 + 1) 0))).2 = .ok ∧
    commP M (List.replicate (127 * 2 ^ 27 + 1) 0) = .panic := by
  have hl : (List.replicate (127 * 2 ^ 27 + 1) 0).length = 127 * 2 ^ 27 + 1 :=
    List.length_replicate _ _
  have hmax : 127 * 2 ^ 27 + 1 ≤ MaxPiecePayload := by rw [maxPiecePayload_eq]; norm_num
  have e27 : (2 : Nat) ^ 27 = 134217728 := by norm_num
  refine ⟨hmax, ?_, ?_⟩
  · exact (newCollector_chunk M _ (Or.inr (by rw [hl]; omega)) (by rw [hl]; exact hmax)).1
  · apply commP_panic M _ (by rw [hl]; omega) (by rw [hl]; exact hmax)
    rw [hl]
    unfold windowCount
    omega

/-- C19: the constant `MaxPiecePayload = 127 * (((1 << 31) * 32) / 128)` is exactly
`127 * 2^29 = 68182605824`, that is 127/128 of the `2^31 * 32` bytes (64 GiB) of the
largest piece; the division is exact and the value fits 64 bits. -/
theorem maxPiecePayload_value :
    MaxPiecePayload = 127 * 2 ^ 29 ∧ MaxPiecePayload = 68182605824 ∧
    128 * MaxPiecePayload = 127 * (2 ^ 31 * 32) ∧ 2 ^ 31 * 32 = 64 * 2 ^ 30 ∧
    ((1 <<< maxLayers) * 32) % 128 = 0 ∧ MaxPiecePayload < 2 ^ 64 := by
  have h := maxPiecePayload_eq
  refine ⟨?_, h, ?_, ?_, ?_, ?_⟩
  · rw [h]; norm_num
  · rw [h]; norm_num
  · norm_num
  · decide
  · rw [h]; norm_num

/-- C20: for every `MaxLeafPayloadSize`, `StrideSize` is the largest multiple of 127 not
exceeding it: it is a multiple of 127, it is at most `MaxLeafPayloadSize`, adding 127
exceeds `MaxLeafPayloadSize`, and no larger multiple of 127 is at most
`MaxLeafPayloadSize`. -/
theorem strideSize_largest_multiple (M : Nat) :
    StrideSize M % 127 = 0 ∧ StrideSize M ≤ M ∧ M < StrideSize M + 127 ∧
    ∀ m, m % 127 = 0 → m ≤ M → m ≤ StrideSize M := by
  unfold StrideSize
  refine ⟨by omega, by omega, by omega, ?_⟩
  intro m h1 h2
  omega

/-! ## Chunks, reset, the two reducers and the code around the engine -/

/-- C21 fails on the code: on a new collector a chunk of 100 bytes is rejected as too short,
and the chunk of 127 bytes that follows is accepted and sends four digests to layer 0, the
two of its one window and the two of a window of zero bytes, where the claim has
`2 * 127 / 127 = 2`. -/
theorem whole_chunk_after_rejected_call :
    (AppendData (NewCollector 1048576) (chunkSource (List.replicate 100 1))).2 =
      .error .minimumInput ∧
    (List.replicate 127 2).length % 127 = 0 ∧
    (AppendData (AppendData (NewCollector 1048576) (chunkSource (List.replicate 100 1))).1
        (chunkSource (List.replicate 127 2))).2 = .ok ∧
    (AppendData (AppendData (NewCollector 1048576) (chunkSource (List.replicate 100 1))).1
        (chunkSource (List.replicate 127 2))).1.layerQueue0 =
      windowLeaves (List.replicate 127 2) ++ windowLeaves (List.replicate 127 0) ∧
    (AppendData (AppendData (NewCollector 1048576) (chunkSource (List.replicate 100 1))).1
        (chunkSource (List.replicate 127 2))).1.layerQueue0.length = 4 ∧
    2 * (List.replicate 127 2).length / 127 = 2 := by
  obtain ⟨h1, h2, h3, _⟩ := new_rejected_then_whole 1048576 (by rw [strideSize_default]; decide)
  have hz : List.replicate 27 0 ++ List.replicate 100 0 = List.replicate 127 0 := by
    rw [List.append_replicate_replicate]
  rw [hz] at h3
  refine ⟨h1, by rw [List.length_replicate], h2, h3, ?_, by rw [List.length_replicate]⟩
  rw [h3]
  simp [windowLeaves]

/-- On an engine that was reset and has since accepted every chunk given to it, a
successful `AppendData` call on a chunk whose length `n` is a multiple of 127 sends to layer 0
exactly, in stream order, for each consecutive 127-byte window of the chunk, the 254-bit hash
of the first 64 bytes of its expansion followed by that of the last 64 bytes: `2 * n / 127`
digests. -/
theorem whole_chunk_leaf_digests (cp : CommpCollector) (hreset : cp.toState = State.reset)
    (earlier : List (List Nat)) (c : List Nat)
    (hacc : allAccepted cp (earlier.map chunkSource))
    (hc : c.length % 127 = 0) (hlen : c.length < 2 ^ 63)
    (hok : (AppendData (appendAll cp (earlier.map chunkSource)) (chunkSource c)).2 = .ok) :
    (AppendData (appendAll cp (earlier.map chunkSource)) (chunkSource c)).1.layerQueue0 =
      (appendAll cp (earlier.map chunkSource)).layerQueue0 ++
        (List.range (c.length / 127)).flatMap (fun j =>
          [hash254 [(fr32Expand ((c.drop (127 * j)).take 127)).take 64],
           hash254 [(fr32Expand ((c.drop (127 * j)).take 127)).drop 64]]) ∧
    ((List.range (c.length / 127)).flatMap (fun j =>
          [hash254 [(fr32Expand ((c.drop (127 * j)).take 127)).take 64],
           hash254 [(fr32Expand ((c.drop (127 * j)).take 127)).drop 64]])).length =
      2 * c.length / 127 := by
  obtain ⟨hf, hm⟩ := accepted_state cp hreset earlier hacc
  obtain ⟨hs, hp, hmax⟩ := accepted_chunk _ c hf hm hlen hok
  obtain ⟨_, hq, _, _, _⟩ := appendData_chunk _ c hs hp (Or.inl hc) hmax
  rw [hq, leafRow_whole c (c.length / 127) (by omega), ← rowOf_eq, rowOf_length]
  exact ⟨rfl, by omega⟩

theorem whole_chunk_leaf_digests_witness :
    (AppendData (appendAll (NewCollector 1048576) (([] : List (List Nat)).map chunkSource))
        (chunkSource (List.replicate 254 7))).2 = .ok ∧
      ((List.range ((List.replicate 254 7).length / 127)).flatMap (fun j =>
          [hash254 [(fr32Expand (((List.replicate 254 7).drop (127 * j)).take 127)).take 64],
           hash254 [(fr32Expand (((List.replicate 254 7).drop (127 * j)).take 127)).drop 64]])
        ).length = 2 * (List.replicate 254 7).length / 127 :=
  have hl : (List.replicate 254 7).length = 254 := List.length_replicate 254 7
  have hok : (AppendData (appendAll (NewCollector 1048576)
      (([] : List (List Nat)).map chunkSource)) (chunkSource (List.replicate 254 7))).2 = .ok :=
    (newCollector_chunk 1048576 (List.replicate 254 7) (Or.inl (by rw [hl]))
      (by rw [hl, maxPiecePayload_eq]; decide)).1
  ⟨hok, (whole_chunk_leaf_digests (NewCollector 1048576) rfl [] (List.replicate 254 7)
    trivial (by rw [hl]) (by rw [hl]; norm_num) hok).2⟩

/-- C22 fails on the code: an engine that has taken 254 bytes of `0x07` and was flushed is
reset, with `payloadSize = 0` and `shortChunkSeen = false`, but its work buffer keeps those
bytes. A chunk of 100 bytes is then rejected and one of 127 bytes accepted, as on a new
engine, and `FlushState` returns the root `1cc01fcb…` where the new engine returns
`54bd78cf…`. -/
theorem flushState_keeps_work_buffer :
    (AppendData (NewCollector 1048576) (chunkSource (List.replicate 254 7))).2 = .ok ∧
    (FlushState (AppendData (NewCollector 1048576)
      (chunkSource (List.replicate 254 7))).1).2.toState = State.reset ∧
    (AppendData (AppendData (FlushState (AppendData (NewCollector 1048576)
        (chunkSource (List.replicate 254 7))).1).2 (chunkSource (List.replicate 100 1))).1
        (chunkSource (List.replicate 127 2))).2 = .ok ∧
    (AppendData (AppendData (NewCollector 1048576) (chunkSource (List.replicate 100 1))).1
        (chunkSource (List.replicate 127 2))).2 = .ok ∧
    (FlushState (AppendData (AppendData (FlushState (AppendData (NewCollector 1048576)
        (chunkSource (List.replicate 254 7))).1).2 (chunkSource (List.replicate 100 1))).1
        (chunkSource (List.replicate 127 2))).1).1 =
      .commP (some [28, 192, 31, 203, 173, 175, 120, 105, 84, 71, 104, 94, 116, 105, 133, 29,
        117, 71, 219, 78, 87, 111, 153, 149, 114, 2, 221, 195, 205, 186, 200, 6]) ∧
    (FlushState (AppendData (AppendData (NewCollector 1048576)
        (chunkSource (List.replicate 100 1))).1 (chunkSource (List.replicate 127 2))).1).1 =
      .commP (some [84, 189, 120, 207, 196, 12, 203, 202, 67, 50, 183, 106, 41, 48, 135, 31,
        157, 24, 216, 132, 120, 111, 93, 42, 40, 65, 172, 70, 216, 118, 216, 19]) := by
  obtain ⟨u1, _, u3, _, u5⟩ :=
    used_rejected_then_whole 1048576 (by rw [strideSize_default]; decide)
  obtain ⟨_, n2, _, n4⟩ := new_rejected_then_whole 1048576 (by rw [strideSize_default]; decide)
  rw [root_after_rejected_used] at u5
  rw [root_after_rejected_new] at n4
  exact ⟨u1, flushState_state _, u3, n2, u5, n4⟩

/-- The method `FlushState` leaves the engine reset, with `payloadSize = 0`, `shortChunkSeen = false`,
an empty layer 0 and the zero-subtree table unchanged, whatever its state was; and for every
subsequent input, given as chunks each accepted before the next is appended, every
`AppendData` call and the following `FlushState` return what they return on a newly
constructed engine. -/
theorem flushState_resets_engine (cp : CommpCollector) (M : Nat)
    (htab : cp.stackedNulPadding = (NewCollector M).stackedNulPadding) :
    (FlushState cp).2.payloadSize = 0 ∧ (FlushState cp).2.shortChunkSeen = false ∧
    (FlushState cp).2.layerQueue0 = [] ∧
    (FlushState cp).2.stackedNulPadding = cp.stackedNulPadding ∧
    ∀ (chunks : List (List Nat)) (c : List Nat),
      (∀ x ∈ chunks, x.length < 2 ^ 63) → c.length < 2 ^ 63 →
      allAccepted (NewCollector M) (chunks.map chunkSource) →
      allAccepted (FlushState cp).2 (chunks.map chunkSource) ∧
      (AppendData (appendAll (FlushState cp).2 (chunks.map chunkSource)) (chunkSource c)).2 =
        (AppendData (appendAll (NewCollector M) (chunks.map chunkSource))
          (chunkSource c)).2 ∧
      (FlushState (AppendData (appendAll (FlushState cp).2 (chunks.map chunkSource))
          (chunkSource c)).1).1 =
        (FlushState (AppendData (appendAll (NewCollector M) (chunks.map chunkSource))
          (chunkSource c)).1).1 := by
  refine ⟨rfl, rfl, rfl, rfl, ?_⟩
  intro chunks c hlen hc hacc
  have hst : (FlushState cp).2.toState = (NewCollector M).toState := rfl
  obtain ⟨h1, h2, _, _, _⟩ := reset_flag (FlushState cp).2 rfl
  obtain ⟨s1, s2, s3, s4⟩ := appendAll_buffer chunks _ _ hst h1 h2 hlen hacc
  have hpre : (appendAll (FlushState cp).2 (chunks.map chunkSource)).shortChunkSeen = true ∨
      ((appendAll (FlushState cp).2 (chunks.map chunkSource)).payloadSize % 127 = 0 ∧
        (appendAll (FlushState cp).2 (chunks.map chunkSource)).payloadSize ≤
          MaxPiecePayload ∧ c.length < 2 ^ 63) := by
    cases hs : (appendAll (FlushState cp).2 (chunks.map chunkSource)).shortChunkSeen with
    | true => exact Or.inl rfl
    | false =>
      refine Or.inr ⟨?_, s3, hc⟩
      by_contra h
      have := s2.mpr h
      rw [hs] at this
      simp at this
  obtain ⟨r1, r2, r3, r4⟩ := appendData_buffer _ _ c s1 hpre
  refine ⟨?_, r1, ?_⟩
  · exact s4
  · show runLayers _ maxLayers 0 _ = runLayers _ maxLayers 0 _
    rw [r3, r4, appendAll_table, appendAll_table]
    have hq := congrArg State.layerQueue0 r2
    show runLayers (FlushState cp).2.stackedNulPadding maxLayers 0
        (AppendData (appendAll (FlushState cp).2 (chunks.map chunkSource))
          (chunkSource c)).1.toState.layerQueue0 =
      runLayers (NewCollector M).stackedNulPadding maxLayers 0
        (AppendData (appendAll (NewCollector M) (chunks.map chunkSource))
          (chunkSource c)).1.toState.layerQueue0
    rw [hq]
    show runLayers cp.stackedNulPadding _ _ _ = _
    rw [htab]

theorem flushState_resets_engine_witness :
    (AppendData (NewCollector 1048576)
        (chunkSource (List.replicate 128 7))).1.shortChunkSeen = true ∧
      (FlushState (AppendData (NewCollector 1048576)
        (chunkSource (List.replicate 128 7))).1).2.shortChunkSeen = false :=
  have hl : (List.replicate 128 7).length = 128 := List.length_replicate 128 7
  have h := newCollector_chunk 1048576 (List.replicate 128 7) (Or.inr (by rw [hl]; decide))
    (by rw [hl, maxPiecePayload_eq]; decide)
  ⟨by rw [h.2.2.2.2, hl]; decide,
    (flushState_resets_engine _ 1048576 (by rw [h.2.2.1, newCollector_table])).2.1⟩

/-- C23: for every sequence of leaf digests within the layer arrays, at most `2 ^ 28` of
them, the per-layer queue reducer of the source returns the root of the synchronous reducer,
which keeps one pending slot per layer, walks the cascade once for each incoming digest and
at the end pads each held digest below the top with the zero-subtree digest of its layer. -/
theorem layered_reducer_eq_synchronous (M : Nat) (leaves : List (List Nat))
    (h : leaves.length ≤ 2 ^ 28) :
    runLayers (NewCollector M).stackedNulPadding maxLayers 0 leaves =
      .commP (syncRoot (NewCollector M).stackedNulPadding leaves) := by
  rw [newCollector_table]
  exact runLayers_sync 28 0 maxLayers leaves rfl (by unfold maxLayers; omega) h

theorem layered_reducer_eq_synchronous_witness :
    [hash254 [[1]], hash254 [[2]], hash254 [[3]]].length ≤ 2 ^ 28 ∧
      runLayers (NewCollector 1048576).stackedNulPadding maxLayers 0
          [hash254 [[1]], hash254 [[2]], hash254 [[3]]] =
        .commP (syncRoot (NewCollector 1048576).stackedNulPadding
          [hash254 [[1]], hash254 [[2]], hash254 [[3]]]) :=
  ⟨by norm_num, layered_reducer_eq_synchronous 1048576
    [hash254 [[1]], hash254 [[2]], hash254 [[3]]] (by norm_num)⟩

/-- C24: in `recursivelySplitBuffer`, after any calls of the chunk callback for a work region,
the next call returns an error exactly when the chunk size is at most 0 or exceeds the region
size minus `processedBytes`, and then it reports through the inconsistency handler and
leaves the counter alone; an accepted chunk hands on the sub-region at the counter and
advances the counter by exactly its size; and the counter stays within the region size. -/
theorem splitCallback_accepts_within_region (regionSize : Int) (sizes : List Int) (cSize : Int)
    (h0 : 0 ≤ regionSize) (h1 : regionSize < 2 ^ 63) :
    ((splitCallback regionSize (splitCalls regionSize ⟨0, [], []⟩ sizes) cSize).2 = true ↔
      (cSize ≤ 0 ∨
        cSize > regionSize - (splitCalls regionSize ⟨0, [], []⟩ sizes).processedBytes)) ∧
    ((splitCallback regionSize (splitCalls regionSize ⟨0, [], []⟩ sizes) cSize).2 = true →
      (splitCallback regionSize (splitCalls regionSize ⟨0, [], []⟩ sizes) cSize).1 =
        { splitCalls regionSize ⟨0, [], []⟩ sizes with
          reported := (splitCalls regionSize ⟨0, [], []⟩ sizes).reported ++
            [(regionSize, (splitCalls regionSize ⟨0, [], []⟩ sizes).processedBytes)] }) ∧
    ((splitCallback regionSize (splitCalls regionSize ⟨0, [], []⟩ sizes) cSize).2 = false →
      (splitCallback regionSize (splitCalls regionSize ⟨0, [], []⟩ sizes) cSize).1 =
        { splitCalls regionSize ⟨0, [], []⟩ sizes with
          regions := (splitCalls regionSize ⟨0, [], []⟩ sizes).regions ++
            [((splitCalls regionSize ⟨0, [], []⟩ sizes).processedBytes, cSize)],
          processedBytes :=
            (splitCalls regionSize ⟨0, [], []⟩ sizes).processedBytes + cSize }) ∧
    0 ≤ (splitCalls regionSize ⟨0, [], []⟩ (sizes ++ [cSize])).processedBytes ∧
    (splitCalls regionSize ⟨0, [], []⟩ (sizes ++ [cSize])).processedBytes ≤ regionSize := by
  obtain ⟨a, b⟩ := splitCalls_bounds regionSize h1 sizes ⟨0, [], []⟩ (le_refl _) h0
  obtain ⟨s1, s2, s3, _, _⟩ :=
    splitCallback_step regionSize (splitCalls regionSize ⟨0, [], []⟩ sizes) cSize h1 a b
  obtain ⟨c, d⟩ := splitCalls_bounds regionSize h1 (sizes ++ [cSize]) ⟨0, [], []⟩
    (le_refl _) h0
  exact ⟨s1, s2, s3, c, d⟩

theorem splitCallback_accepts_within_region_witness :
    (0 : Int) ≤ 1000 ∧
      ((splitCallback 1000 (splitCalls 1000 ⟨0, [], []⟩ [400, 0, 700, 600]) 1).2 = true ↔
        ((1 : Int) ≤ 0 ∨
          1 > 1000 - (splitCalls 1000 ⟨0, [], []⟩ [400, 0, 700, 600]).processedBytes)) :=
  ⟨by decide,
    (splitCallback_accepts_within_region 1000 [400, 0, 700, 600] 1 (by decide) (by decide)).1⟩

/-- C25: after any sequence of `AppendData` calls on a freshly reset engine that all return no
error, `shortChunkSeen` is true exactly when `payloadSize` is not a multiple of 127; and a
chunk of exactly `StrideSize` bytes given to a freshly reset engine reaches the window loop
with the work buffer holding the chunk and nothing more, is accepted when `StrideSize` is
within `MaxPiecePayload`, and leaves `shortChunkSeen` false. -/
theorem shortChunkSeen_iff_residue (cp : CommpCollector) (hreset : cp.toState = State.reset)
    (calls : List DataSource) (hacc : allAccepted cp calls) :
    ((appendAll cp calls).shortChunkSeen = true ↔
      (appendAll cp calls).payloadSize % 127 ≠ 0) ∧
    ∀ (M : Nat) (c : List Nat), M < 2 ^ 64 → c.length = StrideSize M →
      fr32WorkBufAtLoop cp (chunkSource c) = some (zcpAppendTo c cp.fr32WorkBuf, c.length) ∧
      (AppendData cp (chunkSource c)).1.fr32WorkBuf = zcpAppendTo c cp.fr32WorkBuf ∧
      (AppendData cp (chunkSource c)).1.payloadSize = StrideSize M ∧
      (AppendData cp (chunkSource c)).1.shortChunkSeen = false ∧
      (StrideSize M ≤ MaxPiecePayload → (AppendData cp (chunkSource c)).2 = .ok) := by
  obtain ⟨h1, _, hs, hp, _⟩ := reset_flag cp hreset
  refine ⟨allAccepted_flag calls cp h1 hacc, ?_⟩
  intro M c hM hc
  have hstride : StrideSize M % 127 = 0 ∧ StrideSize M ≤ M := by unfold StrideSize; omega
  have hmod : (cp.payloadSize + c.length) % 2 ^ 64 = c.length := by
    rw [hp, Nat.zero_add]
    exact Nat.mod_eq_of_lt (by omega)
  have hr : (cp.payloadSize + c.length) % 2 ^ 64 % 127 = 0 := by rw [hmod, hc]; exact hstride.1
  have hloop := atLoop_whole cp c hs hr
  refine ⟨hloop, (appendData_loop cp _ _ _ hloop).2.2, ?_, ?_, ?_⟩
  · rw [appendData_payloadSize cp _ hs, chunkSource_size, hmod, hc]
  · rw [appendData_eq_whole cp (chunkSource c) hs (by rw [chunkSource_size]; exact hr)]
    exact hs
  · intro hle
    exact (appendData_chunk cp c hs (by rw [hp]) (Or.inl (by rw [hc]; exact hstride.1))
      (by rw [hp, hc]; omega)).1

theorem shortChunkSeen_iff_residue_witness :
    allAccepted (NewCollector 1048576) [chunkSource (List.replicate 128 7)] ∧
      ((appendAll (NewCollector 1048576) [chunkSource (List.replicate 128 7)]).shortChunkSeen
          = true ↔
        (appendAll (NewCollector 1048576)
          [chunkSource (List.replicate 128 7)]).payloadSize % 127 ≠ 0) :=
  have hl : (List.replicate 128 7).length = 128 := List.length_replicate 128 7
  have hacc : allAccepted (NewCollector 1048576) [chunkSource (List.replicate 128 7)] :=
    ⟨(newCollector_chunk 1048576 (List.replicate 128 7) (Or.inr (by rw [hl]; decide))
      (by rw [hl, maxPiecePayload_eq]; decide)).1, trivial⟩
  ⟨hacc, (shortChunkSeen_iff_residue (NewCollector 1048576) rfl
    [chunkSource (List.replicate 128 7)] hacc).1⟩

/-- C26 fails as stated: a stream of `MaxPiecePayload + 127` bytes split into a chunk of
`MaxPiecePayload` bytes, a positive multiple of 127, and a last chunk of 127 bytes has its
first call accepted and its second call rejected. -/
theorem whole_chunks_counterexample :
    0 < (List.replicate MaxPiecePayload 0).length ∧
    (List.replicate MaxPiecePayload 0).length % 127 = 0 ∧
    (AppendData (NewCollector 1048576) (chunkSource (List.replicate MaxPiecePayload 0))).2 =
      .ok ∧
    (AppendData
      (AppendData (NewCollector 1048576) (chunkSource (List.replicate MaxPiecePayload 0))).1
      (chunkSource (List.replicate 127 0))).2 = .error .maximumPayload := by
  have hl : (List.replicate MaxPiecePayload 0).length = MaxPiecePayload :=
    List.length_replicate _ _
  have hmax := maxPiecePayload_eq
  have hmod : MaxPiecePayload % 127 = 0 := by rw [hmax]
  obtain ⟨a, _, _, hp, hs⟩ := newCollector_chunk 1048576 (List.replicate MaxPiecePayload 0)
    (Or.inl (by rw [hl]; exact hmod)) (by rw [hl])
  refine ⟨by rw [hl, hmax]; norm_num, by rw [hl]; exact hmod, a, ?_⟩
  refine (appendData_over_max _ (chunkSource (List.replicate 127 0))
    (by rw [hs, hl]; simp [hmod]) (by simp [chunkSource]) ?_).1
  rw [hp, hl, chunkSource_size, List.length_replicate, hmax]
  norm_num

/-- C26, amended: for every byte stream of at least 127 bytes and at most `2 ^ 27` windows and
every split of it into consecutive chunks in which every chunk except possibly the last has a
length that is a positive multiple of 127, every `AppendData` call succeeds, layer 0 has
received the leaf digests of the whole stream, and `FlushState` returns the root that a single
`AppendData` of the whole stream gives. -/
theorem whole_chunks_same_root (M : Nat) (whole : List (List Nat)) (last : List Nat)
    (hwhole : ∀ c ∈ whole, 0 < c.length ∧ c.length % 127 = 0)
    (hmin : 127 ≤ (whole.flatten ++ last).length)
    (hmax : windowCount (whole.flatten ++ last).length ≤ 2 ^ 27) :
    allAccepted (NewCollector M) ((whole ++ [last]).map chunkSource) ∧
    (appendAll (NewCollector M) ((whole ++ [last]).map chunkSource)).layerQueue0 =
      leafRow (whole.flatten ++ last) ∧
    ∃ root, commP M (whole.flatten ++ last) = .commP (some root) ∧
      (FlushState (appendAll (NewCollector M) ((whole ++ [last]).map chunkSource))).1 =
        .commP (some root) := by
  have hw : ∀ c ∈ whole, c.length % 127 = 0 := fun c hc => (hwhole c hc).2
  have hle : (whole.flatten ++ last).length ≤ MaxPiecePayload := by
    rw [maxPiecePayload_eq]
    unfold windowCount at hmax
    have : (2 : Nat) ^ 27 = 134217728 := by norm_num
    omega
  obtain ⟨h1, h2⟩ := chunked_root M whole last hw hmin hle
  have hk := Nat.le_pow_clog (by omega : 1 < 2) (windowCount (whole.flatten ++ last).length)
  have hleast : ∀ j, windowCount (whole.flatten ++ last).length ≤ 2 ^ j →
      Nat.clog 2 (windowCount (whole.flatten ++ last).length) ≤ j :=
    fun j hj => (Nat.le_pow_iff_clog_le (by omega)).mp hj
  have hroot := commP_eq_treeRoot M (whole.flatten ++ last) _ hmin hmax hk hleast
  refine ⟨?_, ?_, _, hroot, by rw [h2]; exact hroot⟩
  · exact allAccepted_of_calls _ _ h1
  · rw [List.length_append] at hmin hle
    obtain ⟨w1, w2, w3, _, _⟩ := appendAll_whole whole (NewCollector M) rfl rfl hw
      (by show 0 + _ ≤ _; omega)
    have w2' : (appendAll (NewCollector M) (whole.map chunkSource)).payloadSize =
        whole.flatten.length := by rw [w2]; exact Nat.zero_add _
    obtain ⟨_, l2, _, _, _⟩ := appendData_chunk
      (appendAll (NewCollector M) (whole.map chunkSource)) last w1
      (by rw [w2']; exact flatten_length_mod whole hw)
      (Or.inr (by rw [w2']; omega)) (by rw [w2']; omega)
    rw [List.map_append, appendAll_append]
    show (AppendData _ (chunkSource last)).1.layerQueue0 = _
    rw [l2, w3, leafRow_append_whole _ _ (flatten_length_mod whole hw)]
    rfl

theorem whole_chunks_same_root_witness :
    (∀ c ∈ [List.replicate 127 7], 0 < c.length ∧ c.length % 127 = 0) ∧
      allAccepted (NewCollector 1048576)
        (([List.replicate 127 7] ++ [List.replicate 3 9]).map chunkSource) :=
  have hw : ∀ c ∈ [List.replicate 127 7], 0 < c.length ∧ c.length % 127 = 0 := by
    intro c hc
    simp only [List.mem_singleton] at hc
    rw [hc, List.length_replicate]
    decide
  have hl : ([List.replicate 127 7].flatten ++ List.replicate 3 9).length = 130 := by
    simp only [List.flatten, List.append_nil, List.length_append, List.length_replicate]
  ⟨hw, (whole_chunks_same_root 1048576 [List.replicate 127 7] (List.replicate 3 9) hw
    (by rw [hl]; decide) (by rw [hl]; decide)).1⟩

/-- C27: when the requested collector chain is exactly "fil-commP", the check of `NewFromArgv`
turns an empty chunker spec into "fixed-size_" followed by `StrideSize` in decimal and adds no
error, leaves that very spec alone without an error, and for any other chunker spec adds the
"fil-commP requires a specific chunkers spec" argument error. -/
theorem commP_requires_stride_chunker (StrideSize : Nat) (requestedChunkers : String)
    (argParseErrs : List String) :
    requireCommPChunker StrideSize "fil-commP" "" argParseErrs =
      ("fixed-size_" ++ toString StrideSize, argParseErrs) ∧
    requireCommPChunker StrideSize "fil-commP" ("fixed-size_" ++ toString StrideSize)
        argParseErrs = ("fixed-size_" ++ toString StrideSize, argParseErrs) ∧
    (requestedChunkers ≠ "" → requestedChunkers ≠ "fixed-size_" ++ toString StrideSize →
      requireCommPChunker StrideSize "fil-commP" requestedChunkers argParseErrs =
        (requestedChunkers, argParseErrs ++
          ["fil-commP requires a specific chunkers spec of '" ++
            ("fixed-size_" ++ toString StrideSize) ++ "'"])) := by
  refine ⟨?_, ?_, ?_⟩
  · simp [requireCommPChunker]
  · simp [requireCommPChunker, requiredChunker_ne_empty]
  · intro h1 h2
    simp [requireCommPChunker, h1, h2]

theorem commP_requires_stride_chunker_witness :
    "fixed-size_262144" ≠ "" ∧
      requireCommPChunker 1048512 "fil-commP" "fixed-size_262144" [] =
        ("fixed-size_262144",
          [] ++ ["fil-commP requires a specific chunkers spec of '" ++
            ("fixed-size_" ++ toString 1048512) ++ "'"]) :=
  ⟨by decide,
    (commP_requires_stride_chunker 1048512 "fixed-size_262144" []).2.2 (by decide) (by decide)⟩

/-- C28: on an engine that was reset and has since accepted every chunk given to it, each
chunk's `Size` being its content length, whenever `AppendData` reaches its window loop the
length of the work buffer is the chunk length rounded up to the next multiple of 127, the
buffer holds the chunk followed by zero bytes up to that length, and every slice
`[wbufIdx, wbufIdx+127)` the loop takes ends within that length, so that the call does not
panic. -/
theorem window_slices_within_chunk (cp : CommpCollector) (hreset : cp.toState = State.reset)
    (earlier : List (List Nat)) (c : List Nat)
    (hacc : allAccepted cp (earlier.map chunkSource)) (hlen : c.length < 2 ^ 63)
    (arr : List Nat) (len : Nat)
    (hloop : fr32WorkBufAtLoop (appendAll cp (earlier.map chunkSource)) (chunkSource c) =
      some (arr, len)) :
    len % 127 = 0 ∧ c.length ≤ len ∧ len < c.length + 127 ∧ len ≤ arr.length ∧
    arr.take len = c ++ List.replicate (len - c.length) 0 ∧
    (∀ wbufIdx, wbufIdx % 127 = 0 → wbufIdx < len → wbufIdx + 127 ≤ len) ∧
    (AppendData (appendAll cp (earlier.map chunkSource)) (chunkSource c)).2 =
      (windowLoop (((appendAll cp (earlier.map chunkSource)).payloadSize + c.length) % 2 ^ 64)
        arr ((len + 126) / 127) 0 (appendAll cp (earlier.map chunkSource)).layerQueue0).2 ∧
    (AppendData (appendAll cp (earlier.map chunkSource)) (chunkSource c)).2 ≠ .panic := by
  obtain ⟨hf, hm⟩ := accepted_state cp hreset earlier hacc
  have hs : (appendAll cp (earlier.map chunkSource)).shortChunkSeen = false := by
    cases h : (appendAll cp (earlier.map chunkSource)).shortChunkSeen with
    | false => rfl
    | true => simp [fr32WorkBufAtLoop, h] at hloop
  have hp : (appendAll cp (earlier.map chunkSource)).payloadSize % 127 = 0 := by
    by_contra h
    have := hf.mpr h
    rw [hs] at this
    simp at this
  obtain ⟨l1, l2, l3⟩ := loop_buffer _ c hp hm hlen arr len hloop
  have hrun := (appendData_loop _ _ arr len hloop).1
  have hw : len % 127 = 0 ∧ c.length ≤ len ∧ len < c.length + 127 := by
    unfold windowCount at l1
    omega
  refine ⟨hw.1, hw.2.1, hw.2.2, l2, l3, fun k h1 h2 => by omega, hrun, ?_⟩
  rw [hrun]
  exact windowLoop_no_panic _ arr _ _ (by rw [ceil_whole len hw.1]; exact l2)

theorem window_slices_within_chunk_witness :
    fr32WorkBufAtLoop (appendAll (NewCollector 1048576) (([] : List (List Nat)).map chunkSource))
        (chunkSource (List.replicate 128 7)) =
      some (goAppend (zcpAppendTo (List.replicate 128 7) (NewCollector 1048576).fr32WorkBuf)
          (List.replicate 128 7).length
          (List.replicate (127 - ((NewCollector 1048576).payloadSize +
            (List.replicate 128 7).length) % 2 ^ 64 % 127) 0),
        (List.replicate 128 7).length + (127 - ((NewCollector 1048576).payloadSize +
            (List.replicate 128 7).length) % 2 ^ 64 % 127)) ∧
      ((List.replicate 128 7).length + (127 - ((NewCollector 1048576).payloadSize +
            (List.replicate 128 7).length) % 2 ^ 64 % 127)) % 127 = 0 :=
  have hl : (List.replicate 128 7).length = 128 := List.length_replicate 128 7
  have hloop := atLoop_padded (NewCollector 1048576) (List.replicate 128 7) rfl
    (by rw [hl, newCollector_payloadSize]; norm_num)
    (by rw [hl, newCollector_payloadSize]; norm_num)
  ⟨hloop, (window_slices_within_chunk (NewCollector 1048576) rfl [] (List.replicate 128 7)
    trivial (by rw [hl]; norm_num) _ _ hloop).1⟩

/-- C29 fails on the code: for a car file that opens and for which `ProcessReader` returns no
error and no digest, as `FlushState` does for an empty input, `validateCommP` neither returns
true nor returns false with a new entry in `HardFails`: taking the last 16 bytes panics. -/
theorem validateCommP_panics_without_digest (M : Nat) (known : List Nat)
    (hardFails : List HardFail) :
    (FlushState (NewCollector M)).1 = .commP none ∧
    validateCommP none (.ok []) known hardFails = .panic := by
  refine ⟨?_, ?_⟩
  · exact flushState_empty (NewCollector M) rfl
  · simp [validateCommP]

/-- C30 fails as stated when the sanity checks are compiled in: for `v = 2 ^ 63`
`VarintWireSize` panics, while `AppendVarint` appends 10 bytes. -/
theorem varintWireSize_counterexample :
    VarintWireSize true (2 ^ 63) = none ∧ (AppendVarint [] (2 ^ 63)).length = 10 := by
  refine ⟨?_, ?_⟩
  · unfold VarintWireSize
    rw [if_pos (by norm_num)]
  · rw [appendVarint_length (2 ^ 63) (by norm_num) [], if_neg (by norm_num),
      bitsLen64_eq_size _ (by norm_num), Nat.size_pow]
    rfl

/-- C30, amended: for every `uint64` `v`, `VarintWireSize(v)` panics exactly when the sanity
checks are compiled in and `v` exceeds `2 ^ 63 - 1`; whenever it returns, its value is the
number of bytes `AppendVarint` appends for `v`, `VarintSlice(v)` is made with that capacity
and has exactly that length, and for `v ≤ 2 ^ 63 - 1` the value is at most 9. -/
theorem varintWireSize_eq_appended (PerformSanityChecks : Bool) (v : Nat) (hv : v < 2 ^ 64)
    (tgt : List Nat) :
    (VarintWireSize PerformSanityChecks v = none ↔
      (PerformSanityChecks = true ∧ 2 ^ 63 - 1 < v)) ∧
    (∀ n, VarintWireSize PerformSanityChecks v = some n →
      (AppendVarint tgt v).length = tgt.length + n ∧
      VarintSlice PerformSanityChecks v = some (n, AppendVarint [] v) ∧
      (AppendVarint [] v).length = n ∧
      (v ≤ 2 ^ 63 - 1 → n ≤ 9)) := by
  have hlen := appendVarint_length v hv
  refine ⟨?_, ?_⟩
  · unfold VarintWireSize
    by_cases hg : (PerformSanityChecks && decide (v > 2 ^ 63 - 1)) = true
    · rw [if_pos hg]
      simpa using hg
    · rw [if_neg hg]
      have hn : ¬ (PerformSanityChecks = true ∧ 2 ^ 63 - 1 < v) := by simpa using hg
      by_cases h0 : v = 0
      · rw [if_pos h0]
        exact ⟨fun h => by simp at h, fun h => absurd h hn⟩
      · rw [if_neg h0]
        exact ⟨fun h => by simp at h, fun h => absurd h hn⟩
  · intro n hn
    have hcnt : n = if v = 0 then 1 else (bitsLen64 v + 6) / 7 := by
      unfold VarintWireSize at hn
      by_cases hg : (PerformSanityChecks && decide (v > 2 ^ 63 - 1)) = true
      · rw [if_pos hg] at hn; simp at hn
      · rw [if_neg hg] at hn
        by_cases h0 : v = 0
        · rw [if_pos h0] at hn ⊢; exact (Option.some.inj hn).symm
        · rw [if_neg h0] at hn ⊢; exact (Option.some.inj hn).symm
    refine ⟨?_, ?_, ?_, ?_⟩
    · rw [hlen tgt, hcnt]
    · unfold VarintSlice
      rw [hn]
    · rw [hlen [], hcnt]; simp
    · intro hv63
      rw [hcnt]
      by_cases h0 : v = 0
      · rw [if_pos h0]; omega
      · rw [if_neg h0]
        have : bitsLen64 v ≤ 63 := bitsLen64_le v 63 hv (by omega)
        omega

theorem varintWireSize_eq_appended_witness :
    (300 : Nat) < 2 ^ 64 ∧ VarintWireSize true 300 = some 2 ∧
      (AppendVarint [7] 300).length = [7].length + 2 :=
  have h : VarintWireSize true 300 = some 2 := by decide
  ⟨by norm_num, h, ((varintWireSize_eq_appended true 300 (by norm_num) [7]).2 2 h).1⟩

end Filcommp
